import Mathlib

/-!
Verification of the Nanvix lottery scheduler (`src/kernel/pm/sched.c`-style
file) and block buffer cache (`src/kernel/fs/buffer.c`) against their
natural-language specification.

The C sources are shallowly embedded: C `int` values become `Int` (with
explicit truncated division `Int.tdiv` where C `/` appears), C `unsigned long`
arithmetic is `Nat` arithmetic reduced `% 2^64`, C `float` arithmetic in
`add_compensation` is modelled by exact dyadic fractions with IEEE-754
single-precision rounding (round to nearest, ties to even, 24-bit
significand: `roundF32`) applied at every conversion and operation, and the
intrusive doubly-linked pointer structures of the buffer cache are embedded
with an explicit pointer type addressing every `struct buffer` object
(the buffer pool, the free-list sentinel and the hash-table sentinels).
-/

namespace Nanvix

/-! ## Scheduler: data model

The scheduler reads and writes these fields of `struct process`
(declared in `<nanvix/pm.h>`, outside the two embedded files). -/

/-- Process states; the embedded code only tests for `PROC_READY`
(`ready`) and `PROC_RUNNING` (`running`). -/
inductive ProcState where
  | ready
  | running
  | stopped
  | waiting
  | zombie
  | dead
deriving DecidableEq, Repr

/-- The fields of `struct process` that the scheduler code reads or writes.
C `int` fields are embedded as `Int`. -/
structure SchedProc where
  state : ProcState
  counter : Int
  tickets : Int
  compensation : Int
  priority : Int
  nice : Int
  alarm : Int
deriving DecidableEq, Repr

/-! ## Scheduler: embedded operations -/

/-- `rand()` from the scheduler file:
```c
int rand(void) {
    unsigned long int seed = CURRENT_TIME * 1103515245 + 12345;
    return (unsigned int) (seed/65536) % 32768;
}
```
`CURRENT_TIME` is the wall-clock tick counter (`ticks`), a C unsigned
value, embedded as the explicit argument `ticks : Nat`.  The
`unsigned long` computation of `seed` is 64-bit arithmetic, hence the
`% 2 ^ 64`.  The result of
`(unsigned int)(seed/65536) % 32768` equals `(seed / 65536) % 32768`
because `32768` divides `2 ^ 32`. -/
def rand (ticks : Nat) : Nat :=
  ((ticks * 1103515245 + 12345) % 2 ^ 64 / 65536) % 32768

/-- `next_process()` from the scheduler file:
```c
int next_process(int total_tickets){
    return (rand()*total_tickets/32768)+1;
}
```
C `int` division truncates toward zero, embedded as `Int.tdiv`. -/
def next_process (ticks : Nat) (total_tickets : Int) : Int :=
  ((rand ticks : Int) * total_tickets).tdiv 32768 + 1

/-- The first process-table walk of `yield()` restricted to what it
computes: the sum of `tickets + compensation` over all `PROC_READY`
processes:
```c
for (p = FIRST_PROC; p <= LAST_PROC; p++) {
    if (p->state == PROC_READY) {
        total_tickets += (p->tickets + p->compensation);
    }
    ...
}
```
The process table `FIRST_PROC .. LAST_PROC` is embedded as a list. -/
def total_tickets (ps : List SchedProc) : Int :=
  ps.foldl (fun acc p => if p.state = .ready then acc + (p.tickets + p.compensation) else acc) 0

/-- The second process-table walk of `yield()`: starting from
`next = IDLE`, accumulate `tickets + compensation` over `PROC_READY`
processes and select the first one whose running sum strictly exceeds
`sorted_ticket`:
```c
for (p = FIRST_PROC; p <= LAST_PROC; p++) {
    if (p->state != PROC_READY)
        continue;
    tickets_sum += (p->tickets + p->compensation);
    if (tickets_sum > sorted_ticket) {
        next = p;
        break;
    }
}
```
The result is the table index of `next`; `none` means the loop never
replaced `next`, i.e. the `IDLE` process is chosen. -/
def chooseAux (sorted_ticket : Int) : List SchedProc → Int → Nat → Option Nat
  | [], _, _ => none
  | p :: rest, tickets_sum, idx =>
    if p.state ≠ .ready then
      chooseAux sorted_ticket rest tickets_sum (idx + 1)
    else
      let sum' := tickets_sum + (p.tickets + p.compensation)
      if sum' > sorted_ticket then some idx
      else chooseAux sorted_ticket rest sum' (idx + 1)

/-- The selection step of `yield()`: compute `total_tickets` over the
table, draw `sorted_ticket = next_process(total_tickets)` and run the
selection walk.  `none` is the `IDLE` process. -/
def yieldChoose (ps : List SchedProc) (ticks : Nat) : Option Nat :=
  chooseAux (next_process ticks (total_tickets ps)) ps 0 0

/-- Exact fractions (not necessarily normalized): the values flowing
through the `float` computation of `add_compensation`.  A `float`
variable holds a `Frac` produced by the binary32 rounding `roundF32`
(an exact dyadic fraction); `den` is nonzero at every use site
below. -/
structure Frac where
  num : Int
  den : Int
deriving DecidableEq, Repr

/-- The exact fraction an integer denotes. -/
def Frac.ofInt (n : Int) : Frac := ⟨n, 1⟩

/-- Exact division of fractions. -/
def Frac.div (a b : Frac) : Frac := ⟨a.num * b.den, a.den * b.num⟩

/-- Truncation toward zero, as performed by the C cast `(unsigned int)`
applied to a nonnegative `float` value (`Int.tdiv` truncates toward
zero). -/
def Frac.trunc (a : Frac) : Int := a.num.tdiv a.den

/-- The exact rational value of a fraction. -/
def Frac.val (a : Frac) : ℚ := (a.num : ℚ) / (a.den : ℚ)

/-- Number of binary digits of `n`, driven by explicit fuel: the
recursion halves `n` until it reaches `0`, and any `fuel ≥ bits(n)`
(in particular `fuel = n`, see `natBits`) yields the bit length. -/
def bitlen : Nat → Nat → Nat
  | 0, _ => 0
  | fuel + 1, n => if n = 0 then 0 else bitlen fuel (n / 2) + 1

/-- Number of binary digits of `n` (`0` for `0`): `n` itself is always
enough fuel, since `bits(n) ≤ n` for every `n`. -/
def natBits (n : Nat) : Nat := bitlen n n

/-- IEEE-754 binary32 rounding of the exact fraction `a`: round to
nearest, ties to even, at 24 significand bits, with the minimum
(subnormal) exponent clamped at `2^(-126-23)` so that tiny values
round through the subnormal grid to `0` exactly as `float` does.
Overflow to infinity is not modelled: every value the embedded
computation can produce from C-`int` inputs stays far below `2^128`
(quotients are bounded by `2^31 · 2^31`), where binary32 rounding never
overflows.  The algorithm is integer-exact: `e` is the floor of the
base-2 logarithm of `|a|` (computed from bit lengths and one
cross-multiplied comparison), and the significand `m` is `|a| / 2^(e-23)`
rounded half-to-even. -/
def roundF32 (a : Frac) : Frac :=
  let N : Nat := a.num.natAbs
  let D : Nat := a.den.natAbs
  if N = 0 ∨ D = 0 then ⟨0, 1⟩
  else
    let sgn : Int := if (0 < a.num ∧ 0 < a.den) ∨ (a.num < 0 ∧ a.den < 0) then 1 else -1
    let e0 : Int := (natBits N : Int) - (natBits D : Int)
    let e1 : Int := if N * 2 ^ (Int.toNat (-e0)) < D * 2 ^ (Int.toNat e0) then e0 - 1 else e0
    let e : Int := max e1 (-126)
    let A : Nat := N * 2 ^ (Int.toNat (23 - e))
    let B : Nat := D * 2 ^ (Int.toNat (e - 23))
    let q : Nat := A / B
    let r : Nat := A % B
    let m : Nat :=
      if 2 * r < B then q else if B < 2 * r then q + 1 else if q % 2 = 0 then q else q + 1
    ⟨sgn * ((m * 2 ^ (Int.toNat (e - 23)) : Nat) : Int), ((2 ^ (Int.toNat (23 - e)) : Nat) : Int)⟩

/-- The `float` value of an `int`: the C conversion rounds the integer
to binary32. -/
def f32ofInt (n : Int) : Frac := roundF32 (Frac.ofInt n)

/-- `float` division: the exact quotient rounded to binary32. -/
def f32div (a b : Frac) : Frac := roundF32 (Frac.div a b)

/- `PROC_QUANTUM` is a compile-time constant defined outside the two
embedded files; it is kept as an explicit parameter `quantum`. -/

/-- `add_compensation()` from the scheduler file:
```c
PUBLIC void add_compensation() {
    if (curr_proc->counter > 0 && curr_proc->counter != PROC_QUANTUM) {
        float used_quantum = PROC_QUANTUM - curr_proc->counter;
        float fraction = used_quantum / PROC_QUANTUM;
        float compensation = curr_proc->tickets / fraction;
        int final = (unsigned int) compensation - curr_proc->tickets;
        curr_proc->compensation = final;
    }
}
```
The C `float` computation is modelled step by step with binary32
rounding (`roundF32`): `PROC_QUANTUM - curr_proc->counter` is `int`
subtraction whose result is converted to `float` (`f32ofInt`), each
`float` division rounds its exact quotient (`f32div`), and the operand
promotions `PROC_QUANTUM` and `curr_proc->tickets` round the integers
to `float` (`f32ofInt`).  The cast `(unsigned int)` truncates toward
zero (`Frac.trunc`); the subsequent C subtraction is performed on
`unsigned int` and stored in an `int`, which agrees with exact integer
subtraction whenever `0 <= tickets <= trunc(compensation)`, which
holds in the executions covered by the theorems below. -/
def add_compensation (quantum : Int) (p : SchedProc) : SchedProc :=
  if p.counter > 0 ∧ p.counter ≠ quantum then
    let used_quantum : Frac := f32ofInt (quantum - p.counter)
    let fraction : Frac := f32div used_quantum (f32ofInt quantum)
    let compensation : Frac := f32div (f32ofInt p.tickets) fraction
    let final : Int := Frac.trunc compensation - p.tickets
    { p with compensation := final }
  else
    p

/-- `sched()` from the scheduler file: mark ready, zero the counter. -/
def sched (p : SchedProc) : SchedProc :=
  { p with state := .ready, counter := 0 }

/-! ## Buffer cache: data model

`fs/buffer.c` manipulates three kinds of `struct buffer` objects through
pointers: the pool `buffers[NR_BUFFERS]`, the free-list sentinel
`free_buffers`, and the hash-table sentinels `hashtab[BUFFERS_HASHTAB_SIZE]`.
All of them share the full struct layout, and the code does follow
sentinel pointers as if they were buffers, so the embedding addresses
every object uniformly through the pointer type `Ptr`. -/

/-- A pointer to a `struct buffer` object. `null` is the C `NULL`. -/
inductive Ptr where
  | buf (i : Nat)
  | freeHead
  | hashHead (i : Nat)
  | null
deriving DecidableEq, Repr

/-- `struct buffer` (declared in `<nanvix/fs.h>`, outside the embedded
sources; fields are those the embedded code uses).  `dev`/`num` are the
unsigned `dev_t`/`block_t`; `data` is the address of the backing region;
`count` is the C `int` reference count; `flags` is the C flag word
(32-bit, embedded as `Nat` kept below `2^32` by the masked writes);
`chain` is the wait queue of sleeping processes (process ids). -/
structure Buffer where
  dev : Nat
  num : Nat
  data : Nat
  count : Int
  flags : Nat
  chain : List Nat
  free_next : Ptr
  free_prev : Ptr
  hash_next : Ptr
  hash_prev : Ptr
deriving DecidableEq, Repr

instance : Inhabited Buffer :=
  ⟨⟨0, 0, 0, 0, 0, [], .null, .null, .null, .null⟩⟩

/-- Modelled from the spec: the flag constants `BUFFER_VALID`,
`BUFFER_BUSY`, `BUFFER_LOCKED`, `BUFFER_DIRTY` are defined in
`<nanvix/fs.h>`, which is not among the embedded sources; the spec
describes `flags` as a set of `{VALID, DIRTY, LOCKED, BUSY}`, so they
are modelled as four distinct single-bit masks (the development depends
only on their being distinct bits of the 32-bit flag word). -/
def BUFFER_VALID : Nat := 1

/-- Modelled from the spec: see `BUFFER_VALID`. -/
def BUFFER_BUSY : Nat := 2

/-- Modelled from the spec: see `BUFFER_VALID`. -/
def BUFFER_LOCKED : Nat := 4

/-- Modelled from the spec: see `BUFFER_VALID`. -/
def BUFFER_DIRTY : Nat := 8

/-- The C bitwise complement `~mask` of a flag mask, within the 32-bit
flag word (for a submask of the 32-bit all-ones word, complement is
subtraction from `2^32 - 1`). -/
def compl32 (mask : Nat) : Nat := 4294967295 - mask

/-- Observable side effects of the buffer cache on its collaborators:
device reads/writes issued to the block driver, and calls to the
scheduler primitive `wakeup` (on the global `chain` of processes
waiting for any free buffer, or on a buffer's own wait queue). -/
inductive Event where
  | devRead (dev num : Nat)
  | devWrite (dev num : Nat)
  | wakeupFree
  | wakeupBuf (p : Ptr)
deriving DecidableEq, Repr

/-- The global state of the buffer cache: the configured pool size
`NR_BUFFERS` (`nbuf`) and hash-table size `BUFFERS_HASHTAB_SIZE`
(`htsize`), the contents of every `struct buffer` object (`nodes`),
the global wait queue `chain`, and the trace of observable events. -/
structure BCState where
  nbuf : Nat
  htsize : Nat
  nodes : Ptr → Buffer
  chain : List Nat
  events : List Event

/-- Dereference a pointer. -/
def readPtr (s : BCState) (p : Ptr) : Buffer := s.nodes p

/-- Update the object a pointer refers to. -/
def writePtr (s : BCState) (p : Ptr) (f : Buffer → Buffer) : BCState :=
  { s with nodes := fun q => if q = p then f (s.nodes q) else s.nodes q }

/-- The `kpanic` messages the embedded code can raise. -/
inductive KPanic where
  | getblk00
  | asyncWrite
  | freeingTwice
deriving DecidableEq, Repr

/-- Result of running one buffer-cache operation in the single-process
embedding: `ok` returns to the caller (interrupts re-enabled), `blocked`
means the calling process went to sleep on a wait queue (in the
single-process model nothing can wake it, so the operation does not
return; the state at the sleep point is recorded), `panic` is a fatal
`kpanic` with the state at the panic point. -/
inductive Outcome (α : Type) where
  | ok (val : α) (s : BCState)
  | blocked (s : BCState)
  | panic (msg : KPanic) (s : BCState)

/-- Sequencing of operations: sleeping or panicking aborts the caller. -/
def Outcome.bind {α β : Type} : Outcome α → (α → BCState → Outcome β) → Outcome β
  | .ok a s, f => f a s
  | .blocked s, _ => .blocked s
  | .panic m s, _ => .panic m s

/-- The state an outcome left the system in. -/
def Outcome.state {α : Type} : Outcome α → BCState
  | .ok _ s => s
  | .blocked s => s
  | .panic _ s => s

/-- The returned value, if the operation returned. -/
def Outcome.val? {α : Type} : Outcome α → Option α
  | .ok a _ => some a
  | .blocked _ => none
  | .panic _ _ => none

/-- The panic message, if the operation panicked. -/
def Outcome.panicMsg? {α : Type} : Outcome α → Option KPanic
  | .ok _ _ => none
  | .blocked _ => none
  | .panic m _ => some m

/-- Modelled from the spec: `wakeup(queue)` (scheduler primitive, not
among the embedded sources) "moves every sleeper on that queue to
READY"; wait-queue membership "must be severed on wakeup".  Waking a
buffer's own queue empties it and records the wakeup. -/
def wakeupBufChain (s : BCState) (p : Ptr) : BCState :=
  let s1 := writePtr s p (fun b => { b with chain := [] })
  { s1 with events := s1.events ++ [Event.wakeupBuf p] }

/-- Modelled from the spec: `wakeup(&chain)` on the global queue of
processes waiting for any free buffer. -/
def wakeupFreeChain (s : BCState) : BCState :=
  { s with chain := [], events := s.events ++ [Event.wakeupFree] }

/-! ## Buffer cache: embedded operations -/

/-- The hash function:
```c
#define HASH(dev, block) (((dev)^(block))%BUFFERS_HASHTAB_SIZE)
``` -/
def HASH (s : BCState) (dev block : Nat) : Nat :=
  (dev ^^^ block) % s.htsize

/-- The hash-bucket search loop of `getblk`:
```c
for (buf = hashtab[i].hash_next; buf != &hashtab[i]; buf = buf->hash_next)
{
    if ((buf->dev != dev) || (buf->num != num))
        continue;
    ...
}
```
returning the first entry of the bucket matching `(dev, num)`, or
`none` when the walk comes back to the sentinel.  The walk is given
fuel (any bound larger than the bucket length; well-formed buckets are
shorter than the whole pool). -/
def hashSearch (s : BCState) (sentinel : Ptr) (dev num : Nat) : Nat → Ptr → Option Ptr
  | 0, _ => none
  | fuel + 1, p =>
    if p = sentinel then none
    else if (readPtr s p).dev = dev ∧ (readPtr s p).num = num then some p
    else hashSearch s sentinel dev num fuel (readPtr s p).hash_next

/-- Unlinking a buffer from the free list through its own pointers:
```c
buf->free_prev->free_next = buf->free_next;
buf->free_next->free_prev = buf->free_prev;
```
(each statement reads the state left by the previous one). -/
def freeUnlink (s : BCState) (p : Ptr) : BCState :=
  let s1 := writePtr s (readPtr s p).free_prev
    (fun b => { b with free_next := (readPtr s p).free_next })
  writePtr s1 (readPtr s1 p).free_next
    (fun b => { b with free_prev := (readPtr s1 p).free_prev })

/-- Unlinking a buffer from its hash queue through its own pointers:
```c
buf->hash_prev->hash_next = buf->hash_next;
buf->hash_next->hash_prev = buf->hash_prev;
``` -/
def hashUnlink (s : BCState) (p : Ptr) : BCState :=
  let s1 := writePtr s (readPtr s p).hash_prev
    (fun b => { b with hash_next := (readPtr s p).hash_next })
  writePtr s1 (readPtr s1 p).hash_next
    (fun b => { b with hash_prev := (readPtr s1 p).hash_prev })

/-- Inserting a buffer at the head of hash bucket `i`:
```c
hashtab[i].hash_next->hash_prev = buf;
buf->hash_prev = &hashtab[i];
buf->hash_next = hashtab[i].hash_next;
hashtab[i].hash_next = buf;
``` -/
def hashInsertHead (s : BCState) (i : Nat) (p : Ptr) : BCState :=
  let s1 := writePtr s (readPtr s (Ptr.hashHead i)).hash_next (fun b => { b with hash_prev := p })
  let s2 := writePtr s1 p (fun b => { b with hash_prev := Ptr.hashHead i })
  let s3 := writePtr s2 p
    (fun b => { b with hash_next := (readPtr s2 (Ptr.hashHead i)).hash_next })
  writePtr s3 (Ptr.hashHead i) (fun b => { b with hash_next := p })

/-- Inserting a buffer at the tail of the free list ("frequently used
buffer"):
```c
free_buffers.free_prev->free_next = buf;
buf->free_prev = free_buffers.free_prev;
free_buffers.free_prev = buf;
buf->free_next = &free_buffers;
``` -/
def freeInsertTail (s : BCState) (p : Ptr) : BCState :=
  let s1 := writePtr s (readPtr s Ptr.freeHead).free_prev (fun b => { b with free_next := p })
  let s2 := writePtr s1 p (fun b => { b with free_prev := (readPtr s1 Ptr.freeHead).free_prev })
  let s3 := writePtr s2 Ptr.freeHead (fun b => { b with free_prev := p })
  writePtr s3 p (fun b => { b with free_next := Ptr.freeHead })

/-- Inserting a buffer at the head of the free list ("not frequently
used buffer"):
```c
free_buffers.free_next->free_prev = buf;
buf->free_prev = &free_buffers;
buf->free_next = free_buffers.free_next;
free_buffers.free_next = buf;
``` -/
def freeInsertHead (s : BCState) (p : Ptr) : BCState :=
  let s1 := writePtr s (readPtr s Ptr.freeHead).free_next (fun b => { b with free_prev := p })
  let s2 := writePtr s1 p (fun b => { b with free_prev := Ptr.freeHead })
  let s3 := writePtr s2 p (fun b => { b with free_next := (readPtr s2 Ptr.freeHead).free_next })
  writePtr s3 Ptr.freeHead (fun b => { b with free_next := p })

/-- `blklock` from `buffer.c`: wait while `BUFFER_LOCKED` is set, then
set it.  In the single-process embedding a locked buffer can never be
unlocked by anyone else, so the wait is the `blocked` outcome. -/
def blklock (s : BCState) (p : Ptr) : Outcome Unit :=
  if (readPtr s p).flags &&& BUFFER_LOCKED ≠ 0 then .blocked s
  else .ok () (writePtr s p (fun b => { b with flags := b.flags ||| BUFFER_LOCKED }))

/-- `blkunlock` from `buffer.c`:
```c
buf->flags &= ~BUFFER_LOCKED;
wakeup(&buf->chain);
``` -/
def blkunlock (s : BCState) (p : Ptr) : BCState :=
  wakeupBufChain (writePtr s p (fun b => { b with flags := b.flags &&& compl32 BUFFER_LOCKED })) p

/-- `getblk` from `buffer.c`, transcribed statement by statement.  The
`goto repeat` retry after a `sleep` never resumes in the single-process
embedding, so each `sleep` is a `blocked` outcome. -/
def getblk (s : BCState) (dev num : Nat) : Outcome Ptr :=
  if dev = 0 ∧ num = 0 then .panic .getblk00 s
  else
    let i := HASH s dev num
    match hashSearch s (.hashHead i) dev num (s.nbuf + 2) ((readPtr s (.hashHead i)).hash_next) with
    | some p =>
      if (readPtr s p).flags &&& BUFFER_LOCKED ≠ 0 then
        .blocked s
      else
        let wasZero := (readPtr s p).count = 0
        let s1 := writePtr s p (fun b => { b with count := b.count + 1 })
        let s2 := if wasZero then freeUnlink s1 p else s1
        (blklock s2 p).bind fun _ s3 => .ok p s3
    | none =>
      if (readPtr s .freeHead).free_next = .freeHead then
        .blocked s
      else
        let p := (readPtr s .freeHead).free_next
        let s1 := freeUnlink s p
        let s2 := writePtr s1 p (fun b => { b with count := b.count + 1 })
        if (readPtr s2 p).flags &&& BUFFER_DIRTY ≠ 0 then
          .panic .asyncWrite s2
        else
          let s3 := hashUnlink s2 p
          let s4 := writePtr s3 p
            (fun b => { b with dev := dev, num := num, flags := b.flags &&& compl32 BUFFER_VALID })
          let s5 := hashInsertHead s4 i p
          (blklock s5 p).bind fun _ s6 => .ok p s6

/-- `brelse` from `buffer.c`, transcribed statement by statement. -/
def brelse (s : BCState) (p : Ptr) : Outcome Unit :=
  let s1 := writePtr s p (fun b => { b with count := b.count - 1 })
  let s2 :=
    if (readPtr s1 p).count = 0 then
      let sa := wakeupFreeChain s1
      if (readPtr sa p).flags &&& BUFFER_VALID ≠ 0 ∧ (readPtr sa p).flags &&& BUFFER_DIRTY ≠ 0 then
        freeInsertTail sa p
      else
        freeInsertHead sa p
    else s1
  if (readPtr s2 p).count < 0 then .panic .freeingTwice s2
  else .ok () (blkunlock s2 p)

/-- Modelled from the spec: `bdev_readblk(buf)` (the block device
driver, outside the embedded sources) — "synchronous; on success sets
`VALID`".  The issued device read is recorded as an event. -/
def bdev_readblk (s : BCState) (p : Ptr) : BCState :=
  let s1 := { s with events := s.events ++ [Event.devRead (readPtr s p).dev (readPtr s p).num] }
  writePtr s1 p (fun b => { b with flags := b.flags ||| BUFFER_VALID })

/-- `bread` from `buffer.c`: `getblk`, then a synchronous device read
when the buffer is not `VALID`. -/
def bread (s : BCState) (dev num : Nat) : Outcome Ptr :=
  (getblk s dev num).bind fun buf s1 =>
    if (readPtr s1 buf).flags &&& BUFFER_VALID ≠ 0 then .ok buf s1
    else .ok buf (bdev_readblk s1 buf)

/-- Modelled from the spec: `bdev_writeblk(buf)` — "synchronous; on
success clears `DIRTY`.  After write, the driver is expected to invoke
`release_block(buf)`" (§6); `bsync` relies on that convention. -/
def bdev_writeblk (s : BCState) (p : Ptr) : Outcome Unit :=
  let s1 := { s with events := s.events ++ [Event.devWrite (readPtr s p).dev (readPtr s p).num] }
  let s2 := writePtr s1 p (fun b => { b with flags := b.flags &&& compl32 BUFFER_DIRTY })
  brelse s2 p

/-- `bwrite` from `buffer.c`. -/
def bwrite (s : BCState) (p : Ptr) : Outcome Unit := bdev_writeblk s p

/-- One iteration of the `bsync` loop for `buffers[i]`. -/
def bsyncStep (s : BCState) (i : Nat) : Outcome Unit :=
  (blklock s (.buf i)).bind fun _ s1 =>
    if (readPtr s1 (.buf i)).flags &&& BUFFER_VALID = 0 then
      .ok () (blkunlock s1 (.buf i))
    else
      let wasZero := (readPtr s1 (.buf i)).count = 0
      let s2 := writePtr s1 (.buf i) (fun b => { b with count := b.count + 1 })
      let s3 := if wasZero then freeUnlink s2 (.buf i) else s2
      bdev_writeblk s3 (.buf i)

/-- The `bsync` loop over a list of buffer indices. -/
def bsyncAux (s : BCState) : List Nat → Outcome Unit
  | [] => .ok () s
  | i :: rest => (bsyncStep s i).bind fun _ s1 => bsyncAux s1 rest

/-- `bsync` from `buffer.c`: iterate over the whole pool. -/
def bsync (s : BCState) : Outcome Unit := bsyncAux s (List.range s.nbuf)

/-- The contents of `buffers[i]` set up by the `binit` loop.
`BUFFERS_VIRT` and `BLOCK_SIZE` are compile-time constants from headers
outside the embedded sources, kept as parameters `virt`/`blockSize`.
Note the flag initialisation is the bitwise complement
`~(BUFFER_VALID | BUFFER_BUSY | BUFFER_LOCKED | BUFFER_DIRTY)`. -/
def binitBuffer (nbuf virt blockSize i : Nat) : Buffer :=
  { dev := 0, num := 0, data := virt + i * blockSize, count := 0,
    flags := compl32 (BUFFER_VALID ||| BUFFER_BUSY ||| BUFFER_LOCKED ||| BUFFER_DIRTY),
    chain := [],
    free_next := if i + 1 = nbuf then .freeHead else .buf (i + 1),
    free_prev := if i = 0 then .freeHead else .buf (i - 1),
    hash_next := .buf i, hash_prev := .buf i }

/-- `binit` from `buffer.c`.  The sentinels are C static objects, hence
zero-initialised (fields `0` / `NULL`) before `binit` assigns
`free_buffers.free_next = &buffers[0]`,
`free_buffers.free_prev = &buffers[NR_BUFFERS - 1]` and the hash
sentinels' self-loops.  Objects outside the configured ranges do not
exist in C; they are mapped to the `default` buffer and are never
dereferenced by executions from this state. -/
def binitState (nbuf htsize virt blockSize : Nat) : BCState :=
  { nbuf := nbuf, htsize := htsize,
    nodes := fun p =>
      match p with
      | .buf i => if i < nbuf then binitBuffer nbuf virt blockSize i else default
      | .freeHead =>
        { dev := 0, num := 0, data := 0, count := 0, flags := 0, chain := [],
          free_next := .buf 0, free_prev := .buf (nbuf - 1),
          hash_next := .null, hash_prev := .null }
      | .hashHead i =>
        if i < htsize then
          { dev := 0, num := 0, data := 0, count := 0, flags := 0, chain := [],
            free_next := .null, free_prev := .null,
            hash_next := .hashHead i, hash_prev := .hashHead i }
        else default
      | .null => default,
    chain := [], events := [] }

/-- The number of device reads issued so far (for the hit-path law). -/
def countReads (s : BCState) : Nat :=
  (s.events.filter fun e => match e with | .devRead _ _ => true | _ => false).length

/-! ## Named intermediate states of the miss/hit `bread` execution

The hit-path law is proved on the pool `binitState 4 1 0 1` (4 buffers,
1 hash bucket, unit blocks).  The following states name the
configurations the execution passes through; flag words that the
operations compute are written as the numerals they evaluate to
(`4294967280 = ~0xF`, and the `VALID`/`LOCKED` bits set or cleared on
top of it), each equality being proved against the embedded operations
in the accompanying lemmas. -/

/-- The pool after `getblk`'s miss branch unlinked `buffers[0]` from the
free list and incremented its reference count. -/
def c5S2 : BCState :=
  writePtr (freeUnlink (binitState 4 1 0 1) (Ptr.buf 0)) (Ptr.buf 0)
    fun b => { b with count := b.count + 1 }

/-- ... then moved it to hash bucket 0 with identity `(d, n)`, clearing
`BUFFER_VALID`. -/
def c5S5 (d n : Nat) : BCState :=
  hashInsertHead
    (writePtr (hashUnlink c5S2 (Ptr.buf 0)) (Ptr.buf 0) fun b =>
      { b with dev := d, num := n, flags := b.flags &&& compl32 BUFFER_VALID })
    0 (Ptr.buf 0)

/-- ... then locked it (`getblk`'s return state; flag word
`4294967280 ||| BUFFER_LOCKED`). -/
def c5S6 (d n : Nat) : BCState :=
  writePtr (c5S5 d n) (Ptr.buf 0) fun b => { b with flags := 4294967284 }

/-- The state after the first `bread`: one device read issued and
`BUFFER_VALID` set (`4294967284 ||| BUFFER_VALID`). -/
def c5SF (d n : Nat) : BCState :=
  writePtr { c5S6 d n with events := (c5S6 d n).events ++ [Event.devRead d n] }
    (Ptr.buf 0) fun b => { b with flags := 4294967285 }

/-- Inside `brelse`: count dropped back to 0, the free chain woken, and
the buffer (VALID but not DIRTY) reinserted at the free-list head. -/
def c5S8 (d n : Nat) : BCState :=
  freeInsertHead
    (wakeupFreeChain (writePtr (c5SF d n) (Ptr.buf 0) fun b => { b with count := b.count - 1 }))
    (Ptr.buf 0)

/-- The state after `brelse`: unlocked (`4294967285 &&& ~BUFFER_LOCKED`)
with the buffer's wait queue woken. -/
def c5SR (d n : Nat) : BCState :=
  wakeupBufChain (writePtr (c5S8 d n) (Ptr.buf 0) fun b => { b with flags := 4294967281 })
    (Ptr.buf 0)

/-- The state after the second `bread` (hit path): `buffers[0]` found in
its bucket, unlinked from the free list, count incremented and locked
again (`4294967281 ||| BUFFER_LOCKED`); no new device read. -/
def c5T (d n : Nat) : BCState :=
  writePtr
    (freeUnlink (writePtr (c5SR d n) (Ptr.buf 0) fun b => { b with count := b.count + 1 })
      (Ptr.buf 0))
    (Ptr.buf 0) fun b => { b with flags := 4294967285 }

instance : Inhabited SchedProc :=
  ⟨⟨.dead, 0, 0, 0, 0, 0, 0⟩⟩

/-! ## Specification-side definitions

These two definitions follow the specification's words (not the code);
they are compared against the embedded loop in the refinement theorem
for the selection algorithm. -/

/-- Specification wording: the running sum of `tickets + compensation`
accumulated over the READY processes among the first `k` table
entries. -/
def readyPrefixSum (ps : List SchedProc) (k : Nat) : Int :=
  (((ps.take k).filter fun p => p.state == ProcState.ready).map
    fun p => p.tickets + p.compensation).sum

/-- Specification wording: "walk the ready set again accumulating
`tickets + compensation`, and pick the first process whose running sum
strictly exceeds the winning ticket" — the first table index holding a
READY process whose running sum strictly exceeds `w`; `none` when no
process qualifies (the `IDLE` process). -/
def specLotteryWinner (ps : List SchedProc) (w : Int) : Option Nat :=
  (List.range ps.length).find? fun i =>
    (ps.getD i default).state == ProcState.ready && decide (w < readyPrefixSum ps (i + 1))

/-! ## Buffer cache: the free-list/count invariant -/

/-- The doubly-linked free list, anchored at the sentinel
`free_buffers`, realizes the index list `l`: starting from pointer `p`
whose expected back pointer is `prev`, the chain visits exactly the pool
buffers listed in `l` (each with a consistent `free_prev`) and returns
to the sentinel, whose `free_prev` closes the cycle. -/
def chainOK (s : BCState) : Ptr → Ptr → List Nat → Prop
  | prev, p, [] => p = Ptr.freeHead ∧ (readPtr s Ptr.freeHead).free_prev = prev
  | prev, p, i :: rest =>
    p = Ptr.buf i ∧ i < s.nbuf ∧ (readPtr s p).free_prev = prev ∧
      chainOK s (Ptr.buf i) ((readPtr s p).free_next) rest

instance chainOK.instDecidable (s : BCState) :
    ∀ (prev p : Ptr) (l : List Nat), Decidable (chainOK s prev p l)
  | prev, p, [] =>
    decidable_of_iff (p = Ptr.freeHead ∧ (readPtr s Ptr.freeHead).free_prev = prev)
      (by rw [chainOK])
  | prev, p, i :: rest =>
    haveI := chainOK.instDecidable s (Ptr.buf i) ((readPtr s p).free_next) rest
    decidable_of_iff
      (p = Ptr.buf i ∧ i < s.nbuf ∧ (readPtr s p).free_prev = prev ∧
        chainOK s (Ptr.buf i) ((readPtr s p).free_next) rest)
      (by rw [chainOK])

/-- The free list (followed from `free_buffers.free_next`) consists
exactly of the pool buffers listed in `l`. -/
def freeListIs (s : BCState) (l : List Nat) : Prop :=
  chainOK s Ptr.freeHead ((readPtr s Ptr.freeHead).free_next) l

/-- Pointers the hash chains may legitimately contain: pool buffers and
hash-table sentinels, in range. -/
def safePtr (s : BCState) : Ptr → Prop
  | .buf j => j < s.nbuf
  | .hashHead k => k < s.htsize
  | .freeHead => False
  | .null => False

instance safePtr.instDecidable (s : BCState) : ∀ p : Ptr, Decidable (safePtr s p)
  | .buf _ => Nat.decLt _ _
  | .hashHead _ => Nat.decLt _ _
  | .freeHead => Decidable.isFalse id
  | .null => Decidable.isFalse id

/-- Sanity of the hash structure: every `hash_next` pointer reachable
by the `getblk` search (those of the hash sentinels and of the pool
buffers) stays within pool buffers and hash sentinels, and the hash
sentinels carry the never-matched identity `(0, 0)`. -/
def HashSane (s : BCState) : Prop :=
  (∀ k, k < s.htsize →
    safePtr s ((readPtr s (Ptr.hashHead k)).hash_next) ∧
    (readPtr s (Ptr.hashHead k)).dev = 0 ∧ (readPtr s (Ptr.hashHead k)).num = 0) ∧
  (∀ j, j < s.nbuf → safePtr s ((readPtr s (Ptr.buf j)).hash_next))

/-- The buffer-cache invariant: the hash table is configured, the free
list realizes a duplicate-free index list `l` with
`count == 0 ⇔ membership in l` for every pool buffer, reference counts
are nonnegative, and the hash structure is sane. -/
def CacheInv (s : BCState) : Prop :=
  0 < s.htsize ∧
  (∃ l : List Nat, l.Nodup ∧ freeListIs s l ∧
    ∀ i, i < s.nbuf → ((readPtr s (Ptr.buf i)).count = 0 ↔ i ∈ l)) ∧
  (∀ i, i < s.nbuf → 0 ≤ (readPtr s (Ptr.buf i)).count) ∧
  HashSane s

/-- The invariant evaluated at the interrupt-enabled end of an
operation: at a normal return and at a sleep point (where the sleeping
process has re-enabled interrupts for everyone else), the state must
satisfy the invariant; a `kpanic` halts the system inside the
interrupt-disabled region, so no interrupt-enabled point follows. -/
def InvAtEnabled {α : Type} : Outcome α → Prop
  | .ok _ s' => CacheInv s'
  | .blocked s' => CacheInv s'
  | .panic _ _ => True

end Nanvix

namespace Nanvix

/-! ## Infrastructure lemmas -/

theorem readPtr_writePtr (s : BCState) (p q : Ptr) (f : Buffer → Buffer) :
    readPtr (writePtr s p f) q = if q = p then f (readPtr s q) else readPtr s q := rfl

theorem readPtr_writePtr_self (s : BCState) (p : Ptr) (f : Buffer → Buffer) :
    readPtr (writePtr s p f) p = f (readPtr s p) := by
  rw [readPtr_writePtr, if_pos rfl]

theorem readPtr_writePtr_ne (s : BCState) (p q : Ptr) (f : Buffer → Buffer) (h : q ≠ p) :
    readPtr (writePtr s p f) q = readPtr s q := by
  rw [readPtr_writePtr, if_neg h]

theorem nbuf_writePtr (s : BCState) (p : Ptr) (f : Buffer → Buffer) :
    (writePtr s p f).nbuf = s.nbuf := rfl

theorem htsize_writePtr (s : BCState) (p : Ptr) (f : Buffer → Buffer) :
    (writePtr s p f).htsize = s.htsize := rfl

theorem events_writePtr (s : BCState) (p : Ptr) (f : Buffer → Buffer) :
    (writePtr s p f).events = s.events := rfl

/-- Move an AND by a constant inward (`Nat.and_assoc` with the constant
conjunction evaluated). -/
theorem and_and_eq_of_and (x : Nat) {c d e : Nat} (h : c &&& d = e) :
    x &&& c &&& d = x &&& e := by
  rw [Nat.and_assoc, h]

/-- Setting a bit makes the corresponding flag test succeed. -/
theorem lor_and_self (x b : Nat) : (x ||| b) &&& b = b := by
  refine Nat.eq_of_testBit_eq fun i => ?_
  cases hx : x.testBit i <;> cases hb : b.testBit i <;>
    simp [Nat.testBit_or, Nat.testBit_and, hx, hb]

/-- A write whose updater does not touch the field observed by `g`
leaves `g` of every object unchanged. -/
theorem readPtr_writePtr_field {γ : Type} (g : Buffer → γ) (s : BCState) (t : Ptr)
    (f : Buffer → Buffer) (q : Ptr) (hf : ∀ b, g (f b) = g b) :
    g (readPtr (writePtr s t f) q) = g (readPtr s q) := by
  rw [readPtr_writePtr]
  split
  · exact hf _
  · rfl

/-- `bind` on an `ok` outcome applies the continuation. -/
theorem Outcome.bind_ok {α β : Type} (a : α) (s : BCState) (f : α → BCState → Outcome β) :
    (Outcome.ok a s).bind f = f a s := rfl

/-- Two updaters that agree on the written object produce the same
state. -/
theorem writePtr_congr (s : BCState) (p : Ptr) (f g : Buffer → Buffer)
    (h : f (readPtr s p) = g (readPtr s p)) : writePtr s p f = writePtr s p g := by
  simp only [writePtr]
  congr 1
  funext q
  by_cases hq : q = p
  · subst hq
    rw [if_pos rfl, if_pos rfl]
    exact h
  · rw [if_neg hq, if_neg hq]

/-- Writing `flags := flags ||| c` with the flag word known to be `v`
writes the numeral `v ||| c`. -/
theorem flags_update_or (b : Buffer) (c v w : Nat) (hv : b.flags = v) (hw : v ||| c = w) :
    ({ b with flags := b.flags ||| c } : Buffer) = { b with flags := w } := by
  rw [hv, hw]

/-- Writing `flags := flags &&& c` with the flag word known to be `v`
writes the numeral `v &&& c`. -/
theorem flags_update_and (b : Buffer) (c v w : Nat) (hv : b.flags = v) (hw : v &&& c = w) :
    ({ b with flags := b.flags &&& c } : Buffer) = { b with flags := w } := by
  rw [hv, hw]

/-- `blklock` on an unlocked buffer (flag word `v`) returns at once,
setting `BUFFER_LOCKED` (the new flag word written as a numeral `w`). -/
theorem blklock_ok (s : BCState) (p : Ptr) (v w : Nat)
    (hf : (readPtr s p).flags = v) (hv : v &&& BUFFER_LOCKED = 0)
    (hw : v ||| BUFFER_LOCKED = w) :
    blklock s p = Outcome.ok () (writePtr s p fun b => { b with flags := w }) := by
  have hc : ¬ ((readPtr s p).flags &&& BUFFER_LOCKED ≠ 0) := by
    rw [hf, hv]
    exact fun hcc => hcc rfl
  simp only [blklock, if_neg hc]
  exact congrArg (Outcome.ok ()) (writePtr_congr _ _ _ _ (flags_update_or _ _ _ _ hf hw))

/-- `freeUnlink` only writes free-list pointers: every other field of
every object is unchanged. -/
theorem freeUnlink_preserves (s : BCState) (p q : Ptr) :
    (readPtr (freeUnlink s p) q).dev = (readPtr s q).dev ∧
    (readPtr (freeUnlink s p) q).num = (readPtr s q).num ∧
    (readPtr (freeUnlink s p) q).data = (readPtr s q).data ∧
    (readPtr (freeUnlink s p) q).count = (readPtr s q).count ∧
    (readPtr (freeUnlink s p) q).flags = (readPtr s q).flags ∧
    (readPtr (freeUnlink s p) q).chain = (readPtr s q).chain ∧
    (readPtr (freeUnlink s p) q).hash_next = (readPtr s q).hash_next ∧
    (readPtr (freeUnlink s p) q).hash_prev = (readPtr s q).hash_prev := by
  simp only [freeUnlink]
  refine ⟨?_, ?_, ?_, ?_, ?_, ?_, ?_, ?_⟩ <;>
    refine (readPtr_writePtr_field _ _ _ _ _ ?_).trans
      (readPtr_writePtr_field _ _ _ _ _ ?_) <;>
    exact fun b => rfl

/-- `hashUnlink` only writes hash pointers. -/
theorem hashUnlink_preserves (s : BCState) (p q : Ptr) :
    (readPtr (hashUnlink s p) q).dev = (readPtr s q).dev ∧
    (readPtr (hashUnlink s p) q).num = (readPtr s q).num ∧
    (readPtr (hashUnlink s p) q).data = (readPtr s q).data ∧
    (readPtr (hashUnlink s p) q).count = (readPtr s q).count ∧
    (readPtr (hashUnlink s p) q).flags = (readPtr s q).flags ∧
    (readPtr (hashUnlink s p) q).chain = (readPtr s q).chain ∧
    (readPtr (hashUnlink s p) q).free_next = (readPtr s q).free_next ∧
    (readPtr (hashUnlink s p) q).free_prev = (readPtr s q).free_prev := by
  simp only [hashUnlink]
  refine ⟨?_, ?_, ?_, ?_, ?_, ?_, ?_, ?_⟩ <;>
    refine (readPtr_writePtr_field _ _ _ _ _ ?_).trans
      (readPtr_writePtr_field _ _ _ _ _ ?_) <;>
    exact fun b => rfl

/-- `hashInsertHead` only writes hash pointers. -/
theorem hashInsertHead_preserves (s : BCState) (i : Nat) (p q : Ptr) :
    (readPtr (hashInsertHead s i p) q).dev = (readPtr s q).dev ∧
    (readPtr (hashInsertHead s i p) q).num = (readPtr s q).num ∧
    (readPtr (hashInsertHead s i p) q).data = (readPtr s q).data ∧
    (readPtr (hashInsertHead s i p) q).count = (readPtr s q).count ∧
    (readPtr (hashInsertHead s i p) q).flags = (readPtr s q).flags ∧
    (readPtr (hashInsertHead s i p) q).chain = (readPtr s q).chain ∧
    (readPtr (hashInsertHead s i p) q).free_next = (readPtr s q).free_next ∧
    (readPtr (hashInsertHead s i p) q).free_prev = (readPtr s q).free_prev := by
  simp only [hashInsertHead]
  refine ⟨?_, ?_, ?_, ?_, ?_, ?_, ?_, ?_⟩ <;>
    refine (readPtr_writePtr_field _ _ _ _ _ ?_).trans
      ((readPtr_writePtr_field _ _ _ _ _ ?_).trans
        ((readPtr_writePtr_field _ _ _ _ _ ?_).trans
          (readPtr_writePtr_field _ _ _ _ _ ?_))) <;>
    exact fun b => rfl

/-- `freeInsertTail` only writes free-list pointers. -/
theorem freeInsertTail_preserves (s : BCState) (p q : Ptr) :
    (readPtr (freeInsertTail s p) q).dev = (readPtr s q).dev ∧
    (readPtr (freeInsertTail s p) q).num = (readPtr s q).num ∧
    (readPtr (freeInsertTail s p) q).data = (readPtr s q).data ∧
    (readPtr (freeInsertTail s p) q).count = (readPtr s q).count ∧
    (readPtr (freeInsertTail s p) q).flags = (readPtr s q).flags ∧
    (readPtr (freeInsertTail s p) q).chain = (readPtr s q).chain ∧
    (readPtr (freeInsertTail s p) q).hash_next = (readPtr s q).hash_next ∧
    (readPtr (freeInsertTail s p) q).hash_prev = (readPtr s q).hash_prev := by
  simp only [freeInsertTail]
  refine ⟨?_, ?_, ?_, ?_, ?_, ?_, ?_, ?_⟩ <;>
    refine (readPtr_writePtr_field _ _ _ _ _ ?_).trans
      ((readPtr_writePtr_field _ _ _ _ _ ?_).trans
        ((readPtr_writePtr_field _ _ _ _ _ ?_).trans
          (readPtr_writePtr_field _ _ _ _ _ ?_))) <;>
    exact fun b => rfl

/-- `freeInsertHead` only writes free-list pointers. -/
theorem freeInsertHead_preserves (s : BCState) (p q : Ptr) :
    (readPtr (freeInsertHead s p) q).dev = (readPtr s q).dev ∧
    (readPtr (freeInsertHead s p) q).num = (readPtr s q).num ∧
    (readPtr (freeInsertHead s p) q).data = (readPtr s q).data ∧
    (readPtr (freeInsertHead s p) q).count = (readPtr s q).count ∧
    (readPtr (freeInsertHead s p) q).flags = (readPtr s q).flags ∧
    (readPtr (freeInsertHead s p) q).chain = (readPtr s q).chain ∧
    (readPtr (freeInsertHead s p) q).hash_next = (readPtr s q).hash_next ∧
    (readPtr (freeInsertHead s p) q).hash_prev = (readPtr s q).hash_prev := by
  simp only [freeInsertHead]
  refine ⟨?_, ?_, ?_, ?_, ?_, ?_, ?_, ?_⟩ <;>
    refine (readPtr_writePtr_field _ _ _ _ _ ?_).trans
      ((readPtr_writePtr_field _ _ _ _ _ ?_).trans
        ((readPtr_writePtr_field _ _ _ _ _ ?_).trans
          (readPtr_writePtr_field _ _ _ _ _ ?_))) <;>
    exact fun b => rfl

/-- After `freeInsertTail s p`, `p` sits at the tail end: the sentinel's
`free_prev` is `p` and `p`'s `free_next` is the sentinel. -/
theorem freeInsertTail_facts (s : BCState) (p : Ptr) :
    (readPtr (freeInsertTail s p) Ptr.freeHead).free_prev = p ∧
    (readPtr (freeInsertTail s p) p).free_next = Ptr.freeHead := by
  simp only [freeInsertTail]
  constructor
  · refine (readPtr_writePtr_field _ _ _ _ _ ?_).trans (by rw [readPtr_writePtr_self])
    exact fun b => rfl
  · rw [readPtr_writePtr_self]

/-- After `freeInsertHead s p`, `p` sits at the head end: the sentinel's
`free_next` is `p` and `p`'s `free_prev` is the sentinel. -/
theorem freeInsertHead_facts (s : BCState) (p : Ptr) :
    (readPtr (freeInsertHead s p) Ptr.freeHead).free_next = p ∧
    (readPtr (freeInsertHead s p) p).free_prev = Ptr.freeHead := by
  simp only [freeInsertHead]
  constructor
  · rw [readPtr_writePtr_self]
  · refine (readPtr_writePtr_field _ _ _ _ _ ?_).trans
      ((readPtr_writePtr_field _ _ _ _ _ ?_).trans
        (by rw [readPtr_writePtr_self])) <;>
    exact fun b => rfl

/-- What the hash-bucket search returns always matches the searched
`(dev, num)` identity. -/
theorem hashSearch_found (s : BCState) (sent : Ptr) (dev num : Nat) :
    ∀ (fuel : Nat) (p q : Ptr), hashSearch s sent dev num fuel p = some q →
      (readPtr s q).dev = dev ∧ (readPtr s q).num = num := by
  intro fuel
  induction fuel with
  | zero =>
    intro p q h
    simp [hashSearch] at h
  | succ n ih =>
    intro p q h
    rw [hashSearch] at h
    split at h
    · simp at h
    · split at h
      · obtain rfl : p = q := by
          simpa using h
        assumption
      · exact ih _ _ h

theorem readPtr_setEvents (s : BCState) (E : List Event) (q : Ptr) :
    readPtr { s with events := E } q = readPtr s q := rfl

theorem wakeupFreeChain_readPtr (s : BCState) (q : Ptr) :
    readPtr (wakeupFreeChain s) q = readPtr s q := rfl

theorem wakeupFreeChain_events (s : BCState) :
    (wakeupFreeChain s).events = s.events ++ [Event.wakeupFree] := rfl

theorem freeInsertTail_events (s : BCState) (p : Ptr) :
    (freeInsertTail s p).events = s.events := rfl

theorem freeInsertHead_events (s : BCState) (p : Ptr) :
    (freeInsertHead s p).events = s.events := rfl

theorem blkunlock_events (s : BCState) (p : Ptr) :
    (blkunlock s p).events = s.events ++ [Event.wakeupBuf p] := rfl

/-- `blkunlock` only writes `flags` and `chain` of its argument: all
other fields of every object are unchanged. -/
theorem blkunlock_preserves (s : BCState) (p q : Ptr) :
    (readPtr (blkunlock s p) q).dev = (readPtr s q).dev ∧
    (readPtr (blkunlock s p) q).num = (readPtr s q).num ∧
    (readPtr (blkunlock s p) q).data = (readPtr s q).data ∧
    (readPtr (blkunlock s p) q).count = (readPtr s q).count ∧
    (readPtr (blkunlock s p) q).free_next = (readPtr s q).free_next ∧
    (readPtr (blkunlock s p) q).free_prev = (readPtr s q).free_prev ∧
    (readPtr (blkunlock s p) q).hash_next = (readPtr s q).hash_next ∧
    (readPtr (blkunlock s p) q).hash_prev = (readPtr s q).hash_prev := by
  simp only [blkunlock, wakeupBufChain, readPtr_setEvents]
  refine ⟨?_, ?_, ?_, ?_, ?_, ?_, ?_, ?_⟩ <;>
    refine (readPtr_writePtr_field _ _ _ _ _ ?_).trans
      (readPtr_writePtr_field _ _ _ _ _ ?_) <;>
    exact fun b => rfl

/-- `blkunlock` clears the `BUFFER_LOCKED` bit of its argument. -/
theorem blkunlock_locked_clear (s : BCState) (p : Ptr) :
    (readPtr (blkunlock s p) p).flags &&& BUFFER_LOCKED = 0 := by
  simp only [blkunlock, wakeupBufChain, readPtr_setEvents, readPtr_writePtr_self]
  exact (and_and_eq_of_and _ (by decide)).trans (Nat.and_zero _)

/-- `blkunlock` severs the wait queue of its argument. -/
theorem blkunlock_chain_empty (s : BCState) (p : Ptr) :
    (readPtr (blkunlock s p) p).chain = [] := by
  simp only [blkunlock, wakeupBufChain, readPtr_setEvents, readPtr_writePtr_self]

/-! ## Scheduler lemmas -/

theorem readyPrefixSum_zero (ps : List SchedProc) : readyPrefixSum ps 0 = 0 := by
  simp [readyPrefixSum]

theorem readyPrefixSum_cons (p : SchedProc) (rest : List SchedProc) (k : Nat) :
    readyPrefixSum (p :: rest) (k + 1) =
      (if p.state = ProcState.ready then p.tickets + p.compensation else 0) +
        readyPrefixSum rest k := by
  simp only [readyPrefixSum, List.take_succ_cons, List.filter_cons]
  by_cases hr : p.state = ProcState.ready
  · simp [hr]
  · simp [hr]

theorem total_tickets_as_sum (ps : List SchedProc) :
    total_tickets ps = readyPrefixSum ps ps.length := by
  suffices h : ∀ (l : List SchedProc) (acc : Int),
      l.foldl (fun acc p => if p.state = .ready then acc + (p.tickets + p.compensation) else acc)
          acc = acc + readyPrefixSum l l.length by
    have := h ps 0
    rw [total_tickets, this, zero_add]
  intro l
  induction l with
  | nil => intro acc; simp [readyPrefixSum]
  | cons p rest ih =>
    intro acc
    rw [List.foldl_cons, List.length_cons, readyPrefixSum_cons, ih]
    by_cases hr : p.state = ProcState.ready
    · rw [if_pos hr, if_pos hr]
      ring
    · rw [if_neg hr, if_neg hr, zero_add]

/-- The selection walk of `yield()` is the specification's selection:
with running sum `acc` carried in from the processes already passed and
table indices offset by `idx`, the loop returns the first remaining
index holding a READY process whose running sum strictly exceeds the
winning ticket. -/
theorem chooseAux_eq_find (w : Int) :
    ∀ (ps : List SchedProc) (acc : Int) (idx : Nat),
      chooseAux w ps acc idx =
        ((List.range ps.length).find? fun i =>
          ((ps.getD i default).state == ProcState.ready) &&
            decide (w < acc + readyPrefixSum ps (i + 1))).map (· + idx) := by
  intro ps
  induction ps with
  | nil =>
    intro acc idx
    simp [chooseAux]
  | cons p rest ih =>
    intro acc idx
    simp only [chooseAux, List.length_cons, List.range_succ_eq_map]
    set P := fun i => (((p :: rest).getD i default).state == ProcState.ready) &&
      decide (w < acc + readyPrefixSum (p :: rest) (i + 1)) with hP
    have hps1 : readyPrefixSum (p :: rest) (0 + 1) =
        (if p.state = ProcState.ready then p.tickets + p.compensation else 0) := by
      rw [readyPrefixSum_cons, readyPrefixSum_zero, add_zero]
    by_cases hr : p.state = ProcState.ready
    · rw [if_neg (not_not_intro hr)]
      by_cases hw : acc + (p.tickets + p.compensation) > w
      · rw [if_pos hw]
        have hpt : P 0 = true := by
          simp only [hP, hps1, if_pos hr, List.getD_cons_zero, Bool.and_eq_true, beq_iff_eq,
            decide_eq_true_eq]
          exact ⟨hr, hw⟩
        rw [List.find?_cons_of_pos _ hpt]
        simp
      · rw [if_neg hw]
        have hpf : ¬ (P 0 = true) := by
          simp only [hP, hps1, if_pos hr, List.getD_cons_zero, Bool.and_eq_true, beq_iff_eq,
            decide_eq_true_eq]
          rintro ⟨-, hlt⟩
          exact hw hlt
        rw [List.find?_cons_of_neg _ hpf, List.find?_map, ih]
        have hpred : (P ∘ Nat.succ) =
            fun i => ((rest.getD i default).state == ProcState.ready) &&
              decide (w < acc + (p.tickets + p.compensation) + readyPrefixSum rest (i + 1)) := by
          funext i
          simp only [hP, Function.comp_apply, List.getD_cons_succ]
          congr 1
          have h2 : readyPrefixSum (p :: rest) (i + 1 + 1) =
              (p.tickets + p.compensation) + readyPrefixSum rest (i + 1) := by
            rw [readyPrefixSum_cons, if_pos hr]
          rw [h2, decide_eq_decide]
          constructor
          · intro h
            omega
          · intro h
            omega
        rw [hpred, Option.map_map]
        congr 1
        funext i
        simp only [Function.comp_apply]
        omega
    · rw [if_pos hr]
      have hpf : ¬ (P 0 = true) := by
        simp only [hP, List.getD_cons_zero, Bool.and_eq_true, beq_iff_eq, decide_eq_true_eq]
        rintro ⟨hr', -⟩
        exact hr hr'
      rw [List.find?_cons_of_neg _ hpf, List.find?_map, ih]
      have hpred : (P ∘ Nat.succ) =
          fun i => ((rest.getD i default).state == ProcState.ready) &&
            decide (w < acc + readyPrefixSum rest (i + 1)) := by
        funext i
        simp only [hP, Function.comp_apply, List.getD_cons_succ]
        congr 1
        have h2 : readyPrefixSum (p :: rest) (i + 1 + 1) = readyPrefixSum rest (i + 1) := by
          rw [readyPrefixSum_cons, if_neg hr, zero_add]
        rw [h2]
      rw [hpred, Option.map_map]
      congr 1
      funext i
      simp only [Function.comp_apply]
      omega

/-- Prefix sums of the ready walk are nonnegative when every READY
process contributes a nonnegative effective ticket count. -/
theorem readyPrefixSum_nonneg :
    ∀ ps : List SchedProc,
      (∀ p ∈ ps, p.state = ProcState.ready → 0 ≤ p.tickets + p.compensation) →
      ∀ k, 0 ≤ readyPrefixSum ps k := by
  intro ps
  induction ps with
  | nil =>
    intro _ k
    simp [readyPrefixSum]
  | cons p rest ih =>
    intro hnn k
    have hnn' : ∀ q ∈ rest, q.state = ProcState.ready → 0 ≤ q.tickets + q.compensation :=
      fun q hq => hnn q (List.mem_cons_of_mem p hq)
    cases k with
    | zero => rw [readyPrefixSum_zero]
    | succ k' =>
      rw [readyPrefixSum_cons]
      have h1 : (0 : Int) ≤ if p.state = ProcState.ready
          then p.tickets + p.compensation else 0 := by
        split
        · exact hnn p (List.mem_cons_self p rest) (by assumption)
        · exact le_refl 0
      have h2 := ih hnn' k'
      linarith

/-- The prefix sums of the ready walk never exceed `total_tickets` when
every READY process contributes a nonnegative effective ticket count. -/
theorem readyPrefixSum_le_total :
    ∀ ps : List SchedProc,
      (∀ p ∈ ps, p.state = ProcState.ready → 0 ≤ p.tickets + p.compensation) →
      ∀ k, readyPrefixSum ps k ≤ total_tickets ps := by
  intro ps
  induction ps with
  | nil =>
    intro _ k
    simp [readyPrefixSum, total_tickets]
  | cons p rest ih =>
    intro hnn k
    have hnn' : ∀ q ∈ rest, q.state = ProcState.ready → 0 ≤ q.tickets + q.compensation :=
      fun q hq => hnn q (List.mem_cons_of_mem p hq)
    rw [total_tickets_as_sum, List.length_cons, readyPrefixSum_cons]
    have h1 : (0 : Int) ≤ if p.state = ProcState.ready
        then p.tickets + p.compensation else 0 := by
      split
      · exact hnn p (List.mem_cons_self p rest) (by assumption)
      · exact le_refl 0
    cases k with
    | zero =>
      rw [readyPrefixSum_zero]
      have h2 := readyPrefixSum_nonneg rest hnn' rest.length
      linarith
    | succ k' =>
      rw [readyPrefixSum_cons]
      have h2 := ih hnn' k'
      rw [total_tickets_as_sum] at h2
      linarith

/-! ## C1: the selection step of `yield()` -/

/-- C1 counterexample: the claim asserts that whenever
`total_tickets > 0` some READY process (not `IDLE`) is chosen.  With a
single READY process holding one effective ticket and `ticks = 0`,
`total_tickets = 1 > 0`, the draw is
`(rand()*1/32768)+1 = 1`, and no running sum strictly exceeds `1`, so
the selection loop never replaces `next = IDLE`: the `IDLE` process is
chosen despite `total_tickets > 0`. -/
theorem c1_total_pos_idle_counterexample :
    (0 : Int) < total_tickets [⟨ProcState.ready, 0, 1, 0, 0, 0, 0⟩] ∧
    yieldChoose [⟨ProcState.ready, 0, 1, 0, 0, 0, 0⟩] 0 = none := by
  decide

/-- C1 (amended): the selection step of `yield()` equals the
specification's described walk — the first READY process (in table
order) whose running sum of `tickets + compensation` strictly exceeds
the winning ticket, with `IDLE` (`none`) chosen when no running sum
exceeds it (which can happen even with `total_tickets > 0`, when the
draw equals `total_tickets`).  Moreover, with nonnegative effective
tickets, `total_tickets = 0` always yields `IDLE`, and with
`total_tickets > 0` the winning ticket is drawn in
`[1, total_tickets]`. -/
theorem c1_yield_selection_amended :
    (∀ (ps : List SchedProc) (ticks : Nat),
      yieldChoose ps ticks =
        specLotteryWinner ps (next_process ticks (total_tickets ps))) ∧
    (∀ (ps : List SchedProc) (ticks : Nat),
      (∀ p ∈ ps, p.state = ProcState.ready → 0 ≤ p.tickets + p.compensation) →
      total_tickets ps = 0 → yieldChoose ps ticks = none) ∧
    (∀ (ps : List SchedProc) (ticks : Nat), 0 < total_tickets ps →
      1 ≤ next_process ticks (total_tickets ps) ∧
      next_process ticks (total_tickets ps) ≤ total_tickets ps) := by
  have hequiv : ∀ (ps : List SchedProc) (ticks : Nat),
      yieldChoose ps ticks =
        specLotteryWinner ps (next_process ticks (total_tickets ps)) := by
    intro ps ticks
    rw [yieldChoose, chooseAux_eq_find, specLotteryWinner]
    have h1 : (fun i => (((ps.getD i default).state == ProcState.ready)) &&
        decide (next_process ticks (total_tickets ps) < 0 + readyPrefixSum ps (i + 1))) =
        fun i => (((ps.getD i default).state == ProcState.ready)) &&
          decide (next_process ticks (total_tickets ps) < readyPrefixSum ps (i + 1)) := by
      funext i
      rw [zero_add]
    rw [h1]
    have h2 : (fun (x : Nat) => x + 0) = id := by
      funext x
      rfl
    rw [h2, Option.map_id]
    rfl
  refine ⟨hequiv, ?_, ?_⟩
  · intro ps ticks hnn h0
    have hw : next_process ticks (total_tickets ps) = 1 := by
      rw [h0, next_process]
      simp
    rw [hequiv, specLotteryWinner, hw]
    rw [List.find?_eq_none]
    intro i hi
    simp only [Bool.and_eq_true, beq_iff_eq, decide_eq_true_eq, not_and]
    intro _ hlt
    have hle := readyPrefixSum_le_total ps hnn (i + 1)
    rw [h0] at hle
    omega
  · intro ps ticks ht
    have hr0 : (0 : Int) ≤ (rand ticks : Int) := Int.natCast_nonneg _
    have hnn : (0 : Int) ≤ (rand ticks : Int) * total_tickets ps :=
      mul_nonneg hr0 ht.le
    constructor
    · rw [next_process]
      have := Int.tdiv_nonneg hnn (by decide : (0 : Int) ≤ 32768)
      omega
    · rw [next_process]
      have hr : (rand ticks : Int) ≤ 32767 := by
        have hlt : rand ticks < 32768 := Nat.mod_lt _ (by decide)
        have := Nat.lt_succ_iff.mp hlt
        exact_mod_cast this
      have h1 : ((rand ticks : Int) * total_tickets ps).tdiv 32768 =
          ((rand ticks : Int) * total_tickets ps) / 32768 :=
        Int.tdiv_eq_ediv hnn (by decide)
      have h2 : ((rand ticks : Int) * total_tickets ps) / 32768 ≤
          (32767 * total_tickets ps) / 32768 :=
        Int.ediv_le_ediv (by decide) (mul_le_mul_of_nonneg_right hr ht.le)
      have h3 : (32767 * total_tickets ps) / 32768 < total_tickets ps := by
        rw [Int.ediv_lt_iff_lt_mul (by decide)]
        linarith
      omega

/-! ## C6: compensation tickets -/

/-- The binary32 rounding always returns a fraction with positive
(power-of-two) denominator. -/
theorem roundF32_den_pos (a : Frac) : 0 < (roundF32 a).den := by
  simp only [roundF32]
  split
  · decide
  · show (0:Int) < ((2 ^ _ : Nat) : Int)
    exact_mod_cast pow_pos (by decide : (0:Nat) < 2) _

/-- For a fraction with positive denominator and nonnegative value, the
C truncation toward zero is the floor. -/
theorem trunc_eq_floor (c : Frac) (hd : 0 < c.den) (hnn : 0 ≤ c.val) :
    Frac.trunc c = ⌊c.val⌋ := by
  have hnum : 0 ≤ c.num := by
    by_contra hneg
    push_neg at hneg
    have hv : c.val < 0 := by
      show ((c.num : ℚ) / (c.den : ℚ)) < 0
      apply div_neg_of_neg_of_pos
      · exact_mod_cast hneg
      · exact_mod_cast hd
    exact absurd hnn (not_le.mpr hv)
  have h0 : ((c.den.toNat : ℕ) : Int) = c.den := Int.toNat_of_nonneg (le_of_lt hd)
  have hcast : ((c.den.toNat : ℕ) : ℚ) = (c.den : ℚ) := by exact_mod_cast h0
  have hval : c.val = (c.num : ℚ) / ((c.den.toNat : ℕ) : ℚ) := by
    show (c.num : ℚ) / (c.den : ℚ) = _
    rw [hcast]
  rw [hval, Rat.floor_intCast_div_natCast]
  show c.num.tdiv c.den = c.num / (c.den.toNat : Int)
  rw [h0]
  exact Int.tdiv_eq_ediv hnum (le_of_lt hd)

/-- C6 counterexample: the claim asserts the stored compensation is the
exact `trunc(tickets / fraction) − tickets` whenever
`0 < counter < PROC_QUANTUM`.  Single-precision rounding breaks this:
with `PROC_QUANTUM = 100`, `counter = 50`, `tickets = 2^24 + 1`, the
conversion of `tickets` to `float` rounds to `2^24` (round to nearest,
ties to even), the program computes `2^24 / 0.5 = 2^25` and stores
`2^25 − (2^24 + 1) = 16777215`, while the exact formula gives
`trunc((2^24 + 1) / 0.5) − (2^24 + 1) = 16777217`. -/
theorem c6_float_rounding_counterexample :
    (add_compensation 100 ⟨ProcState.running, 50, 16777217, 0, 0, 0, 0⟩).compensation
      = 16777215 ∧
    Frac.trunc (Frac.div (Frac.ofInt 16777217)
        (Frac.div (Frac.ofInt (100 - 50)) (Frac.ofInt 100))) - 16777217 = 16777217 ∧
    (16777215 : Int) ≠ 16777217 := by
  refine ⟨by decide, by decide, by decide⟩

/-- C6 (amended): `add_compensation` computes with IEEE
single-precision floats.  When the process yields while still RUNNING
with `0 < counter < PROC_QUANTUM` and nonnegative tickets, and the
float-computed quotient `tickets / fraction` carries exactly the real
value `tickets / ((quantum − counter) / quantum)` (the hypothesis: a
cross-multiplied integer identity between the rounded and the exact
fraction), the stored compensation is the claimed
`trunc(tickets / fraction) − tickets` — the floor, for nonnegative
tickets; float rounding can break the exact formula otherwise (see the
counterexample).  When `counter = 0` or `counter = quantum` no
compensation is applied.  In the specification's worked example
(`PROC_QUANTUM = 100`, `counter = 75`, `tickets = 10`) every float step
is exact: the new compensation is `30` and the effective ticket count
the next lottery sees for this process is `40`. -/
theorem c6_add_compensation_amended :
    (∀ (quantum : Int) (p : SchedProc),
      0 < p.counter → p.counter < quantum → 0 ≤ p.tickets →
      (f32div (f32ofInt p.tickets)
          (f32div (f32ofInt (quantum - p.counter)) (f32ofInt quantum))).num
        * (Frac.div (Frac.ofInt p.tickets)
            (Frac.div (Frac.ofInt (quantum - p.counter)) (Frac.ofInt quantum))).den
        = (Frac.div (Frac.ofInt p.tickets)
            (Frac.div (Frac.ofInt (quantum - p.counter)) (Frac.ofInt quantum))).num
          * (f32div (f32ofInt p.tickets)
              (f32div (f32ofInt (quantum - p.counter)) (f32ofInt quantum))).den →
      (add_compensation quantum p).compensation =
        ⌊(p.tickets : ℚ) / (((quantum : ℚ) - (p.counter : ℚ)) / (quantum : ℚ))⌋ - p.tickets) ∧
    (∀ (quantum : Int) (p : SchedProc), p.counter = 0 ∨ p.counter = quantum →
      add_compensation quantum p = p) ∧
    ((add_compensation 100 ⟨ProcState.running, 75, 10, 0, 0, 0, 0⟩).compensation = 30 ∧
      total_tickets [sched (add_compensation 100 ⟨ProcState.running, 75, 10, 0, 0, 0, 0⟩)]
        = 40) := by
  refine ⟨?_, ?_, by decide, by decide⟩
  · intro q p hc hq ht hexact
    have hq0 : (0:Int) < q := lt_trans hc hq
    have hqc : (0:Int) < q - p.counter := by omega
    rw [add_compensation, if_pos ⟨hc, ne_of_lt hq⟩]
    show Frac.trunc (f32div (f32ofInt p.tickets)
        (f32div (f32ofInt (q - p.counter)) (f32ofInt q))) - p.tickets = _
    rw [sub_left_inj]
    set C := f32div (f32ofInt p.tickets) (f32div (f32ofInt (q - p.counter)) (f32ofInt q))
      with hCdef
    set X := Frac.div (Frac.ofInt p.tickets)
      (Frac.div (Frac.ofInt (q - p.counter)) (Frac.ofInt q)) with hXdef
    have hCden : 0 < C.den := by
      rw [hCdef]
      exact roundF32_den_pos _
    have hXnum : X.num = p.tickets * (1 * q) := rfl
    have hXden : X.den = (1 : Int) * ((q - p.counter) * 1) := rfl
    have hXden' : X.den = q - p.counter := by
      rw [hXden]
      ring
    have hXdenq : (X.den : ℚ) ≠ 0 := by
      rw [hXden']
      exact_mod_cast ne_of_gt hqc
    have hCval : C.val = X.val := by
      show (C.num : ℚ) / (C.den : ℚ) = (X.num : ℚ) / (X.den : ℚ)
      rw [div_eq_div_iff (by exact_mod_cast ne_of_gt hCden) hXdenq]
      exact_mod_cast hexact
    have hXval : X.val = (p.tickets : ℚ) / (((q : ℚ) - (p.counter : ℚ)) / (q : ℚ)) := by
      show (X.num : ℚ) / (X.den : ℚ) = _
      rw [hXnum, hXden']
      push_cast
      rw [div_div_eq_mul_div]
      congr 1
      ring
    have hnn : (0:ℚ) ≤ (p.tickets : ℚ) / (((q : ℚ) - (p.counter : ℚ)) / (q : ℚ)) := by
      apply div_nonneg
      · exact_mod_cast ht
      · apply div_nonneg
        · have hcle : ((p.counter : ℚ)) ≤ (q : ℚ) := by exact_mod_cast le_of_lt hq
          linarith
        · have hqq : (0:ℚ) < (q : ℚ) := by exact_mod_cast hq0
          linarith
    rw [trunc_eq_floor C hCden (by rw [hCval, hXval]; exact hnn), hCval, hXval]
  · intro q p h
    rcases h with h | h
    · rw [add_compensation, if_neg]
      rintro ⟨h1, -⟩
      rw [h] at h1
      exact lt_irrefl 0 h1
    · rw [add_compensation, if_neg]
      rintro ⟨-, h2⟩
      exact h2 h

/-! ## C9: the pseudo-random generator and lottery determinism -/

/-- C9: `rand()` is a pure function of the `ticks` input (the embedding
makes it one, so two calls during the same tick trivially agree), and
for every representable tick value (`ticks < 2^32`, since `ticks` is a
C `unsigned int`) it computes
`((ticks * 1103515245 + 12345) / 65536) mod 32768` — the `unsigned
long` wrap `mod 2^64` never fires; with `ticks = 0` the generator
returns `0`, the lottery draw over `total = 40` is `1`, and in the
two-process table `P1 (tickets = 10)` before `P2 (tickets = 30)` the
winner is `P1` (index `0`). -/
theorem c9_rand_lottery :
    (∀ ticks : Nat, ticks < 2 ^ 32 →
      rand ticks = ((ticks * 1103515245 + 12345) / 65536) % 32768) ∧
    rand 0 = 0 ∧ next_process 0 40 = 1 ∧
    yieldChoose [⟨ProcState.ready, 0, 10, 0, 0, 0, 0⟩, ⟨ProcState.ready, 0, 30, 0, 0, 0, 0⟩] 0
      = some 0 := by
  refine ⟨?_, by decide, by decide, by decide⟩
  intro ticks h
  rw [rand]
  have hx : (ticks * 1103515245 + 12345) % 2 ^ 64 = ticks * 1103515245 + 12345 := by
    apply Nat.mod_eq_of_lt
    have h1 : ticks * 1103515245 ≤ (2 ^ 32 - 1) * 1103515245 :=
      Nat.mul_le_mul_right _ (by omega)
    omega
  rw [hx]

/-! ## C2: `getblk` postcondition -/

/-- C2: whenever `getblk(dev, num)` returns a buffer — in the
single-process embedding: whenever it neither sleeps nor panics — the
returned buffer's `dev` and `num` fields equal the arguments, its
`BUFFER_LOCKED` flag is set and its reference count is at least `1`
(the hypothesis `0 ≤ count` excludes ill-formed states in which the
returned object started with a negative count); and `getblk(0, 0)`
triggers the kernel panic `getblk(0, 0)` instead of returning. -/
theorem c2_getblk_spec :
    (∀ (s : BCState) (dev num : Nat) (p : Ptr) (s' : BCState),
      getblk s dev num = Outcome.ok p s' → 0 ≤ (readPtr s p).count →
      (readPtr s' p).dev = dev ∧ (readPtr s' p).num = num ∧
      (readPtr s' p).flags &&& BUFFER_LOCKED ≠ 0 ∧ 1 ≤ (readPtr s' p).count) ∧
    ∀ s : BCState, getblk s 0 0 = Outcome.panic KPanic.getblk00 s := by
  constructor
  · intro s dev num p s' hok hcnt
    simp only [getblk] at hok
    by_cases h00 : dev = 0 ∧ num = 0
    · rw [if_pos h00] at hok
      exact absurd hok (by simp)
    rw [if_neg h00] at hok
    cases hfind : hashSearch s (Ptr.hashHead (HASH s dev num)) dev num (s.nbuf + 2)
        ((readPtr s (Ptr.hashHead (HASH s dev num))).hash_next) with
    | some pf =>
      simp only [hfind] at hok
      obtain ⟨hfdev, hfnum⟩ := hashSearch_found s _ dev num _ _ _ hfind
      by_cases hlk : (readPtr s pf).flags &&& BUFFER_LOCKED ≠ 0
      · rw [if_pos hlk] at hok
        exact absurd hok (by simp)
      rw [if_neg hlk] at hok
      -- the state after the count bump and conditional free-list unlink
      set S2 := if (readPtr s pf).count = 0 then
          freeUnlink (writePtr s pf fun b => { b with count := b.count + 1 }) pf
        else writePtr s pf fun b => { b with count := b.count + 1 } with hS2
      have hfields : (readPtr S2 pf).dev = (readPtr s pf).dev ∧
          (readPtr S2 pf).num = (readPtr s pf).num ∧
          (readPtr S2 pf).flags = (readPtr s pf).flags ∧
          (readPtr S2 pf).count = (readPtr s pf).count + 1 := by
        rw [hS2]
        split
        · obtain ⟨d, n, -, c, f, -⟩ := freeUnlink_preserves
            (writePtr s pf fun b => { b with count := b.count + 1 }) pf pf
          rw [d, n, c, f, readPtr_writePtr_self]
          exact ⟨rfl, rfl, rfl, rfl⟩
        · rw [readPtr_writePtr_self]
          exact ⟨rfl, rfl, rfl, rfl⟩
      rw [blklock, if_neg (by rw [hfields.2.2.1]; exact hlk)] at hok
      simp only [Outcome.bind] at hok
      injection hok with h1 h2
      subst h1
      subst h2
      rw [readPtr_writePtr_self]
      refine ⟨?_, ?_, ?_, ?_⟩
      · show (readPtr S2 pf).dev = dev
        rw [hfields.1, hfdev]
      · show (readPtr S2 pf).num = num
        rw [hfields.2.1, hfnum]
      · show ((readPtr S2 pf).flags ||| BUFFER_LOCKED) &&& BUFFER_LOCKED ≠ 0
        rw [lor_and_self]
        decide
      · show 1 ≤ (readPtr S2 pf).count
        rw [hfields.2.2.2]
        omega
    | none =>
      simp only [hfind] at hok
      by_cases hne : (readPtr s Ptr.freeHead).free_next = Ptr.freeHead
      · rw [if_pos hne] at hok
        exact absurd hok (by simp)
      rw [if_neg hne] at hok
      set pv := (readPtr s Ptr.freeHead).free_next with hpv
      set S1 := freeUnlink s pv with hS1
      set S2 := writePtr S1 pv (fun b => { b with count := b.count + 1 }) with hS2v
      by_cases hdt : (readPtr S2 pv).flags &&& BUFFER_DIRTY ≠ 0
      · rw [if_pos hdt] at hok
        exact absurd hok (by simp)
      rw [if_neg hdt] at hok
      set S3 := hashUnlink S2 pv with hS3
      set S4 := writePtr S3 pv (fun b =>
        { b with dev := dev, num := num, flags := b.flags &&& compl32 BUFFER_VALID }) with hS4
      set S5 := hashInsertHead S4 (HASH s dev num) pv with hS5
      by_cases hlk5 : (readPtr S5 pv).flags &&& BUFFER_LOCKED ≠ 0
      · rw [blklock, if_pos hlk5] at hok
        exact absurd hok (by simp [Outcome.bind])
      rw [blklock, if_neg hlk5] at hok
      simp only [Outcome.bind] at hok
      injection hok with h1 h2
      subst h1
      subst h2
      have h54 := hashInsertHead_preserves S4 (HASH s dev num) pv pv
      rw [readPtr_writePtr_self]
      refine ⟨?_, ?_, ?_, ?_⟩
      · show (readPtr S5 pv).dev = dev
        rw [h54.1, hS4, readPtr_writePtr_self]
      · show (readPtr S5 pv).num = num
        rw [h54.2.1, hS4, readPtr_writePtr_self]
      · show ((readPtr S5 pv).flags ||| BUFFER_LOCKED) &&& BUFFER_LOCKED ≠ 0
        rw [lor_and_self]
        decide
      · show 1 ≤ (readPtr S5 pv).count
        have h43 : (readPtr S4 pv).count = (readPtr S3 pv).count := by
          rw [hS4, readPtr_writePtr_self]
        have h32 := (hashUnlink_preserves S2 pv pv).2.2.2.1
        have h21 : (readPtr S2 pv).count = (readPtr S1 pv).count + 1 := by
          rw [hS2v, readPtr_writePtr_self]
        have h10 := (freeUnlink_preserves s pv pv).2.2.2.1
        rw [h54.2.2.2.1, h43, h32, h21, h10]
        omega
  · intro s
    simp [getblk]

/-! ## C3: `brelse` on a held buffer -/

/-- C3: `release_block` (`brelse`) on a buffer that is `LOCKED` with
`count ≥ 1` returns normally and decrements `count`; exactly when the
new count is `0` it wakes the global `any_free_chain` (one `wakeupFree`
event) and inserts the buffer into the free list — at the tail
(becoming `free_buffers.free_prev`, with `free_next` pointing at the
sentinel) if both `VALID` and `DIRTY` are set, at the head otherwise —
and when the new count is nonzero it emits no `wakeupFree` event and
leaves every free-list pointer unchanged; in every case it then clears
`LOCKED` and wakes all sleepers on the buffer's wait queue (a final
`wakeupBuf` event, queue severed). -/
theorem c3_brelse_spec (s : BCState) (p : Ptr)
    (hlk : (readPtr s p).flags &&& BUFFER_LOCKED ≠ 0)
    (hcnt : 1 ≤ (readPtr s p).count) :
    ∃ s', brelse s p = Outcome.ok () s' ∧
      (readPtr s' p).count = (readPtr s p).count - 1 ∧
      ((readPtr s p).count = 1 →
        s'.events = s.events ++ [Event.wakeupFree, Event.wakeupBuf p] ∧
        (((readPtr s p).flags &&& BUFFER_VALID ≠ 0 ∧ (readPtr s p).flags &&& BUFFER_DIRTY ≠ 0) →
          (readPtr s' Ptr.freeHead).free_prev = p ∧ (readPtr s' p).free_next = Ptr.freeHead) ∧
        (¬ ((readPtr s p).flags &&& BUFFER_VALID ≠ 0 ∧ (readPtr s p).flags &&& BUFFER_DIRTY ≠ 0) →
          (readPtr s' Ptr.freeHead).free_next = p ∧ (readPtr s' p).free_prev = Ptr.freeHead)) ∧
      (1 < (readPtr s p).count →
        s'.events = s.events ++ [Event.wakeupBuf p] ∧
        ∀ q, (readPtr s' q).free_next = (readPtr s q).free_next ∧
             (readPtr s' q).free_prev = (readPtr s q).free_prev) ∧
      (readPtr s' p).flags &&& BUFFER_LOCKED = 0 ∧
      (readPtr s' p).chain = [] := by
  clear hlk
  set s1 := writePtr s p (fun b => { b with count := b.count - 1 }) with hs1
  have hc1 : (readPtr s1 p).count = (readPtr s p).count - 1 := by
    rw [hs1, readPtr_writePtr_self]
  have hf1 : (readPtr s1 p).flags = (readPtr s p).flags := by
    rw [hs1, readPtr_writePtr_self]
  by_cases h1 : (readPtr s p).count = 1
  · -- the count drops to zero: wake the global chain and insert
    have hz : (readPtr s1 p).count = 0 := by
      rw [hc1, h1]
      decide
    have hfa : (readPtr (wakeupFreeChain s1) p).flags = (readPtr s p).flags := by
      rw [wakeupFreeChain_readPtr, hf1]
    by_cases hvd : (readPtr s p).flags &&& BUFFER_VALID ≠ 0 ∧
        (readPtr s p).flags &&& BUFFER_DIRTY ≠ 0
    · -- valid and dirty: tail insert
      set S2 := freeInsertTail (wakeupFreeChain s1) p with hS2
      have hc2 : (readPtr S2 p).count = 0 := by
        rw [hS2, (freeInsertTail_preserves _ p p).2.2.2.1, wakeupFreeChain_readPtr, hz]
      have hbe : brelse s p = Outcome.ok () (blkunlock S2 p) := by
        have hneg : ¬ ((0 : Int) < 0) := by decide
        simp only [brelse]
        rw [← hs1, hz, if_pos rfl, hfa, if_pos hvd, ← hS2, hc2, if_neg hneg]
      refine ⟨blkunlock S2 p, hbe, ?_, ?_, ?_, blkunlock_locked_clear S2 p,
        blkunlock_chain_empty S2 p⟩
      · rw [(blkunlock_preserves S2 p p).2.2.2.1, hc2, h1]
        decide
      · intro _
        refine ⟨?_, fun _ => ?_, fun hvd' => absurd hvd hvd'⟩
        · rw [blkunlock_events, hS2, freeInsertTail_events, wakeupFreeChain_events, hs1]
          simp [writePtr]
        · constructor
          · rw [(blkunlock_preserves S2 p Ptr.freeHead).2.2.2.2.2.1, hS2]
            exact (freeInsertTail_facts _ p).1
          · rw [(blkunlock_preserves S2 p p).2.2.2.2.1, hS2]
            exact (freeInsertTail_facts _ p).2
      · intro hgt
        omega
    · -- not (valid and dirty): head insert
      set S2 := freeInsertHead (wakeupFreeChain s1) p with hS2
      have hc2 : (readPtr S2 p).count = 0 := by
        rw [hS2, (freeInsertHead_preserves _ p p).2.2.2.1, wakeupFreeChain_readPtr, hz]
      have hbe : brelse s p = Outcome.ok () (blkunlock S2 p) := by
        have hneg : ¬ ((0 : Int) < 0) := by decide
        simp only [brelse]
        rw [← hs1, hz, if_pos rfl, hfa, if_neg hvd, ← hS2, hc2, if_neg hneg]
      refine ⟨blkunlock S2 p, hbe, ?_, ?_, ?_, blkunlock_locked_clear S2 p,
        blkunlock_chain_empty S2 p⟩
      · rw [(blkunlock_preserves S2 p p).2.2.2.1, hc2, h1]
        decide
      · intro _
        refine ⟨?_, fun hvd' => absurd hvd' hvd, fun _ => ?_⟩
        · rw [blkunlock_events, hS2, freeInsertHead_events, wakeupFreeChain_events, hs1]
          simp [writePtr]
        · constructor
          · rw [(blkunlock_preserves S2 p Ptr.freeHead).2.2.2.2.1, hS2]
            exact (freeInsertHead_facts _ p).1
          · rw [(blkunlock_preserves S2 p p).2.2.2.2.2.1, hS2]
            exact (freeInsertHead_facts _ p).2
      · intro hgt
        omega
  · -- the count stays positive: no insertion, just unlock
    have hgt : 1 < (readPtr s p).count := by omega
    have hz : ¬ ((readPtr s1 p).count = 0) := by
      rw [hc1]
      omega
    have hbe : brelse s p = Outcome.ok () (blkunlock s1 p) := by
      have hneg : ¬ ((readPtr s1 p).count < 0) := by
        rw [hc1]
        omega
      simp only [brelse]
      rw [← hs1, if_neg hz, if_neg hneg]
    refine ⟨blkunlock s1 p, hbe, ?_, fun h1' => absurd h1' h1, ?_,
      blkunlock_locked_clear s1 p, blkunlock_chain_empty s1 p⟩
    · rw [(blkunlock_preserves s1 p p).2.2.2.1, hc1]
    · intro _
      refine ⟨?_, fun q => ⟨?_, ?_⟩⟩
      · rw [blkunlock_events, hs1]
        simp [writePtr]
      · rw [(blkunlock_preserves s1 p q).2.2.2.2.1, hs1]
        exact readPtr_writePtr_field _ _ _ _ _ fun b => rfl
      · rw [(blkunlock_preserves s1 p q).2.2.2.2.2.1, hs1]
        exact readPtr_writePtr_field _ _ _ _ _ fun b => rfl

/-! ## C5: the hit path issues no second device read -/

/-- The hash search succeeds immediately when the first probed entry
matches the searched identity. -/
theorem hashSearch_head_match (s : BCState) (sent : Ptr) (dev num : Nat) (fuel : Nat) (p : Ptr)
    (hf : fuel ≠ 0) (hne : p ≠ sent)
    (hdev : (readPtr s p).dev = dev) (hnum : (readPtr s p).num = num) :
    hashSearch s sent dev num fuel p = some p := by
  cases fuel with
  | zero => exact absurd rfl hf
  | succ k => rw [hashSearch, if_neg hne, if_pos ⟨hdev, hnum⟩]

/-- The first `getblk` takes the miss branch: the hash bucket is empty,
so `buffers[0]` is claimed from the free-list head, rebucketed with
identity `(d, n)`, and locked. -/
theorem c5_getblk_miss (d n : Nat) (h : ¬ (d = 0 ∧ n = 0)) :
    getblk (binitState 4 1 0 1) d n = Outcome.ok (Ptr.buf 0) (c5S6 d n) := by
  have hht : (binitState 4 1 0 1).htsize = 1 := rfl
  have hlk := blklock_ok (c5S5 d n) (Ptr.buf 0) 4294967280 4294967284 rfl
    (by decide) (by decide)
  simp only [getblk, HASH, hht, Nat.mod_one]
  rw [if_neg h]
  show (blklock (c5S5 d n) (Ptr.buf 0)).bind (fun _ s6 => Outcome.ok (Ptr.buf 0) s6)
      = Outcome.ok (Ptr.buf 0) (c5S6 d n)
  rw [hlk]
  rfl

/-- The first `bread` finds the claimed buffer not `VALID` and issues
the one device read. -/
theorem c5_bread_miss (d n : Nat) (h : ¬ (d = 0 ∧ n = 0)) :
    bread (binitState 4 1 0 1) d n = Outcome.ok (Ptr.buf 0) (c5SF d n) := by
  simp only [bread]
  rw [c5_getblk_miss d n h, Outcome.bind_ok]
  show (if (readPtr (c5S6 d n) (Ptr.buf 0)).flags &&& BUFFER_VALID ≠ 0 then
      Outcome.ok (Ptr.buf 0) (c5S6 d n)
    else Outcome.ok (Ptr.buf 0) (bdev_readblk (c5S6 d n) (Ptr.buf 0)))
    = Outcome.ok (Ptr.buf 0) (c5SF d n)
  rw [show (readPtr (c5S6 d n) (Ptr.buf 0)).flags = 4294967284 from rfl]
  rw [if_neg (show ¬ ((4294967284 : Nat) &&& BUFFER_VALID ≠ 0) by decide)]
  refine congrArg (Outcome.ok (Ptr.buf 0)) ?_
  show writePtr
      { c5S6 d n with events := (c5S6 d n).events ++
          [Event.devRead (readPtr (c5S6 d n) (Ptr.buf 0)).dev
            (readPtr (c5S6 d n) (Ptr.buf 0)).num] }
      (Ptr.buf 0) (fun b => { b with flags := b.flags ||| BUFFER_VALID }) = c5SF d n
  exact writePtr_congr _ _ _ _ (flags_update_or _ _ 4294967284 _ rfl (by decide))

/-- `brelse` on the buffer the first `bread` returned: the count drops
to 0, the free chain is woken, the buffer (VALID, not DIRTY) goes to
the free-list head, and the buffer is unlocked. -/
theorem c5_brelse_eq (d n : Nat) :
    brelse (c5SF d n) (Ptr.buf 0) = Outcome.ok () (c5SR d n) := by
  simp only [brelse]
  rw [show (readPtr (wakeupFreeChain (writePtr (c5SF d n) (Ptr.buf 0) fun b =>
      { b with count := b.count - 1 })) (Ptr.buf 0)).flags = 4294967285 from rfl]
  show Outcome.ok () (blkunlock (c5S8 d n) (Ptr.buf 0)) = Outcome.ok () (c5SR d n)
  refine congrArg (Outcome.ok ()) ?_
  show wakeupBufChain (writePtr (c5S8 d n) (Ptr.buf 0)
      fun b => { b with flags := b.flags &&& compl32 BUFFER_LOCKED }) (Ptr.buf 0) = c5SR d n
  refine congrArg (fun s => wakeupBufChain s (Ptr.buf 0)) ?_
  exact writePtr_congr _ _ _ _ (flags_update_and _ _ 4294967285 _ rfl (by decide))

/-- The second `getblk` takes the hit branch: the search finds
`buffers[0]` in bucket 0 unlocked, removes it from the free list
(count was 0) and locks it. -/
theorem c5_getblk_hit (d n : Nat) (h : ¬ (d = 0 ∧ n = 0)) :
    getblk (c5SR d n) d n = Outcome.ok (Ptr.buf 0) (c5T d n) := by
  have hht : (c5SR d n).htsize = 1 := rfl
  have hsearch : hashSearch (c5SR d n) (Ptr.hashHead 0) d n ((c5SR d n).nbuf + 2)
      ((readPtr (c5SR d n) (Ptr.hashHead 0)).hash_next) = some (Ptr.buf 0) := by
    rw [show (readPtr (c5SR d n) (Ptr.hashHead 0)).hash_next = Ptr.buf 0 from rfl]
    exact hashSearch_head_match _ _ _ _ _ _ (by omega) (by decide) rfl rfl
  simp only [getblk, HASH, hht, Nat.mod_one]
  rw [if_neg h, hsearch]
  show (if (readPtr (c5SR d n) (Ptr.buf 0)).flags &&& BUFFER_LOCKED ≠ 0 then
        Outcome.blocked (c5SR d n)
      else
        (blklock
          (if (readPtr (c5SR d n) (Ptr.buf 0)).count = 0 then
            freeUnlink (writePtr (c5SR d n) (Ptr.buf 0) fun b => { b with count := b.count + 1 })
              (Ptr.buf 0)
          else writePtr (c5SR d n) (Ptr.buf 0) fun b => { b with count := b.count + 1 })
          (Ptr.buf 0)).bind fun _ s3 => Outcome.ok (Ptr.buf 0) s3)
      = Outcome.ok (Ptr.buf 0) (c5T d n)
  rw [show (readPtr (c5SR d n) (Ptr.buf 0)).flags = 4294967281 from rfl]
  rw [if_neg (show ¬ ((4294967281 : Nat) &&& BUFFER_LOCKED ≠ 0) by decide)]
  rw [if_pos (show (readPtr (c5SR d n) (Ptr.buf 0)).count = 0 from rfl)]
  rw [blklock_ok
    (freeUnlink (writePtr (c5SR d n) (Ptr.buf 0) fun b => { b with count := b.count + 1 })
      (Ptr.buf 0))
    (Ptr.buf 0) 4294967281 4294967285 rfl (by decide) (by decide)]
  rfl

/-- The second `bread` finds the buffer `VALID` and returns without
touching the driver. -/
theorem c5_bread_hit (d n : Nat) (h : ¬ (d = 0 ∧ n = 0)) :
    bread (c5SR d n) d n = Outcome.ok (Ptr.buf 0) (c5T d n) := by
  simp only [bread]
  rw [c5_getblk_hit d n h, Outcome.bind_ok]
  show (if (readPtr (c5T d n) (Ptr.buf 0)).flags &&& BUFFER_VALID ≠ 0 then
      Outcome.ok (Ptr.buf 0) (c5T d n)
    else Outcome.ok (Ptr.buf 0) (bdev_readblk (c5T d n) (Ptr.buf 0)))
    = Outcome.ok (Ptr.buf 0) (c5T d n)
  rw [show (readPtr (c5T d n) (Ptr.buf 0)).flags = 4294967285 from rfl]
  rw [if_pos (show (4294967285 : Nat) &&& BUFFER_VALID ≠ 0 by decide)]

/-- After `brelse`, the released buffer is still `VALID`. -/
theorem c5_brelse_valid (d n : Nat) :
    (readPtr (brelse (c5SF d n) (Ptr.buf 0)).state (Ptr.buf 0)).flags &&& BUFFER_VALID ≠ 0 := by
  rw [c5_brelse_eq d n]
  simp only [Outcome.state]
  rw [show (readPtr (c5SR d n) (Ptr.buf 0)).flags = 4294967281 from rfl]
  decide

/-- The second `bread` returns the same slot. -/
theorem c5_second_val (d n : Nat) (h : ¬ (d = 0 ∧ n = 0)) :
    (bread (brelse (c5SF d n) (Ptr.buf 0)).state d n).val? = some (Ptr.buf 0) := by
  rw [c5_brelse_eq d n]
  simp only [Outcome.state]
  rw [c5_bread_hit d n h]
  rfl

/-- The second `bread` leaves the trace with the single original device
read. -/
theorem c5_second_reads (d n : Nat) (h : ¬ (d = 0 ∧ n = 0)) :
    countReads (bread (brelse (c5SF d n) (Ptr.buf 0)).state d n).state = 1 := by
  rw [c5_brelse_eq d n]
  simp only [Outcome.state]
  rw [c5_bread_hit d n h]
  rfl

/-- C5: starting from the state `binit` establishes (pool of 4 buffers,
1 hash slot, unit block size), reading any block `(d, n) ≠ (0, 0)` —
necessarily absent from the empty cache — issues exactly one device
read and returns slot `buffers[0]`; after `brelse`, a second
`bread(d, n)` issues zero further device reads (the trace still holds
exactly one read) and returns the same slot, the hit path finding the
buffer `VALID` in its hash bucket without calling the driver. -/
theorem c5_bread_hit_path (d n : Nat) (h : ¬ (d = 0 ∧ n = 0)) :
    (bread (binitState 4 1 0 1) d n).val? = some (Ptr.buf 0) ∧
    countReads (bread (binitState 4 1 0 1) d n).state = 1 ∧
    (brelse (bread (binitState 4 1 0 1) d n).state (Ptr.buf 0)).val? = some () ∧
    ((readPtr (brelse (bread (binitState 4 1 0 1) d n).state (Ptr.buf 0)).state
        (Ptr.buf 0)).flags &&& BUFFER_VALID ≠ 0) ∧
    (bread (brelse (bread (binitState 4 1 0 1) d n).state (Ptr.buf 0)).state d n).val?
      = some (Ptr.buf 0) ∧
    countReads
      (bread (brelse (bread (binitState 4 1 0 1) d n).state (Ptr.buf 0)).state d n).state
      = 1 := by
  refine ⟨?_, ?_, ?_, ?_, ?_, ?_⟩
  · rw [c5_bread_miss d n h]
    rfl
  · rw [c5_bread_miss d n h]
    rfl
  · rw [c5_bread_miss d n h]
    simp only [Outcome.state]
    rw [c5_brelse_eq d n]
    rfl
  · rw [c5_bread_miss d n h]
    simp only [Outcome.state]
    exact c5_brelse_valid d n
  · rw [c5_bread_miss d n h]
    simp only [Outcome.state]
    exact c5_second_val d n h
  · rw [c5_bread_miss d n h]
    simp only [Outcome.state]
    exact c5_second_reads d n h

/-! ## C10: `blkunlock` is total and unconditional -/

/-- C10: `unlock_block` (`blkunlock`) is total and unconditional: on any
buffer, locked or not, it clears `BUFFER_LOCKED`, wakes every process
sleeping on that buffer's wait queue (recorded as a `wakeupBuf` event,
queue severed), and leaves every other field of the buffer — `dev`,
`num`, `data`, `count`, the other flags, the free-list and hash-list
links — and every other buffer object unchanged. -/
theorem c10_blkunlock_total (s : BCState) (p : Ptr) :
    ((readPtr (blkunlock s p) p).flags &&& BUFFER_LOCKED = 0) ∧
    ((readPtr (blkunlock s p) p).chain = [] ∧
      (blkunlock s p).events = s.events ++ [Event.wakeupBuf p]) ∧
    ((readPtr (blkunlock s p) p).dev = (readPtr s p).dev ∧
     (readPtr (blkunlock s p) p).num = (readPtr s p).num ∧
     (readPtr (blkunlock s p) p).data = (readPtr s p).data ∧
     (readPtr (blkunlock s p) p).count = (readPtr s p).count ∧
     (readPtr (blkunlock s p) p).free_next = (readPtr s p).free_next ∧
     (readPtr (blkunlock s p) p).free_prev = (readPtr s p).free_prev ∧
     (readPtr (blkunlock s p) p).hash_next = (readPtr s p).hash_next ∧
     (readPtr (blkunlock s p) p).hash_prev = (readPtr s p).hash_prev ∧
     (readPtr (blkunlock s p) p).flags &&& BUFFER_VALID = (readPtr s p).flags &&& BUFFER_VALID ∧
     (readPtr (blkunlock s p) p).flags &&& BUFFER_BUSY = (readPtr s p).flags &&& BUFFER_BUSY ∧
     (readPtr (blkunlock s p) p).flags &&& BUFFER_DIRTY = (readPtr s p).flags &&& BUFFER_DIRTY) ∧
    (∀ q, q ≠ p → readPtr (blkunlock s p) q = readPtr s q) ∧
    (blkunlock s p).chain = s.chain := by
  have hrd : readPtr (blkunlock s p) p =
      { readPtr s p with
          flags := (readPtr s p).flags &&& compl32 BUFFER_LOCKED, chain := [] } := by
    simp [blkunlock, wakeupBufChain, readPtr_writePtr_self, readPtr, writePtr]
  refine ⟨?_, ⟨?_, ?_⟩, ?_, ?_, ?_⟩
  · rw [hrd]
    exact (and_and_eq_of_and _ (by decide)).trans (Nat.and_zero _)
  · rw [hrd]
  · simp [blkunlock, wakeupBufChain, writePtr]
  · rw [hrd]
    refine ⟨rfl, rfl, rfl, rfl, rfl, rfl, rfl, rfl, ?_, ?_, ?_⟩ <;>
      exact and_and_eq_of_and _ (by decide)
  · intro q hq
    simp [blkunlock, wakeupBufChain, readPtr, writePtr, hq]
  · simp [blkunlock, wakeupBufChain, writePtr]

/-! ## C4: releasing a buffer whose count is already 0 panics -/

/-- C4: `release_block` (`brelse`) on a buffer whose `count` is already
`0` ends in the kernel panic "fs: freeing buffer twice"; at the panic
point the buffer has not been inserted into the free list (no free-list
pointer of any object changed, no `wakeupFree` event was emitted; only
the count was decremented, to `-1`). -/
theorem c4_brelse_double_free (s : BCState) (p : Ptr)
    (h : (readPtr s p).count = 0) :
    (brelse s p).panicMsg? = some KPanic.freeingTwice ∧
    (brelse s p).state.events = s.events ∧
    (∀ q, (readPtr (brelse s p).state q).free_next = (readPtr s q).free_next ∧
          (readPtr (brelse s p).state q).free_prev = (readPtr s q).free_prev) ∧
    (readPtr (brelse s p).state p).count = -1 := by
  have hc1 : (readPtr (writePtr s p fun b => { b with count := b.count - 1 }) p).count = -1 := by
    rw [readPtr_writePtr_self]
    show (readPtr s p).count - 1 = -1
    rw [h]
    decide
  have hb : brelse s p = Outcome.panic KPanic.freeingTwice
      (writePtr s p fun b => { b with count := b.count - 1 }) := by
    simp [brelse, hc1]
  rw [hb]
  refine ⟨rfl, rfl, ?_, ?_⟩
  · intro q
    simp only [Outcome.state]
    rw [readPtr_writePtr]
    split <;> exact ⟨rfl, rfl⟩
  · simp only [Outcome.state]
    rw [hc1]

/-! ## C7: the state established by `binit` -/

/-- C7 counterexample: the claim says that after `init_cache` every
buffer has "all flags cleared (flags value with no flag set)", i.e. a
zero flags word.  In the code `binit` assigns
`flags = ~(BUFFER_VALID | BUFFER_BUSY | BUFFER_LOCKED | BUFFER_DIRTY)`,
the bitwise complement of the named-flag mask, which sets every other
bit of the 32-bit flag word: concretely, after `binit` with one buffer
the flag word is `4294967280`, not `0`. -/
theorem c7_flags_counterexample :
    (readPtr (binitState 1 1 0 1024) (Ptr.buf 0)).flags = 4294967280 ∧
    ¬ (readPtr (binitState 1 1 0 1024) (Ptr.buf 0)).flags = 0 := by
  decide

/-- C7 (amended): after `binit`, every pool buffer has
`(dev, num) = (0, 0)`, `count = 0`, an empty wait queue, `data`
pointing to consecutive `BLOCK_SIZE` regions starting at the reserved
virtual address, hash pointers as self-loops, and free-list pointers
linking all `NR_BUFFERS` buffers in index order between the two ends of
the sentinel; the flags word is the bitwise complement of the
named-flag mask — so each named flag (`VALID`, `BUSY`, `LOCKED`,
`DIRTY`) is clear, but the flags word is not `0`. -/
theorem c7_binit_amended (nbuf htsize virt blockSize : Nat) :
    (∀ i, i < nbuf →
      readPtr (binitState nbuf htsize virt blockSize) (Ptr.buf i) =
        { dev := 0, num := 0, data := virt + i * blockSize, count := 0,
          flags := compl32 (BUFFER_VALID ||| BUFFER_BUSY ||| BUFFER_LOCKED ||| BUFFER_DIRTY),
          chain := [],
          free_next := if i + 1 = nbuf then Ptr.freeHead else Ptr.buf (i + 1),
          free_prev := if i = 0 then Ptr.freeHead else Ptr.buf (i - 1),
          hash_next := Ptr.buf i, hash_prev := Ptr.buf i }) ∧
    (∀ i, i < nbuf →
      (readPtr (binitState nbuf htsize virt blockSize) (Ptr.buf i)).flags &&& BUFFER_VALID = 0 ∧
      (readPtr (binitState nbuf htsize virt blockSize) (Ptr.buf i)).flags &&& BUFFER_BUSY = 0 ∧
      (readPtr (binitState nbuf htsize virt blockSize) (Ptr.buf i)).flags &&& BUFFER_LOCKED = 0 ∧
      (readPtr (binitState nbuf htsize virt blockSize) (Ptr.buf i)).flags &&& BUFFER_DIRTY = 0) ∧
    (readPtr (binitState nbuf htsize virt blockSize) Ptr.freeHead).free_next = Ptr.buf 0 ∧
    (readPtr (binitState nbuf htsize virt blockSize) Ptr.freeHead).free_prev =
      Ptr.buf (nbuf - 1) ∧
    (∀ k, k < htsize →
      (readPtr (binitState nbuf htsize virt blockSize) (Ptr.hashHead k)).hash_next =
        Ptr.hashHead k ∧
      (readPtr (binitState nbuf htsize virt blockSize) (Ptr.hashHead k)).hash_prev =
        Ptr.hashHead k) := by
  have hread : ∀ i, i < nbuf →
      readPtr (binitState nbuf htsize virt blockSize) (Ptr.buf i) =
        binitBuffer nbuf virt blockSize i := by
    intro i hi
    simp [binitState, readPtr, hi]
  refine ⟨?_, ?_, rfl, rfl, ?_⟩
  · intro i hi
    rw [hread i hi]
    rfl
  · intro i hi
    rw [hread i hi]
    have hf : (binitBuffer nbuf virt blockSize i).flags =
        compl32 (BUFFER_VALID ||| BUFFER_BUSY ||| BUFFER_LOCKED ||| BUFFER_DIRTY) := rfl
    refine ⟨?_, ?_, ?_, ?_⟩ <;> (rw [hf]; decide)
  · intro k hk
    constructor <;> simp [binitState, readPtr, hk]

/-! ## C8: machinery for the free-list/count invariant

The free list is a doubly-linked cycle through the sentinel
`free_buffers`; `getblk`/`brelse`/`bsync` splice pool buffers out of and
into it with four-statement pointer surgery.  The lemmas below
characterize `chainOK` under such splices. -/

/-- `safePtr` only depends on the configured sizes. -/
theorem safePtr_congr (s s' : BCState) (hn : s'.nbuf = s.nbuf) (hh : s'.htsize = s.htsize)
    (p : Ptr) : safePtr s' p ↔ safePtr s p := by
  cases p <;> simp [safePtr, hn, hh]

/-- `chainOK` only looks at the free-list fields of the visited pool
buffers and the sentinel's back pointer. -/
theorem chainOK_congr (s s' : BCState) (hn : s'.nbuf = s.nbuf)
    (hsp : (readPtr s' Ptr.freeHead).free_prev = (readPtr s Ptr.freeHead).free_prev) :
    ∀ (m : List Nat) (prev q : Ptr),
      (∀ i ∈ m, (readPtr s' (Ptr.buf i)).free_next = (readPtr s (Ptr.buf i)).free_next ∧
        (readPtr s' (Ptr.buf i)).free_prev = (readPtr s (Ptr.buf i)).free_prev) →
      chainOK s prev q m → chainOK s' prev q m := by
  intro m
  induction m with
  | nil =>
    intro prev q _ h
    rw [chainOK] at h ⊢
    exact ⟨h.1, by rw [hsp]; exact h.2⟩
  | cons i rest ih =>
    intro prev q hf h
    rw [chainOK] at h ⊢
    obtain ⟨hq, hin, hpr, hch⟩ := h
    subst hq
    refine ⟨rfl, by rw [hn]; exact hin, ?_, ?_⟩
    · rw [(hf i (List.mem_cons_self i rest)).2]
      exact hpr
    · rw [(hf i (List.mem_cons_self i rest)).1]
      exact ih _ _ (fun m hm => hf m (List.mem_cons_of_mem _ hm)) hch

/-- The sentinel's back pointer closes the chain at its last node
(`foldl` returns the anchor for an empty list, the last listed buffer
otherwise). -/
theorem chainOK_lastOf (s : BCState) :
    ∀ (l : List Nat) (prev p : Ptr), chainOK s prev p l →
      (readPtr s Ptr.freeHead).free_prev = l.foldl (fun _ m => Ptr.buf m) prev := by
  intro l
  induction l with
  | nil =>
    intro prev p h
    rw [chainOK] at h
    exact h.2
  | cons i rest ih =>
    intro prev p h
    rw [chainOK] at h
    exact ih (Ptr.buf i) _ h.2.2.2

/-- The back pointer of a listed buffer is the chain node before it. -/
theorem chainOK_prevOf (s : BCState) (j : Nat) (l₂ : List Nat) :
    ∀ (l₁ : List Nat) (prev p : Ptr), chainOK s prev p (l₁ ++ j :: l₂) →
      (readPtr s (Ptr.buf j)).free_prev = l₁.foldl (fun _ m => Ptr.buf m) prev := by
  intro l₁
  induction l₁ with
  | nil =>
    intro prev p h
    rw [List.nil_append, chainOK] at h
    obtain ⟨hp, _, hpr, _⟩ := h
    subst hp
    exact hpr
  | cons i rest ih =>
    intro prev p h
    rw [List.cons_append, chainOK] at h
    exact ih (Ptr.buf i) _ h.2.2.2

/-- The forward pointer of a listed buffer is the chain node after it. -/
theorem chainOK_nextOf (s : BCState) (j : Nat) (l₂ : List Nat) :
    ∀ (l₁ : List Nat) (prev p : Ptr), chainOK s prev p (l₁ ++ j :: l₂) →
      (readPtr s (Ptr.buf j)).free_next
        = (match l₂ with | [] => Ptr.freeHead | k :: _ => Ptr.buf k) := by
  intro l₁
  induction l₁ with
  | nil =>
    intro prev p h
    rw [List.nil_append, chainOK] at h
    obtain ⟨hp, _, _, hch⟩ := h
    subst hp
    cases l₂ with
    | nil =>
      rw [chainOK] at hch
      exact hch.1
    | cons k rest =>
      rw [chainOK] at hch
      exact hch.1
  | cons i rest ih =>
    intro prev p h
    rw [List.cons_append, chainOK] at h
    exact ih (Ptr.buf i) _ h.2.2.2

/-- Folding the "last visited buffer" function over a nonempty list
lands on a listed buffer. -/
theorem foldl_buf_mem :
    ∀ (l : List Nat) (x : Nat) (a : Ptr),
      ∃ m, m ∈ x :: l ∧ (x :: l).foldl (fun _ m => Ptr.buf m) a = Ptr.buf m := by
  intro l
  induction l with
  | nil =>
    intro x a
    exact ⟨x, List.mem_cons_self x [], rfl⟩
  | cons y rest ih =>
    intro x a
    obtain ⟨m, hm, he⟩ := ih y (Ptr.buf x)
    exact ⟨m, List.mem_cons_of_mem _ hm, he⟩

/-- The two statements of the free-list unlink, written as two updates
at the unlinked node's original neighbours. -/
theorem freeUnlink_eq (s : BCState) (p A N : Ptr)
    (hA : (readPtr s p).free_prev = A) (hN : (readPtr s p).free_next = N)
    (hpA : p ≠ A) :
    freeUnlink s p
      = writePtr (writePtr s A fun b => { b with free_next := N }) N
          fun b => { b with free_prev := A } := by
  simp only [freeUnlink]
  rw [hA, hN]
  have h1 : readPtr (writePtr s A fun b => { b with free_next := N }) p = readPtr s p :=
    readPtr_writePtr_ne _ _ _ _ hpA
  rw [h1, hA, hN]

/-- Unlinking a buffer: the tail of the chain after the removed node,
re-anchored at the node before it. -/
theorem chainOK_unlink_tail (s : BCState) (j : Nat) (A N : Ptr)
    (l₂ : List Nat) (hnd : l₂.Nodup)
    (hAl2 : ∀ m ∈ l₂, A ≠ Ptr.buf m)
    (hch : chainOK s (Ptr.buf j) N l₂) :
    chainOK (writePtr (writePtr s A fun b => { b with free_next := N }) N
        fun b => { b with free_prev := A }) A N l₂ := by
  cases l₂ with
  | nil =>
    rw [chainOK] at hch ⊢
    obtain ⟨hNf, _⟩ := hch
    subst hNf
    refine ⟨rfl, ?_⟩
    rw [readPtr_writePtr_self]
  | cons k rest =>
    rw [chainOK] at hch ⊢
    obtain ⟨hNk, hkn, _, hrest⟩ := hch
    have hAN : A ≠ N := by
      rw [hNk]
      exact hAl2 k (List.mem_cons_self k rest)
    have hfhN : Ptr.freeHead ≠ N := by
      rw [hNk]
      exact fun h => Ptr.noConfusion h
    refine ⟨hNk, hkn, ?_, ?_⟩
    · rw [readPtr_writePtr_self]
    · have hfn : (readPtr (writePtr (writePtr s A fun b => { b with free_next := N }) N
          fun b => { b with free_prev := A }) N).free_next = (readPtr s N).free_next := by
        rw [readPtr_writePtr_self]
        show (readPtr (writePtr s A fun b => { b with free_next := N }) N).free_next
          = (readPtr s N).free_next
        rw [readPtr_writePtr_ne _ _ _ _ (Ne.symm hAN)]
      rw [hfn]
      refine chainOK_congr s _ ?_ ?_ rest (Ptr.buf k) _ ?_ hrest
      · rfl
      · rw [readPtr_writePtr_ne _ _ _ _ hfhN]
        exact readPtr_writePtr_field (fun b => b.free_prev) _ _ _ _ (fun b => rfl)
      · intro m hm
        have hmN : Ptr.buf m ≠ N := by
          rw [hNk]
          intro h
          injection h with hmk
          subst hmk
          exact (List.nodup_cons.mp hnd).1 hm
        have hmA : Ptr.buf m ≠ A := Ne.symm (hAl2 m (List.mem_cons_of_mem _ hm))
        constructor
        · rw [readPtr_writePtr_ne _ _ _ _ hmN, readPtr_writePtr_ne _ _ _ _ hmA]
        · rw [readPtr_writePtr_ne _ _ _ _ hmN, readPtr_writePtr_ne _ _ _ _ hmA]

/-- Unlinking a listed buffer `j` from a well-formed chain: the chain
now visits the remaining nodes.  The start pointer is unchanged unless
`j` was the first node, in which case the chain enters at `j`'s old
forward pointer. -/
theorem chainOK_remove_aux (s : BCState) (j : Nat) (A N : Ptr) (l₂ : List Nat)
    (hN : (readPtr s (Ptr.buf j)).free_next = N)
    (hNs : N = match l₂ with | [] => Ptr.freeHead | k :: _ => Ptr.buf k) :
    ∀ (l₁ : List Nat) (prev p : Ptr),
      chainOK s prev p (l₁ ++ j :: l₂) → (l₁ ++ j :: l₂).Nodup →
      (∀ m ∈ l₁ ++ j :: l₂, prev ≠ Ptr.buf m) →
      A = l₁.foldl (fun _ m => Ptr.buf m) prev →
      chainOK (writePtr (writePtr s A fun b => { b with free_next := N }) N
          fun b => { b with free_prev := A }) prev
        (match l₁ with | [] => N | _ :: _ => p) (l₁ ++ l₂) := by
  intro l₁
  induction l₁ with
  | nil =>
    intro prev p hch hnd hprev hA
    rw [List.nil_append] at hch hnd hprev
    rw [chainOK] at hch
    obtain ⟨hp, _, hpr, hch₂⟩ := hch
    subst hp
    have hAp : A = prev := hA
    subst hAp
    rw [hN] at hch₂
    exact chainOK_unlink_tail s j A N l₂ (List.nodup_cons.mp hnd).2
      (fun m hm => hprev m (List.mem_cons_of_mem _ hm)) hch₂
  | cons i l₁' ih =>
    intro prev p hch hnd hprev hA
    rw [List.cons_append] at hch hnd
    rw [chainOK] at hch
    obtain ⟨hp, hin, hpr, hch'⟩ := hch
    subst hp
    have hihd : i ∉ l₁' ++ j :: l₂ := (List.nodup_cons.mp hnd).1
    have hiN : Ptr.buf i ≠ N := by
      rw [hNs]
      cases l₂ with
      | nil => exact fun h => Ptr.noConfusion h
      | cons k rest =>
        intro h
        injection h with hik
        subst hik
        exact hihd (List.mem_append_right l₁' (List.mem_cons_of_mem _
          (List.mem_cons_self i rest)))
    have hsub : ∀ m ∈ l₁' ++ j :: l₂, Ptr.buf i ≠ Ptr.buf m := by
      intro m hm h
      injection h with him
      subst him
      exact hihd hm
    show chainOK _ prev (Ptr.buf i) (i :: (l₁' ++ l₂))
    rw [chainOK]
    cases l₁' with
    | nil =>
      have hAi : A = Ptr.buf i := hA
      subst hAi
      have hch'' := hch'
      rw [List.nil_append, chainOK] at hch''
      refine ⟨rfl, hin, ?_, ?_⟩
      · rw [readPtr_writePtr_ne _ _ _ _ hiN, readPtr_writePtr_self]
        exact hpr
      · have hfn : (readPtr (writePtr (writePtr s (Ptr.buf i)
            fun b => { b with free_next := N }) N
            fun b => { b with free_prev := Ptr.buf i }) (Ptr.buf i)).free_next = N := by
          rw [readPtr_writePtr_ne _ _ _ _ hiN, readPtr_writePtr_self]
        rw [hfn]
        exact ih (Ptr.buf i) _ hch' (List.nodup_cons.mp hnd).2 hsub rfl
    | cons i₂ l₁'' =>
      obtain ⟨m, hm, hAm⟩ := foldl_buf_mem l₁'' i₂ (Ptr.buf i)
      have hAbuf : A = Ptr.buf m := by
        rw [hA]
        exact hAm
      have hiA : Ptr.buf i ≠ A := by
        rw [hAbuf]
        intro h
        injection h with him
        subst him
        exact hihd (List.mem_append_left _ hm)
      have hprev' : (readPtr (writePtr (writePtr s A fun b => { b with free_next := N }) N
          fun b => { b with free_prev := A }) (Ptr.buf i)).free_prev
          = (readPtr s (Ptr.buf i)).free_prev := by
        rw [readPtr_writePtr_ne _ _ _ _ hiN, readPtr_writePtr_ne _ _ _ _ hiA]
      have hnext' : (readPtr (writePtr (writePtr s A fun b => { b with free_next := N }) N
          fun b => { b with free_prev := A }) (Ptr.buf i)).free_next
          = (readPtr s (Ptr.buf i)).free_next := by
        rw [readPtr_writePtr_ne _ _ _ _ hiN, readPtr_writePtr_ne _ _ _ _ hiA]
      refine ⟨rfl, hin, ?_, ?_⟩
      · rw [hprev']
        exact hpr
      · rw [hnext']
        exact ih (Ptr.buf i) _ hch' (List.nodup_cons.mp hnd).2 hsub hA

/-- Unlinking a listed buffer from the free list. -/
theorem freeListIs_unlink (s : BCState) (j : Nat) (l₁ l₂ : List Nat)
    (hfl : freeListIs s (l₁ ++ j :: l₂)) (hnd : (l₁ ++ j :: l₂).Nodup) :
    freeListIs (freeUnlink s (Ptr.buf j)) (l₁ ++ l₂) := by
  have hsent : ∀ m : Nat, Ptr.freeHead ≠ Ptr.buf m := fun m h => Ptr.noConfusion h
  have hjl : j ∉ l₁ := by
    intro hj
    rcases (List.nodup_append.mp hnd) with ⟨_, _, hdisj⟩
    exact hdisj hj (List.mem_cons_self j l₂)
  have hA := chainOK_prevOf s j l₂ l₁ Ptr.freeHead _ hfl
  have hNs := chainOK_nextOf s j l₂ l₁ Ptr.freeHead _ hfl
  have hjA : Ptr.buf j ≠ (readPtr s (Ptr.buf j)).free_prev := by
    rw [hA]
    cases l₁ with
    | nil => exact fun h => Ptr.noConfusion h
    | cons x xs =>
      obtain ⟨m, hm, hAm⟩ := foldl_buf_mem xs x Ptr.freeHead
      rw [hAm]
      intro h
      injection h with hjm
      subst hjm
      exact hjl hm
  rw [freeUnlink_eq s (Ptr.buf j) ((readPtr s (Ptr.buf j)).free_prev)
    ((readPtr s (Ptr.buf j)).free_next) rfl rfl hjA]
  have hmain := chainOK_remove_aux s j ((readPtr s (Ptr.buf j)).free_prev)
    ((readPtr s (Ptr.buf j)).free_next) l₂ rfl hNs l₁ Ptr.freeHead _ hfl hnd
    (fun m _ => hsent m) hA
  cases l₁ with
  | nil =>
    have hstart : (readPtr (writePtr (writePtr s ((readPtr s (Ptr.buf j)).free_prev)
        fun b => { b with free_next := (readPtr s (Ptr.buf j)).free_next })
          ((readPtr s (Ptr.buf j)).free_next)
        fun b => { b with free_prev := (readPtr s (Ptr.buf j)).free_prev })
          Ptr.freeHead).free_next = (readPtr s (Ptr.buf j)).free_next := by
      have hAf : (readPtr s (Ptr.buf j)).free_prev = Ptr.freeHead := hA
      refine (readPtr_writePtr_field (fun b => b.free_next) _ _ _ _ ?_).trans ?_
      · exact fun b => rfl
      · rw [hAf, readPtr_writePtr_self]
    show chainOK _ Ptr.freeHead _ ([] ++ l₂)
    rw [hstart]
    exact hmain
  | cons x xs =>
    have hfA : Ptr.freeHead ≠ (readPtr s (Ptr.buf j)).free_prev := by
      rw [hA]
      obtain ⟨m, hm, hAm⟩ := foldl_buf_mem xs x Ptr.freeHead
      rw [hAm]
      exact hsent m
    have hstart : (readPtr (writePtr (writePtr s ((readPtr s (Ptr.buf j)).free_prev)
        fun b => { b with free_next := (readPtr s (Ptr.buf j)).free_next })
          ((readPtr s (Ptr.buf j)).free_next)
        fun b => { b with free_prev := (readPtr s (Ptr.buf j)).free_prev })
          Ptr.freeHead).free_next = (readPtr s Ptr.freeHead).free_next := by
      refine (readPtr_writePtr_field (fun b => b.free_next) _ _ _ _ ?_).trans ?_
      · exact fun b => rfl
      · rw [readPtr_writePtr_ne _ _ _ _ hfA]
    show chainOK _ Ptr.freeHead _ ((x :: xs) ++ l₂)
    rw [hstart]
    exact hmain

/-- The four statements of the head insert, with the old first node
named. -/
theorem freeInsertHead_eq (s : BCState) (p h0 : Ptr)
    (hh : (readPtr s Ptr.freeHead).free_next = h0) :
    freeInsertHead s p
      = writePtr (writePtr (writePtr (writePtr s h0 fun b => { b with free_prev := p })
          p fun b => { b with free_prev := Ptr.freeHead })
          p fun b => { b with free_next := h0 })
          Ptr.freeHead fun b => { b with free_next := p } := by
  simp only [freeInsertHead]
  rw [hh]
  have h2 : (readPtr (writePtr (writePtr s h0 fun b => { b with free_prev := p }) p
      fun b => { b with free_prev := Ptr.freeHead }) Ptr.freeHead).free_next = h0 := by
    refine (readPtr_writePtr_field (fun b => b.free_next) _ _ _ _ ?_).trans ?_
    · exact fun b => rfl
    · refine (readPtr_writePtr_field (fun b => b.free_next) _ _ _ _ ?_).trans ?_
      · exact fun b => rfl
      · exact hh
  rw [h2]

/-- The four statements of the tail insert, with the old last node
named. -/
theorem freeInsertTail_eq (s : BCState) (p t0 : Ptr)
    (ht : (readPtr s Ptr.freeHead).free_prev = t0) :
    freeInsertTail s p
      = writePtr (writePtr (writePtr (writePtr s t0 fun b => { b with free_next := p })
          p fun b => { b with free_prev := t0 })
          Ptr.freeHead fun b => { b with free_prev := p })
          p fun b => { b with free_next := Ptr.freeHead } := by
  simp only [freeInsertTail]
  rw [ht]
  have h2 : (readPtr (writePtr s t0 fun b => { b with free_next := p })
      Ptr.freeHead).free_prev = t0 := by
    refine (readPtr_writePtr_field (fun b => b.free_prev) _ _ _ _ ?_).trans ?_
    · exact fun b => rfl
    · exact ht
  rw [h2]

/-- Inserting an unlisted buffer at the head of the free list. -/
theorem freeListIs_insert_head (s : BCState) (j : Nat) (l : List Nat)
    (hfl : freeListIs s l) (hnd : l.Nodup) (hj : j ∉ l) (hjn : j < s.nbuf) :
    freeListIs (freeInsertHead s (Ptr.buf j)) (j :: l) := by
  have hjf : Ptr.buf j ≠ Ptr.freeHead := fun h => Ptr.noConfusion h
  have hfj : Ptr.freeHead ≠ Ptr.buf j := fun h => Ptr.noConfusion h
  rw [freeInsertHead_eq s (Ptr.buf j) ((readPtr s Ptr.freeHead).free_next) rfl]
  have hstart : (readPtr (writePtr (writePtr (writePtr (writePtr s
      ((readPtr s Ptr.freeHead).free_next) fun b => { b with free_prev := Ptr.buf j })
      (Ptr.buf j) fun b => { b with free_prev := Ptr.freeHead })
      (Ptr.buf j) fun b => { b with free_next := (readPtr s Ptr.freeHead).free_next })
      Ptr.freeHead fun b => { b with free_next := Ptr.buf j })
      Ptr.freeHead).free_next = Ptr.buf j := by
    rw [readPtr_writePtr_self]
  show chainOK _ Ptr.freeHead _ (j :: l)
  rw [hstart, chainOK]
  have hjprev : (readPtr (writePtr (writePtr (writePtr (writePtr s
      ((readPtr s Ptr.freeHead).free_next) fun b => { b with free_prev := Ptr.buf j })
      (Ptr.buf j) fun b => { b with free_prev := Ptr.freeHead })
      (Ptr.buf j) fun b => { b with free_next := (readPtr s Ptr.freeHead).free_next })
      Ptr.freeHead fun b => { b with free_next := Ptr.buf j })
      (Ptr.buf j)).free_prev = Ptr.freeHead := by
    rw [readPtr_writePtr_ne _ _ _ _ hjf]
    refine (readPtr_writePtr_field (fun b => b.free_prev) _ _ _ _ ?_).trans ?_
    · exact fun b => rfl
    · rw [readPtr_writePtr_self]
  have hjnext : (readPtr (writePtr (writePtr (writePtr (writePtr s
      ((readPtr s Ptr.freeHead).free_next) fun b => { b with free_prev := Ptr.buf j })
      (Ptr.buf j) fun b => { b with free_prev := Ptr.freeHead })
      (Ptr.buf j) fun b => { b with free_next := (readPtr s Ptr.freeHead).free_next })
      Ptr.freeHead fun b => { b with free_next := Ptr.buf j })
      (Ptr.buf j)).free_next = (readPtr s Ptr.freeHead).free_next := by
    rw [readPtr_writePtr_ne _ _ _ _ hjf, readPtr_writePtr_self]
  refine ⟨rfl, hjn, hjprev, ?_⟩
  rw [hjnext]
  cases l with
  | nil =>
    rw [chainOK]
    have hsf : (readPtr s Ptr.freeHead).free_next = Ptr.freeHead := by
      have h' : chainOK s Ptr.freeHead ((readPtr s Ptr.freeHead).free_next)
          ([] : List Nat) := hfl
      rw [chainOK] at h'
      exact h'.1
    refine ⟨hsf, ?_⟩
    refine (readPtr_writePtr_field (fun b => b.free_prev) _ _ _ _ ?_).trans ?_
    · exact fun b => rfl
    · rw [readPtr_writePtr_ne _ _ _ _ hfj, readPtr_writePtr_ne _ _ _ _ hfj]
      rw [hsf, readPtr_writePtr_self]
  | cons k rest =>
    have hfl' : chainOK s Ptr.freeHead ((readPtr s Ptr.freeHead).free_next)
        (k :: rest) := hfl
    rw [chainOK] at hfl'
    obtain ⟨hk, hkn, hkprev, hkch⟩ := hfl'
    rw [hk] at hkch
    have hjk : Ptr.buf j ≠ Ptr.buf k := by
      intro h
      injection h with hjk
      subst hjk
      exact hj (List.mem_cons_self j rest)
    have hkj : Ptr.buf k ≠ Ptr.buf j := Ne.symm hjk
    have hkf : Ptr.buf k ≠ Ptr.freeHead := fun h => Ptr.noConfusion h
    rw [hk, chainOK]
    have hknext : (readPtr (writePtr (writePtr (writePtr (writePtr s
        (Ptr.buf k) fun b => { b with free_prev := Ptr.buf j })
        (Ptr.buf j) fun b => { b with free_prev := Ptr.freeHead })
        (Ptr.buf j) fun b => { b with free_next := Ptr.buf k })
        Ptr.freeHead fun b => { b with free_next := Ptr.buf j })
        (Ptr.buf k)).free_next = (readPtr s (Ptr.buf k)).free_next := by
      rw [readPtr_writePtr_ne _ _ _ _ hkf, readPtr_writePtr_ne _ _ _ _ hkj,
        readPtr_writePtr_ne _ _ _ _ hkj]
      refine (readPtr_writePtr_field (fun b => b.free_next) _ _ _ _ ?_).trans ?_
      · exact fun b => rfl
      · rfl
    refine ⟨rfl, hkn, ?_, ?_⟩
    · rw [readPtr_writePtr_ne _ _ _ _ hkf, readPtr_writePtr_ne _ _ _ _ hkj,
        readPtr_writePtr_ne _ _ _ _ hkj, readPtr_writePtr_self]
    · rw [hknext]
      refine chainOK_congr s _ ?_ ?_ rest (Ptr.buf k) _ ?_ hkch
      · rfl
      · refine (readPtr_writePtr_field (fun b => b.free_prev) _ _ _ _ ?_).trans ?_
        · exact fun b => rfl
        · rw [readPtr_writePtr_ne _ _ _ _ hfj, readPtr_writePtr_ne _ _ _ _ hfj,
            readPtr_writePtr_ne _ _ _ _
              (fun h => Ptr.noConfusion h : Ptr.freeHead ≠ Ptr.buf k)]
      · intro m hm
        have hmj : Ptr.buf m ≠ Ptr.buf j := by
          intro h
          injection h with hmj
          subst hmj
          exact hj (List.mem_cons_of_mem _ hm)
        have hmk : Ptr.buf m ≠ Ptr.buf k := by
          intro h
          injection h with hmk
          subst hmk
          exact (List.nodup_cons.mp hnd).1 hm
        have hmf : Ptr.buf m ≠ Ptr.freeHead := fun h => Ptr.noConfusion h
        constructor
        · rw [readPtr_writePtr_ne _ _ _ _ hmf, readPtr_writePtr_ne _ _ _ _ hmj,
            readPtr_writePtr_ne _ _ _ _ hmj, readPtr_writePtr_ne _ _ _ _ hmk]
        · rw [readPtr_writePtr_ne _ _ _ _ hmf, readPtr_writePtr_ne _ _ _ _ hmj,
            readPtr_writePtr_ne _ _ _ _ hmj, readPtr_writePtr_ne _ _ _ _ hmk]

/-- Appending an unlisted buffer `j` after the last chain node: the
chain now visits `l ++ [j]`.  The start pointer is unchanged unless the
chain was empty, in which case it enters at `j`. -/
theorem chainOK_append_aux (s : BCState) (j : Nat) (t0 : Ptr)
    (hjn : j < s.nbuf) :
    ∀ (l : List Nat) (prev p : Ptr),
      chainOK s prev p l → l.Nodup → j ∉ l →
      t0 = l.foldl (fun _ m => Ptr.buf m) prev →
      chainOK (writePtr (writePtr (writePtr (writePtr s t0
            fun b => { b with free_next := Ptr.buf j })
          (Ptr.buf j) fun b => { b with free_prev := t0 })
          Ptr.freeHead fun b => { b with free_prev := Ptr.buf j })
          (Ptr.buf j) fun b => { b with free_next := Ptr.freeHead }) prev
        (match l with | [] => Ptr.buf j | _ :: _ => p) (l ++ [j]) := by
  have hjf : Ptr.buf j ≠ Ptr.freeHead := fun h => Ptr.noConfusion h
  have hfj : Ptr.freeHead ≠ Ptr.buf j := fun h => Ptr.noConfusion h
  intro l
  induction l with
  | nil =>
    intro prev p hch hnd hjl ht0
    have htp : t0 = prev := ht0
    rw [List.nil_append, chainOK]
    refine ⟨rfl, hjn, ?_, ?_⟩
    · rw [readPtr_writePtr_self]
      show (readPtr (writePtr (writePtr (writePtr s t0
          fun b => { b with free_next := Ptr.buf j })
          (Ptr.buf j) fun b => { b with free_prev := t0 })
          Ptr.freeHead fun b => { b with free_prev := Ptr.buf j })
          (Ptr.buf j)).free_prev = prev
      rw [readPtr_writePtr_ne _ _ _ _ hjf, readPtr_writePtr_self]
      exact htp
    · have hjnx : (readPtr (writePtr (writePtr (writePtr (writePtr s t0
          fun b => { b with free_next := Ptr.buf j })
          (Ptr.buf j) fun b => { b with free_prev := t0 })
          Ptr.freeHead fun b => { b with free_prev := Ptr.buf j })
          (Ptr.buf j) fun b => { b with free_next := Ptr.freeHead })
          (Ptr.buf j)).free_next = Ptr.freeHead := by
        rw [readPtr_writePtr_self]
      rw [hjnx, chainOK]
      refine ⟨rfl, ?_⟩
      rw [readPtr_writePtr_ne _ _ _ _ hfj, readPtr_writePtr_self]
  | cons i l' ih =>
    intro prev p hch hnd hjl ht0
    rw [chainOK] at hch
    obtain ⟨hp, hin, hpr, hch'⟩ := hch
    subst hp
    have hji : Ptr.buf j ≠ Ptr.buf i := by
      intro h
      injection h with hji
      subst hji
      exact hjl (List.mem_cons_self j l')
    have hij : Ptr.buf i ≠ Ptr.buf j := Ne.symm hji
    have hif : Ptr.buf i ≠ Ptr.freeHead := fun h => Ptr.noConfusion h
    show chainOK _ prev (Ptr.buf i) (i :: (l' ++ [j]))
    rw [chainOK]
    have hiprev : (readPtr (writePtr (writePtr (writePtr (writePtr s t0
        fun b => { b with free_next := Ptr.buf j })
        (Ptr.buf j) fun b => { b with free_prev := t0 })
        Ptr.freeHead fun b => { b with free_prev := Ptr.buf j })
        (Ptr.buf j) fun b => { b with free_next := Ptr.freeHead })
        (Ptr.buf i)).free_prev = (readPtr s (Ptr.buf i)).free_prev := by
      rw [readPtr_writePtr_ne _ _ _ _ hij, readPtr_writePtr_ne _ _ _ _ hif,
        readPtr_writePtr_ne _ _ _ _ hij]
      refine (readPtr_writePtr_field (fun b => b.free_prev) _ _ _ _ ?_).trans ?_
      · exact fun b => rfl
      · rfl
    refine ⟨rfl, hin, by rw [hiprev]; exact hpr, ?_⟩
    cases l' with
    | nil =>
      have hch'' := hch'
      rw [chainOK] at hch''
      obtain ⟨hnf, hsp⟩ := hch''
      have ht0i : t0 = Ptr.buf i := ht0
      have hinx : (readPtr (writePtr (writePtr (writePtr (writePtr s t0
          fun b => { b with free_next := Ptr.buf j })
          (Ptr.buf j) fun b => { b with free_prev := t0 })
          Ptr.freeHead fun b => { b with free_prev := Ptr.buf j })
          (Ptr.buf j) fun b => { b with free_next := Ptr.freeHead })
          (Ptr.buf i)).free_next = Ptr.buf j := by
        rw [readPtr_writePtr_ne _ _ _ _ hij, readPtr_writePtr_ne _ _ _ _ hif,
          readPtr_writePtr_ne _ _ _ _ hij, ht0i, readPtr_writePtr_self]
      rw [hinx]
      exact ih (Ptr.buf i) ((readPtr s (Ptr.buf i)).free_next) hch'
        (List.nodup_cons.mp hnd).2 (fun hm => hjl (List.mem_cons_of_mem _ hm)) ht0
    | cons k rest =>
      obtain ⟨m, hm, hfm⟩ := foldl_buf_mem rest k (Ptr.buf i)
      have ht0m : t0 = Ptr.buf m := by
        rw [ht0]
        exact hfm
      have hit0 : Ptr.buf i ≠ t0 := by
        rw [ht0m]
        intro h
        injection h with him
        subst him
        exact (List.nodup_cons.mp hnd).1 hm
      have hinx : (readPtr (writePtr (writePtr (writePtr (writePtr s t0
          fun b => { b with free_next := Ptr.buf j })
          (Ptr.buf j) fun b => { b with free_prev := t0 })
          Ptr.freeHead fun b => { b with free_prev := Ptr.buf j })
          (Ptr.buf j) fun b => { b with free_next := Ptr.freeHead })
          (Ptr.buf i)).free_next = (readPtr s (Ptr.buf i)).free_next := by
        rw [readPtr_writePtr_ne _ _ _ _ hij, readPtr_writePtr_ne _ _ _ _ hif,
          readPtr_writePtr_ne _ _ _ _ hij, readPtr_writePtr_ne _ _ _ _ hit0]
      rw [hinx]
      exact ih (Ptr.buf i) ((readPtr s (Ptr.buf i)).free_next) hch'
        (List.nodup_cons.mp hnd).2 (fun hm => hjl (List.mem_cons_of_mem _ hm)) ht0

/-- Inserting an unlisted buffer at the tail of the free list. -/
theorem freeListIs_insert_tail (s : BCState) (j : Nat) (l : List Nat)
    (hfl : freeListIs s l) (hnd : l.Nodup) (hj : j ∉ l) (hjn : j < s.nbuf) :
    freeListIs (freeInsertTail s (Ptr.buf j)) (l ++ [j]) := by
  have hfj : Ptr.freeHead ≠ Ptr.buf j := fun h => Ptr.noConfusion h
  rw [freeInsertTail_eq s (Ptr.buf j) ((readPtr s Ptr.freeHead).free_prev) rfl]
  have ht0 := chainOK_lastOf s l Ptr.freeHead _ hfl
  have hmain := chainOK_append_aux s j ((readPtr s Ptr.freeHead).free_prev) hjn l
    Ptr.freeHead _ hfl hnd hj ht0
  cases l with
  | nil =>
    have ht0f : (readPtr s Ptr.freeHead).free_prev = Ptr.freeHead := ht0
    have hstart : (readPtr (writePtr (writePtr (writePtr (writePtr s
        ((readPtr s Ptr.freeHead).free_prev) fun b => { b with free_next := Ptr.buf j })
        (Ptr.buf j) fun b => { b with free_prev := (readPtr s Ptr.freeHead).free_prev })
        Ptr.freeHead fun b => { b with free_prev := Ptr.buf j })
        (Ptr.buf j) fun b => { b with free_next := Ptr.freeHead })
        Ptr.freeHead).free_next = Ptr.buf j := by
      rw [readPtr_writePtr_ne _ _ _ _ hfj]
      refine (readPtr_writePtr_field (fun b => b.free_next) _ _ _ _ ?_).trans ?_
      · exact fun b => rfl
      · refine (readPtr_writePtr_field (fun b => b.free_next) _ _ _ _ ?_).trans ?_
        · exact fun b => rfl
        · rw [ht0f, readPtr_writePtr_self]
    show chainOK _ Ptr.freeHead _ ([] ++ [j])
    rw [hstart]
    exact hmain
  | cons x xs =>
    obtain ⟨m, hm, hfm⟩ := foldl_buf_mem xs x Ptr.freeHead
    have hft0 : Ptr.freeHead ≠ (readPtr s Ptr.freeHead).free_prev := by
      rw [ht0, hfm]
      exact fun h => Ptr.noConfusion h
    have hstart : (readPtr (writePtr (writePtr (writePtr (writePtr s
        ((readPtr s Ptr.freeHead).free_prev) fun b => { b with free_next := Ptr.buf j })
        (Ptr.buf j) fun b => { b with free_prev := (readPtr s Ptr.freeHead).free_prev })
        Ptr.freeHead fun b => { b with free_prev := Ptr.buf j })
        (Ptr.buf j) fun b => { b with free_next := Ptr.freeHead })
        Ptr.freeHead).free_next = (readPtr s Ptr.freeHead).free_next := by
      rw [readPtr_writePtr_ne _ _ _ _ hfj]
      refine (readPtr_writePtr_field (fun b => b.free_next) _ _ _ _ ?_).trans ?_
      · exact fun b => rfl
      · rw [readPtr_writePtr_ne _ _ _ _ hfj, readPtr_writePtr_ne _ _ _ _ hft0]
    show chainOK _ Ptr.freeHead _ ((x :: xs) ++ [j])
    rw [hstart]
    exact hmain

/-- Writes that keep `hash_next`, `dev` and `num` of every object keep
the hash structure sane. -/
theorem HashSane_write_other (s : BCState) (t : Ptr) (f : Buffer → Buffer)
    (hf1 : ∀ b, (f b).hash_next = b.hash_next)
    (hf2 : ∀ b, (f b).dev = b.dev) (hf3 : ∀ b, (f b).num = b.num)
    (hs : HashSane s) : HashSane (writePtr s t f) := by
  obtain ⟨hsent, hbuf⟩ := hs
  constructor
  · intro k hk
    have h1 : (readPtr (writePtr s t f) (Ptr.hashHead k)).hash_next
        = (readPtr s (Ptr.hashHead k)).hash_next :=
      readPtr_writePtr_field (fun b => b.hash_next) s t f _ hf1
    have h2 : (readPtr (writePtr s t f) (Ptr.hashHead k)).dev
        = (readPtr s (Ptr.hashHead k)).dev :=
      readPtr_writePtr_field (fun b => b.dev) s t f _ hf2
    have h3 : (readPtr (writePtr s t f) (Ptr.hashHead k)).num
        = (readPtr s (Ptr.hashHead k)).num :=
      readPtr_writePtr_field (fun b => b.num) s t f _ hf3
    rw [h1, h2, h3]
    exact ⟨(safePtr_congr s _ rfl rfl _).mpr (hsent k hk).1, (hsent k hk).2⟩
  · intro i hi
    have h1 : (readPtr (writePtr s t f) (Ptr.buf i)).hash_next
        = (readPtr s (Ptr.buf i)).hash_next :=
      readPtr_writePtr_field (fun b => b.hash_next) s t f _ hf1
    rw [h1]
    exact (safePtr_congr s _ rfl rfl _).mpr (hbuf i hi)

/-- A write to a pool buffer that keeps its `hash_next` keeps the hash
structure sane (the buffer's identity may change freely). -/
theorem HashSane_write_buf (s : BCState) (j : Nat) (f : Buffer → Buffer)
    (hf1 : ∀ b, (f b).hash_next = b.hash_next)
    (hs : HashSane s) : HashSane (writePtr s (Ptr.buf j) f) := by
  obtain ⟨hsent, hbuf⟩ := hs
  constructor
  · intro k hk
    have hne : Ptr.hashHead k ≠ Ptr.buf j := fun h => Ptr.noConfusion h
    rw [readPtr_writePtr_ne _ _ _ _ hne]
    exact ⟨(safePtr_congr s _ rfl rfl _).mpr (hsent k hk).1, (hsent k hk).2⟩
  · intro i hi
    have h1 : (readPtr (writePtr s (Ptr.buf j) f) (Ptr.buf i)).hash_next
        = (readPtr s (Ptr.buf i)).hash_next :=
      readPtr_writePtr_field (fun b => b.hash_next) s _ f _ hf1
    rw [h1]
    exact (safePtr_congr s _ rfl rfl _).mpr (hbuf i hi)

/-- Redirecting any `hash_next` pointer to a safe target keeps the hash
structure sane. -/
theorem HashSane_write_hash_next (s : BCState) (t v : Ptr) (hv : safePtr s v)
    (hs : HashSane s) : HashSane (writePtr s t fun b => { b with hash_next := v }) := by
  obtain ⟨hsent, hbuf⟩ := hs
  constructor
  · intro k hk
    refine ⟨?_, ?_, ?_⟩
    · rw [readPtr_writePtr]
      split
      · exact (safePtr_congr s _ rfl rfl _).mpr hv
      · exact (safePtr_congr s _ rfl rfl _).mpr (hsent k hk).1
    · have h2 : (readPtr (writePtr s t fun b => { b with hash_next := v })
          (Ptr.hashHead k)).dev = (readPtr s (Ptr.hashHead k)).dev :=
        readPtr_writePtr_field (fun b => b.dev) s t _ _ (fun b => rfl)
      rw [h2]
      exact (hsent k hk).2.1
    · have h3 : (readPtr (writePtr s t fun b => { b with hash_next := v })
          (Ptr.hashHead k)).num = (readPtr s (Ptr.hashHead k)).num :=
        readPtr_writePtr_field (fun b => b.num) s t _ _ (fun b => rfl)
      rw [h3]
      exact (hsent k hk).2.2
  · intro i hi
    rw [readPtr_writePtr]
    split
    · exact (safePtr_congr s _ rfl rfl _).mpr hv
    · exact (safePtr_congr s _ rfl rfl _).mpr (hbuf i hi)

/-- The cache invariant only depends on the configured sizes, the
free-list fields and counts of the pool, and the hash skeleton. -/
theorem CacheInv_congr (s s' : BCState)
    (hn : s'.nbuf = s.nbuf) (hh : s'.htsize = s.htsize)
    (hfp : (readPtr s' Ptr.freeHead).free_prev = (readPtr s Ptr.freeHead).free_prev)
    (hfn : (readPtr s' Ptr.freeHead).free_next = (readPtr s Ptr.freeHead).free_next)
    (hbuf : ∀ j : Nat, (readPtr s' (Ptr.buf j)).count = (readPtr s (Ptr.buf j)).count ∧
      (readPtr s' (Ptr.buf j)).free_next = (readPtr s (Ptr.buf j)).free_next ∧
      (readPtr s' (Ptr.buf j)).free_prev = (readPtr s (Ptr.buf j)).free_prev ∧
      (readPtr s' (Ptr.buf j)).hash_next = (readPtr s (Ptr.buf j)).hash_next)
    (hsent : ∀ k : Nat, (readPtr s' (Ptr.hashHead k)).hash_next
        = (readPtr s (Ptr.hashHead k)).hash_next ∧
      (readPtr s' (Ptr.hashHead k)).dev = (readPtr s (Ptr.hashHead k)).dev ∧
      (readPtr s' (Ptr.hashHead k)).num = (readPtr s (Ptr.hashHead k)).num)
    (hinv : CacheInv s) : CacheInv s' := by
  obtain ⟨hht, ⟨l, hnd, hfl, hiff⟩, hnn, hhs⟩ := hinv
  refine ⟨by rw [hh]; exact hht, ⟨l, hnd, ?_, ?_⟩, ?_, ?_⟩
  · show chainOK s' Ptr.freeHead ((readPtr s' Ptr.freeHead).free_next) l
    rw [hfn]
    exact chainOK_congr s s' hn hfp l _ _ (fun i _ => ⟨(hbuf i).2.1, (hbuf i).2.2.1⟩) hfl
  · intro i hi
    rw [(hbuf i).1]
    exact hiff i (by rw [← hn]; exact hi)
  · intro i hi
    rw [(hbuf i).1]
    exact hnn i (by rw [← hn]; exact hi)
  · obtain ⟨hsn, hbn⟩ := hhs
    constructor
    · intro k hk
      have hk' : k < s.htsize := by rw [← hh]; exact hk
      refine ⟨?_, ?_, ?_⟩
      · rw [(hsent k).1]
        exact (safePtr_congr s s' hn hh _).mpr (hsn k hk').1
      · rw [(hsent k).2.1]
        exact (hsn k hk').2.1
      · rw [(hsent k).2.2]
        exact (hsn k hk').2.2
    · intro i hi
      have hi' : i < s.nbuf := by rw [← hn]; exact hi
      rw [(hbuf i).2.2.2]
      exact (safePtr_congr s s' hn hh _).mpr (hbn i hi')

/-- A write that keeps count, free-list fields, `hash_next`, `dev` and
`num` of the written object (e.g. `flags`, `chain` or `hash_prev`
updates) keeps the cache invariant. -/
theorem CacheInv_writePtr_other (s : BCState) (t : Ptr) (f : Buffer → Buffer)
    (hc : ∀ b, (f b).count = b.count)
    (h1 : ∀ b, (f b).free_next = b.free_next) (h2 : ∀ b, (f b).free_prev = b.free_prev)
    (h3 : ∀ b, (f b).hash_next = b.hash_next)
    (h4 : ∀ b, (f b).dev = b.dev) (h5 : ∀ b, (f b).num = b.num)
    (hinv : CacheInv s) : CacheInv (writePtr s t f) := by
  refine CacheInv_congr s _ rfl rfl ?_ ?_ ?_ ?_ hinv
  · exact readPtr_writePtr_field (fun b => b.free_prev) s t f _ h2
  · exact readPtr_writePtr_field (fun b => b.free_next) s t f _ h1
  · intro j
    exact ⟨readPtr_writePtr_field (fun b => b.count) s t f _ hc,
      readPtr_writePtr_field (fun b => b.free_next) s t f _ h1,
      readPtr_writePtr_field (fun b => b.free_prev) s t f _ h2,
      readPtr_writePtr_field (fun b => b.hash_next) s t f _ h3⟩
  · intro k
    exact ⟨readPtr_writePtr_field (fun b => b.hash_next) s t f _ h3,
      readPtr_writePtr_field (fun b => b.dev) s t f _ h4,
      readPtr_writePtr_field (fun b => b.num) s t f _ h5⟩

/-- A write to a pool buffer that keeps its count, free-list fields and
`hash_next` (the identity `dev`/`num` may change) keeps the cache
invariant. -/
theorem CacheInv_writePtr_buf (s : BCState) (j : Nat) (f : Buffer → Buffer)
    (hc : ∀ b, (f b).count = b.count)
    (h1 : ∀ b, (f b).free_next = b.free_next) (h2 : ∀ b, (f b).free_prev = b.free_prev)
    (h3 : ∀ b, (f b).hash_next = b.hash_next)
    (hinv : CacheInv s) : CacheInv (writePtr s (Ptr.buf j) f) := by
  refine CacheInv_congr s _ rfl rfl ?_ ?_ ?_ ?_ hinv
  · exact readPtr_writePtr_field (fun b => b.free_prev) s _ f _ h2
  · exact readPtr_writePtr_field (fun b => b.free_next) s _ f _ h1
  · intro i
    exact ⟨readPtr_writePtr_field (fun b => b.count) s _ f _ hc,
      readPtr_writePtr_field (fun b => b.free_next) s _ f _ h1,
      readPtr_writePtr_field (fun b => b.free_prev) s _ f _ h2,
      readPtr_writePtr_field (fun b => b.hash_next) s _ f _ h3⟩
  · intro k
    have hne : Ptr.hashHead k ≠ Ptr.buf j := fun h => Ptr.noConfusion h
    rw [readPtr_writePtr_ne _ _ _ _ hne]
    exact ⟨rfl, rfl, rfl⟩

/-- Waking the global free chain does not touch the cache objects. -/
theorem CacheInv_wakeupFree (s : BCState) (hinv : CacheInv s) :
    CacheInv (wakeupFreeChain s) :=
  CacheInv_congr s _ rfl rfl rfl rfl (fun _ => ⟨rfl, rfl, rfl, rfl⟩)
    (fun _ => ⟨rfl, rfl, rfl⟩) hinv

/-- `blkunlock` (clear `LOCKED`, sever the wait queue, record the
wakeup) keeps the cache invariant. -/
theorem CacheInv_blkunlock (s : BCState) (p : Ptr) (hinv : CacheInv s) :
    CacheInv (blkunlock s p) := by
  have h1 : CacheInv (writePtr s p fun b =>
      { b with flags := b.flags &&& compl32 BUFFER_LOCKED }) :=
    CacheInv_writePtr_other s p _ (fun b => rfl) (fun b => rfl) (fun b => rfl)
      (fun b => rfl) (fun b => rfl) (fun b => rfl) hinv
  have h2 : CacheInv (writePtr (writePtr s p fun b =>
      { b with flags := b.flags &&& compl32 BUFFER_LOCKED }) p fun b =>
      { b with chain := ([] : List Nat) }) :=
    CacheInv_writePtr_other _ p _ (fun b => rfl) (fun b => rfl) (fun b => rfl)
      (fun b => rfl) (fun b => rfl) (fun b => rfl) h1
  exact CacheInv_congr (writePtr (writePtr s p fun b =>
      { b with flags := b.flags &&& compl32 BUFFER_LOCKED }) p fun b =>
      { b with chain := ([] : List Nat) }) (blkunlock s p) rfl rfl rfl rfl
    (fun _ => ⟨rfl, rfl, rfl, rfl⟩) (fun _ => ⟨rfl, rfl, rfl⟩) h2

/-- A write that keeps the free-list fields keeps the realized free
list. -/
theorem freeListIs_writePtr_other (s : BCState) (t : Ptr) (f : Buffer → Buffer)
    (h1 : ∀ b, (f b).free_next = b.free_next) (h2 : ∀ b, (f b).free_prev = b.free_prev)
    (l : List Nat) (hfl : freeListIs s l) : freeListIs (writePtr s t f) l := by
  show chainOK _ Ptr.freeHead ((readPtr (writePtr s t f) Ptr.freeHead).free_next) l
  have hstart : (readPtr (writePtr s t f) Ptr.freeHead).free_next
      = (readPtr s Ptr.freeHead).free_next :=
    readPtr_writePtr_field (fun b => b.free_next) s t f _ h1
  rw [hstart]
  exact chainOK_congr s (writePtr s t f) rfl
    (readPtr_writePtr_field (fun b => b.free_prev) s t f _ h2) l _ _
    (fun i _ => ⟨readPtr_writePtr_field (fun b => b.free_next) s t f _ h1,
      readPtr_writePtr_field (fun b => b.free_prev) s t f _ h2⟩) hfl

/-- Waking the global free chain keeps the realized free list. -/
theorem freeListIs_wakeupFree (s : BCState) (l : List Nat) (hfl : freeListIs s l) :
    freeListIs (wakeupFreeChain s) l := by
  show chainOK _ Ptr.freeHead ((readPtr (wakeupFreeChain s) Ptr.freeHead).free_next) l
  exact chainOK_congr s (wakeupFreeChain s) rfl rfl l _ _ (fun i _ => ⟨rfl, rfl⟩) hfl

/-- Waking the global free chain keeps the hash structure sane. -/
theorem HashSane_wakeupFree (s : BCState) (hs : HashSane s) :
    HashSane (wakeupFreeChain s) := hs

/-- Reinserting a fully released buffer (`count = 0`, not presently
listed) at the free-list tail restores the cache invariant. -/
theorem CacheInv_insert_tail (s : BCState) (j : Nat) (l : List Nat)
    (hj : j < s.nbuf) (hht : 0 < s.htsize)
    (hnd : l.Nodup) (hfl : freeListIs s l) (hjl : j ∉ l)
    (hiff : ∀ i, i < s.nbuf → i ≠ j → ((readPtr s (Ptr.buf i)).count = 0 ↔ i ∈ l))
    (hc : (readPtr s (Ptr.buf j)).count = 0)
    (hnn : ∀ i, i < s.nbuf → 0 ≤ (readPtr s (Ptr.buf i)).count)
    (hhs : HashSane s) :
    CacheInv (freeInsertTail s (Ptr.buf j)) := by
  have hcnt : ∀ i : Nat, (readPtr (freeInsertTail s (Ptr.buf j)) (Ptr.buf i)).count
      = (readPtr s (Ptr.buf i)).count :=
    fun i => (freeInsertTail_preserves s (Ptr.buf j) (Ptr.buf i)).2.2.2.1
  have hndt : (l ++ [j]).Nodup := by
    rw [List.nodup_append]
    exact ⟨hnd, List.nodup_singleton j,
      fun a ha haj => hjl (by rw [List.mem_singleton.mp haj] at ha; exact ha)⟩
  refine ⟨hht, ⟨l ++ [j], hndt, freeListIs_insert_tail s j l hfl hnd hjl hj, ?_⟩, ?_, ?_⟩
  · intro i hi
    rw [hcnt i]
    by_cases hij : i = j
    · subst hij
      exact ⟨fun _ => List.mem_append_right l (List.mem_singleton.mpr rfl), fun _ => hc⟩
    · rw [List.mem_append, List.mem_singleton]
      rw [hiff i hi hij]
      exact ⟨fun h => Or.inl h, fun h => h.resolve_right hij⟩
  · intro i hi
    rw [hcnt i]
    exact hnn i hi
  · simp only [freeInsertTail]
    exact HashSane_write_other _ _ _ (fun b => rfl) (fun b => rfl) (fun b => rfl)
      (HashSane_write_other _ _ _ (fun b => rfl) (fun b => rfl) (fun b => rfl)
        (HashSane_write_other _ _ _ (fun b => rfl) (fun b => rfl) (fun b => rfl)
          (HashSane_write_other _ _ _ (fun b => rfl) (fun b => rfl) (fun b => rfl) hhs)))

/-- Reinserting a fully released buffer at the free-list head restores
the cache invariant. -/
theorem CacheInv_insert_head (s : BCState) (j : Nat) (l : List Nat)
    (hj : j < s.nbuf) (hht : 0 < s.htsize)
    (hnd : l.Nodup) (hfl : freeListIs s l) (hjl : j ∉ l)
    (hiff : ∀ i, i < s.nbuf → i ≠ j → ((readPtr s (Ptr.buf i)).count = 0 ↔ i ∈ l))
    (hc : (readPtr s (Ptr.buf j)).count = 0)
    (hnn : ∀ i, i < s.nbuf → 0 ≤ (readPtr s (Ptr.buf i)).count)
    (hhs : HashSane s) :
    CacheInv (freeInsertHead s (Ptr.buf j)) := by
  have hcnt : ∀ i : Nat, (readPtr (freeInsertHead s (Ptr.buf j)) (Ptr.buf i)).count
      = (readPtr s (Ptr.buf i)).count :=
    fun i => (freeInsertHead_preserves s (Ptr.buf j) (Ptr.buf i)).2.2.2.1
  have hndh : (j :: l).Nodup := List.nodup_cons.mpr ⟨hjl, hnd⟩
  refine ⟨hht, ⟨j :: l, hndh, freeListIs_insert_head s j l hfl hnd hjl hj, ?_⟩, ?_, ?_⟩
  · intro i hi
    rw [hcnt i]
    by_cases hij : i = j
    · subst hij
      exact ⟨fun _ => List.mem_cons_self i l, fun _ => hc⟩
    · rw [List.mem_cons]
      rw [hiff i hi hij]
      exact ⟨fun h => Or.inr h, fun h => h.resolve_left hij⟩
  · intro i hi
    rw [hcnt i]
    exact hnn i hi
  · simp only [freeInsertHead]
    exact HashSane_write_other _ _ _ (fun b => rfl) (fun b => rfl) (fun b => rfl)
      (HashSane_write_other _ _ _ (fun b => rfl) (fun b => rfl) (fun b => rfl)
        (HashSane_write_other _ _ _ (fun b => rfl) (fun b => rfl) (fun b => rfl)
          (HashSane_write_other _ _ _ (fun b => rfl) (fun b => rfl) (fun b => rfl) hhs)))

/-- Decrementing the reference count of a buffer held at least twice
keeps the cache invariant. -/
theorem CacheInv_dec_pos (s : BCState) (j : Nat) (hj : j < s.nbuf)
    (hinv : CacheInv s) (h2 : 2 ≤ (readPtr s (Ptr.buf j)).count) :
    CacheInv (writePtr s (Ptr.buf j) fun b => { b with count := b.count - 1 }) := by
  obtain ⟨hht, ⟨l, hnd, hfl, hiff⟩, hnn, hhs⟩ := hinv
  have hcnt : ∀ i : Nat, i ≠ j →
      (readPtr (writePtr s (Ptr.buf j) fun b => { b with count := b.count - 1 })
        (Ptr.buf i)).count = (readPtr s (Ptr.buf i)).count := by
    intro i hij
    rw [readPtr_writePtr_ne _ _ _ _ (fun h => hij (by injection h))]
  have hcj : (readPtr (writePtr s (Ptr.buf j) fun b => { b with count := b.count - 1 })
      (Ptr.buf j)).count = (readPtr s (Ptr.buf j)).count - 1 := by
    rw [readPtr_writePtr_self]
  refine ⟨hht, ⟨l, hnd, ?_, ?_⟩, ?_, ?_⟩
  · exact freeListIs_writePtr_other s (Ptr.buf j)
      (fun b => { b with count := b.count - 1 }) (fun b => rfl) (fun b => rfl) l hfl
  · intro i hi
    by_cases hij : i = j
    · subst hij
      rw [hcj]
      have hjnl : i ∉ l := fun hm => by
        have := (hiff i hi).mpr hm
        omega
      constructor
      · intro h0
        omega
      · intro hm
        exact absurd hm hjnl
    · rw [hcnt i hij]
      exact hiff i hi
  · intro i hi
    by_cases hij : i = j
    · subst hij
      rw [hcj]
      omega
    · rw [hcnt i hij]
      exact hnn i hi
  · exact HashSane_write_buf s j _ (fun b => rfl) hhs

/-- Incrementing the reference count of a buffer that is already held
(count nonzero) keeps the cache invariant. -/
theorem CacheInv_acquire_pos (s : BCState) (j : Nat) (hj : j < s.nbuf)
    (hinv : CacheInv s) (hc : ¬ (readPtr s (Ptr.buf j)).count = 0) :
    CacheInv (writePtr s (Ptr.buf j) fun b => { b with count := b.count + 1 }) := by
  obtain ⟨hht, ⟨l, hnd, hfl, hiff⟩, hnn, hhs⟩ := hinv
  have hcnt : ∀ i : Nat, i ≠ j →
      (readPtr (writePtr s (Ptr.buf j) fun b => { b with count := b.count + 1 })
        (Ptr.buf i)).count = (readPtr s (Ptr.buf i)).count := by
    intro i hij
    rw [readPtr_writePtr_ne _ _ _ _ (fun h => hij (by injection h))]
  have hcj : (readPtr (writePtr s (Ptr.buf j) fun b => { b with count := b.count + 1 })
      (Ptr.buf j)).count = (readPtr s (Ptr.buf j)).count + 1 := by
    rw [readPtr_writePtr_self]
  refine ⟨hht, ⟨l, hnd, ?_, ?_⟩, ?_, ?_⟩
  · exact freeListIs_writePtr_other s (Ptr.buf j)
      (fun b => { b with count := b.count + 1 }) (fun b => rfl) (fun b => rfl) l hfl
  · intro i hi
    by_cases hij : i = j
    · subst hij
      rw [hcj]
      have hjnl : i ∉ l := fun hm => hc ((hiff i hi).mpr hm)
      have hnni := hnn i hi
      exact ⟨fun h0 => absurd h0 (by omega), fun hm => absurd hm hjnl⟩
    · rw [hcnt i hij]
      exact hiff i hi
  · intro i hi
    by_cases hij : i = j
    · subst hij
      rw [hcj]
      have := hnn i hi
      omega
    · rw [hcnt i hij]
      exact hnn i hi
  · exact HashSane_write_buf s j _ (fun b => rfl) hhs

/-- The hit-path acquisition of a free buffer (`count++` observed 0,
then unlink from the free list) keeps the cache invariant. -/
theorem CacheInv_acquire_zero (s : BCState) (j : Nat) (hj : j < s.nbuf)
    (hinv : CacheInv s) (hc : (readPtr s (Ptr.buf j)).count = 0) :
    CacheInv (freeUnlink (writePtr s (Ptr.buf j) fun b => { b with count := b.count + 1 })
      (Ptr.buf j)) := by
  obtain ⟨hht, ⟨l, hnd, hfl, hiff⟩, hnn, hhs⟩ := hinv
  have hjl : j ∈ l := (hiff j hj).mp hc
  obtain ⟨l₁, l₂, rfl⟩ := List.append_of_mem hjl
  have hnm := List.nodup_cons.mp (List.nodup_middle.mp hnd)
  have hjnl : j ∉ l₁ ++ l₂ := hnm.1
  have hcjx : (readPtr (writePtr s (Ptr.buf j) fun b => { b with count := b.count + 1 })
      (Ptr.buf j)).count = (readPtr s (Ptr.buf j)).count + 1 := by
    rw [readPtr_writePtr_self]
  have hfl1 : freeListIs (writePtr s (Ptr.buf j) fun b => { b with count := b.count + 1 })
      (l₁ ++ j :: l₂) :=
    freeListIs_writePtr_other s (Ptr.buf j)
      (fun b => { b with count := b.count + 1 }) (fun b => rfl) (fun b => rfl) _ hfl
  have hfl2 := freeListIs_unlink _ j l₁ l₂ hfl1 hnd
  have hcnt : ∀ i : Nat,
      (readPtr (freeUnlink (writePtr s (Ptr.buf j) fun b => { b with count := b.count + 1 })
        (Ptr.buf j)) (Ptr.buf i)).count
      = (readPtr (writePtr s (Ptr.buf j) fun b => { b with count := b.count + 1 })
        (Ptr.buf i)).count :=
    fun i => (freeUnlink_preserves _ (Ptr.buf j) (Ptr.buf i)).2.2.2.1
  refine ⟨hht, ⟨l₁ ++ l₂, hnm.2, hfl2, ?_⟩, ?_, ?_⟩
  · intro i hi
    rw [hcnt i]
    by_cases hij : i = j
    · subst hij
      rw [hcjx, hc]
      exact ⟨fun h0 => absurd h0 (by omega), fun hm => absurd hm hjnl⟩
    · rw [readPtr_writePtr_ne _ _ _ _ (fun h => hij (by injection h))]
      rw [hiff i hi]
      simp only [List.mem_append, List.mem_cons]
      exact ⟨fun h => h.imp id (fun hr => hr.resolve_left hij),
        fun h => h.imp id (fun hr => Or.inr hr)⟩
  · intro i hi
    rw [hcnt i]
    by_cases hij : i = j
    · subst hij
      rw [hcjx]
      have := hnn i hi
      omega
    · rw [readPtr_writePtr_ne _ _ _ _ (fun h => hij (by injection h))]
      exact hnn i hi
  · have hhs1 : HashSane (writePtr s (Ptr.buf j) fun b => { b with count := b.count + 1 }) :=
      HashSane_write_buf s j _ (fun b => rfl) hhs
    show HashSane (freeUnlink _ (Ptr.buf j))
    simp only [freeUnlink]
    exact HashSane_write_other _ _ _ (fun b => rfl) (fun b => rfl) (fun b => rfl)
      (HashSane_write_other _ _ _ (fun b => rfl) (fun b => rfl) (fun b => rfl) hhs1)

/-- The miss-path acquisition of the first free buffer (unlink from the
free list, then `count++`) keeps the cache invariant. -/
theorem CacheInv_acquire_zero_miss (s : BCState) (j : Nat) (hj : j < s.nbuf)
    (hinv : CacheInv s) (hc : (readPtr s (Ptr.buf j)).count = 0) :
    CacheInv (writePtr (freeUnlink s (Ptr.buf j)) (Ptr.buf j)
      fun b => { b with count := b.count + 1 }) := by
  obtain ⟨hht, ⟨l, hnd, hfl, hiff⟩, hnn, hhs⟩ := hinv
  have hjl : j ∈ l := (hiff j hj).mp hc
  obtain ⟨l₁, l₂, rfl⟩ := List.append_of_mem hjl
  have hnm := List.nodup_cons.mp (List.nodup_middle.mp hnd)
  have hjnl : j ∉ l₁ ++ l₂ := hnm.1
  have hcjm : (readPtr (writePtr (freeUnlink s (Ptr.buf j)) (Ptr.buf j)
      fun b => { b with count := b.count + 1 }) (Ptr.buf j)).count
      = (readPtr (freeUnlink s (Ptr.buf j)) (Ptr.buf j)).count + 1 := by
    rw [readPtr_writePtr_self]
  have hfl2 := freeListIs_unlink s j l₁ l₂ hfl hnd
  have hfl3 : freeListIs (writePtr (freeUnlink s (Ptr.buf j)) (Ptr.buf j)
      fun b => { b with count := b.count + 1 }) (l₁ ++ l₂) :=
    freeListIs_writePtr_other _ (Ptr.buf j)
      (fun b => { b with count := b.count + 1 }) (fun b => rfl) (fun b => rfl) _ hfl2
  have hcnt0 : ∀ i : Nat,
      (readPtr (freeUnlink s (Ptr.buf j)) (Ptr.buf i)).count
      = (readPtr s (Ptr.buf i)).count :=
    fun i => (freeUnlink_preserves s (Ptr.buf j) (Ptr.buf i)).2.2.2.1
  refine ⟨hht, ⟨l₁ ++ l₂, hnm.2, hfl3, ?_⟩, ?_, ?_⟩
  · intro i hi
    by_cases hij : i = j
    · subst hij
      rw [hcjm, hcnt0 i, hc]
      exact ⟨fun h0 => absurd h0 (by omega), fun hm => absurd hm hjnl⟩
    · rw [readPtr_writePtr_ne _ _ _ _ (fun h => hij (by injection h)), hcnt0 i]
      rw [hiff i hi]
      simp only [List.mem_append, List.mem_cons]
      exact ⟨fun h => h.imp id (fun hr => hr.resolve_left hij),
        fun h => h.imp id (fun hr => Or.inr hr)⟩
  · intro i hi
    by_cases hij : i = j
    · subst hij
      rw [hcjm, hcnt0 i, hc]
      omega
    · rw [readPtr_writePtr_ne _ _ _ _ (fun h => hij (by injection h)), hcnt0 i]
      exact hnn i hi
  · have hhs1 : HashSane (freeUnlink s (Ptr.buf j)) := by
      simp only [freeUnlink]
      exact HashSane_write_other _ _ _ (fun b => rfl) (fun b => rfl) (fun b => rfl)
        (HashSane_write_other _ _ _ (fun b => rfl) (fun b => rfl) (fun b => rfl) hhs)
    exact HashSane_write_buf _ j _ (fun b => rfl) hhs1

/-- C8 component: `brelse` on a pool buffer keeps the invariant at
every interrupt-enabled stop. -/
theorem brelse_preserves (s : BCState) (j : Nat) (hj : j < s.nbuf)
    (hinv : CacheInv s) : InvAtEnabled (brelse s (Ptr.buf j)) := by
  simp only [brelse]
  by_cases hc1 : (readPtr (writePtr s (Ptr.buf j) fun b => { b with count := b.count - 1 })
      (Ptr.buf j)).count = 0
  · rw [if_pos hc1]
    have hcs1 : (readPtr (writePtr s (Ptr.buf j) fun b => { b with count := b.count - 1 })
        (Ptr.buf j)).count = (readPtr s (Ptr.buf j)).count - 1 := by
      rw [readPtr_writePtr_self]
    have hold : (readPtr s (Ptr.buf j)).count = 1 := by
      rw [hcs1] at hc1
      omega
    obtain ⟨hht, ⟨l, hnd, hfl, hiff⟩, hnn, hhs⟩ := hinv
    have hjnl : j ∉ l := fun hm => by
      have := (hiff j hj).mpr hm
      omega
    -- the components of the invariant at the woken, decremented state
    have hfl1 : freeListIs (wakeupFreeChain (writePtr s (Ptr.buf j)
        fun b => { b with count := b.count - 1 })) l :=
      freeListIs_wakeupFree _ l (freeListIs_writePtr_other s (Ptr.buf j)
        (fun b => { b with count := b.count - 1 }) (fun b => rfl) (fun b => rfl) l hfl)
    have hcnt : ∀ i : Nat, i ≠ j →
        (readPtr (wakeupFreeChain (writePtr s (Ptr.buf j)
          fun b => { b with count := b.count - 1 })) (Ptr.buf i)).count
        = (readPtr s (Ptr.buf i)).count := by
      intro i hij
      show (readPtr (writePtr s (Ptr.buf j) fun b => { b with count := b.count - 1 })
        (Ptr.buf i)).count = (readPtr s (Ptr.buf i)).count
      rw [readPtr_writePtr_ne _ _ _ _ (fun h => hij (by injection h))]
    have hcj : (readPtr (wakeupFreeChain (writePtr s (Ptr.buf j)
        fun b => { b with count := b.count - 1 })) (Ptr.buf j)).count = 0 := by
      show (readPtr (writePtr s (Ptr.buf j) fun b => { b with count := b.count - 1 })
        (Ptr.buf j)).count = 0
      exact hc1
    have hiff1 : ∀ i, i < (wakeupFreeChain (writePtr s (Ptr.buf j)
        fun b => { b with count := b.count - 1 })).nbuf → i ≠ j →
        ((readPtr (wakeupFreeChain (writePtr s (Ptr.buf j)
          fun b => { b with count := b.count - 1 })) (Ptr.buf i)).count = 0 ↔ i ∈ l) := by
      intro i hi hij
      rw [hcnt i hij]
      exact hiff i hi
    have hnn1 : ∀ i, i < (wakeupFreeChain (writePtr s (Ptr.buf j)
        fun b => { b with count := b.count - 1 })).nbuf →
        0 ≤ (readPtr (wakeupFreeChain (writePtr s (Ptr.buf j)
          fun b => { b with count := b.count - 1 })) (Ptr.buf i)).count := by
      intro i hi
      by_cases hij : i = j
      · subst hij
        rw [hcj]
      · rw [hcnt i hij]
        exact hnn i hi
    have hhs1 : HashSane (wakeupFreeChain (writePtr s (Ptr.buf j)
        fun b => { b with count := b.count - 1 })) :=
      HashSane_wakeupFree _ (HashSane_write_buf s j _ (fun b => rfl) hhs)
    by_cases hcf : (readPtr (wakeupFreeChain (writePtr s (Ptr.buf j)
        fun b => { b with count := b.count - 1 })) (Ptr.buf j)).flags &&& BUFFER_VALID ≠ 0 ∧
        (readPtr (wakeupFreeChain (writePtr s (Ptr.buf j)
          fun b => { b with count := b.count - 1 })) (Ptr.buf j)).flags &&& BUFFER_DIRTY ≠ 0
    · rw [if_pos hcf]
      have hinvT : CacheInv (freeInsertTail (wakeupFreeChain (writePtr s (Ptr.buf j)
          fun b => { b with count := b.count - 1 })) (Ptr.buf j)) :=
        CacheInv_insert_tail _ j l hj hht hnd hfl1 hjnl hiff1 hcj hnn1 hhs1
      have hcT : (readPtr (freeInsertTail (wakeupFreeChain (writePtr s (Ptr.buf j)
          fun b => { b with count := b.count - 1 })) (Ptr.buf j)) (Ptr.buf j)).count = 0 := by
        rw [(freeInsertTail_preserves _ (Ptr.buf j) (Ptr.buf j)).2.2.2.1]
        exact hcj
      rw [if_neg (by rw [hcT]; omega)]
      exact CacheInv_blkunlock _ _ hinvT
    · rw [if_neg hcf]
      have hinvH : CacheInv (freeInsertHead (wakeupFreeChain (writePtr s (Ptr.buf j)
          fun b => { b with count := b.count - 1 })) (Ptr.buf j)) :=
        CacheInv_insert_head _ j l hj hht hnd hfl1 hjnl hiff1 hcj hnn1 hhs1
      have hcH : (readPtr (freeInsertHead (wakeupFreeChain (writePtr s (Ptr.buf j)
          fun b => { b with count := b.count - 1 })) (Ptr.buf j)) (Ptr.buf j)).count = 0 := by
        rw [(freeInsertHead_preserves _ (Ptr.buf j) (Ptr.buf j)).2.2.2.1]
        exact hcj
      rw [if_neg (by rw [hcH]; omega)]
      exact CacheInv_blkunlock _ _ hinvH
  · rw [if_neg hc1]
    have hcs1 : (readPtr (writePtr s (Ptr.buf j) fun b => { b with count := b.count - 1 })
        (Ptr.buf j)).count = (readPtr s (Ptr.buf j)).count - 1 := by
      rw [readPtr_writePtr_self]
    by_cases hlt : (readPtr (writePtr s (Ptr.buf j) fun b => { b with count := b.count - 1 })
        (Ptr.buf j)).count < 0
    · rw [if_pos hlt]
      exact trivial
    · rw [if_neg hlt]
      show CacheInv (blkunlock _ (Ptr.buf j))
      refine CacheInv_blkunlock _ _ ?_
      refine CacheInv_dec_pos s j hj hinv ?_
      rw [hcs1] at hc1 hlt
      omega

/-- Starting from a safe pointer, the hash-bucket walk only ever
returns safe pointers (every `hash_next` it can follow is safe). -/
theorem hashSearch_safe (s : BCState) (sent : Ptr) (dev num : Nat) (hhs : HashSane s) :
    ∀ (fuel : Nat) (p q : Ptr), safePtr s p →
      hashSearch s sent dev num fuel p = some q → safePtr s q := by
  intro fuel
  induction fuel with
  | zero =>
    intro p q _ h
    simp [hashSearch] at h
  | succ n ih =>
    intro p q hp h
    rw [hashSearch] at h
    split at h
    · simp at h
    · split at h
      · obtain rfl : p = q := by simpa using h
        exact hp
      · refine ih _ _ ?_ h
        cases p with
        | buf j => exact hhs.2 j hp
        | hashHead k => exact (hhs.1 k hp).1
        | freeHead => exact absurd hp id
        | null => exact absurd hp id

/-- Redirecting a `hash_next` pointer to a safe target keeps the cache
invariant. -/
theorem CacheInv_write_hash_next (s : BCState) (t v : Ptr) (hv : safePtr s v)
    (hinv : CacheInv s) : CacheInv (writePtr s t fun b => { b with hash_next := v }) := by
  obtain ⟨hht, ⟨l, hnd, hfl, hiff⟩, hnn, hhs⟩ := hinv
  have hcnt : ∀ i : Nat, (readPtr (writePtr s t fun b => { b with hash_next := v })
      (Ptr.buf i)).count = (readPtr s (Ptr.buf i)).count :=
    fun i => readPtr_writePtr_field (fun b => b.count) s t _ _ (fun b => rfl)
  refine ⟨hht, ⟨l, hnd, ?_, ?_⟩, ?_, ?_⟩
  · exact freeListIs_writePtr_other s t (fun b => { b with hash_next := v })
      (fun b => rfl) (fun b => rfl) l hfl
  · intro i hi
    rw [hcnt i]
    exact hiff i hi
  · intro i hi
    rw [hcnt i]
    exact hnn i hi
  · exact HashSane_write_hash_next s t v hv hhs

/-- `hashUnlink` on a pool buffer keeps the cache invariant. -/
theorem CacheInv_hashUnlink (s : BCState) (j : Nat) (hj : j < s.nbuf)
    (hinv : CacheInv s) : CacheInv (hashUnlink s (Ptr.buf j)) := by
  have hhs := hinv.2.2.2
  simp only [hashUnlink]
  refine CacheInv_writePtr_other _ _ _ (fun b => rfl) (fun b => rfl) (fun b => rfl)
    (fun b => rfl) (fun b => rfl) (fun b => rfl) ?_
  exact CacheInv_write_hash_next s _ _ (hhs.2 j hj) hinv

/-- `hashInsertHead` of a pool buffer into a configured bucket keeps
the cache invariant. -/
theorem CacheInv_hashInsertHead (s : BCState) (i j : Nat) (hi : i < s.htsize)
    (hj : j < s.nbuf) (hinv : CacheInv s) : CacheInv (hashInsertHead s i (Ptr.buf j)) := by
  have hhs := hinv.2.2.2
  simp only [hashInsertHead]
  have h1 : CacheInv (writePtr s ((readPtr s (Ptr.hashHead i)).hash_next)
      fun b => { b with hash_prev := Ptr.buf j }) :=
    CacheInv_writePtr_other _ _ _ (fun b => rfl) (fun b => rfl) (fun b => rfl)
      (fun b => rfl) (fun b => rfl) (fun b => rfl) hinv
  have h2 : CacheInv (writePtr (writePtr s ((readPtr s (Ptr.hashHead i)).hash_next)
      fun b => { b with hash_prev := Ptr.buf j }) (Ptr.buf j)
      fun b => { b with hash_prev := Ptr.hashHead i }) :=
    CacheInv_writePtr_other _ _ _ (fun b => rfl) (fun b => rfl) (fun b => rfl)
      (fun b => rfl) (fun b => rfl) (fun b => rfl) h1
  have hval : (readPtr (writePtr (writePtr s ((readPtr s (Ptr.hashHead i)).hash_next)
      fun b => { b with hash_prev := Ptr.buf j }) (Ptr.buf j)
      fun b => { b with hash_prev := Ptr.hashHead i }) (Ptr.hashHead i)).hash_next
      = (readPtr s (Ptr.hashHead i)).hash_next := by
    refine (readPtr_writePtr_field (fun b => b.hash_next) _ _ _ _ ?_).trans ?_
    · exact fun b => rfl
    · refine (readPtr_writePtr_field (fun b => b.hash_next) _ _ _ _ ?_).trans ?_
      · exact fun b => rfl
      · rfl
  have hsafe : safePtr (writePtr (writePtr s ((readPtr s (Ptr.hashHead i)).hash_next)
      fun b => { b with hash_prev := Ptr.buf j }) (Ptr.buf j)
      fun b => { b with hash_prev := Ptr.hashHead i })
      ((readPtr (writePtr (writePtr s ((readPtr s (Ptr.hashHead i)).hash_next)
        fun b => { b with hash_prev := Ptr.buf j }) (Ptr.buf j)
        fun b => { b with hash_prev := Ptr.hashHead i }) (Ptr.hashHead i)).hash_next) := by
    rw [hval]
    exact (safePtr_congr s _ rfl rfl _).mpr (hhs.1 i hi).1
  exact CacheInv_write_hash_next _ (Ptr.hashHead i) (Ptr.buf j) hj
    (CacheInv_write_hash_next _ (Ptr.buf j) _ hsafe h2)

/-- `blklock` followed by returning the buffer: the invariant holds at
the sleep point and at the normal return. -/
theorem InvAtEnabled_blklock_bind (s : BCState) (p : Ptr) (hinv : CacheInv s) :
    InvAtEnabled ((blklock s p).bind fun _ s3 => Outcome.ok p s3) := by
  simp only [blklock]
  split
  · exact hinv
  · show CacheInv (writePtr s p fun b => { b with flags := b.flags ||| BUFFER_LOCKED })
    exact CacheInv_writePtr_other s p _ (fun b => rfl) (fun b => rfl) (fun b => rfl)
      (fun b => rfl) (fun b => rfl) (fun b => rfl) hinv

/-- The hit path of `getblk` after the buffer has been found unlocked:
reference acquisition and locking keep the invariant. -/
theorem CacheInv_hit_step (s : BCState) (j : Nat) (hj : j < s.nbuf) (hinv : CacheInv s) :
    InvAtEnabled ((blklock (if (readPtr s (Ptr.buf j)).count = 0 then
        freeUnlink (writePtr s (Ptr.buf j) fun b => { b with count := b.count + 1 })
          (Ptr.buf j)
      else writePtr s (Ptr.buf j) fun b => { b with count := b.count + 1 })
      (Ptr.buf j)).bind fun _ s3 => Outcome.ok (Ptr.buf j) s3) := by
  by_cases hz : (readPtr s (Ptr.buf j)).count = 0
  · rw [if_pos hz]
    exact InvAtEnabled_blklock_bind _ _ (CacheInv_acquire_zero s j hj hinv hz)
  · rw [if_neg hz]
    exact InvAtEnabled_blklock_bind _ _ (CacheInv_acquire_pos s j hj hinv hz)

/-- The miss path of `getblk` after the head of the free list has been
identified: acquisition, rebucketing and locking keep the invariant at
every interrupt-enabled stop (the dirty-buffer case panics inside the
critical section). -/
theorem CacheInv_miss_step (s : BCState) (dev num : Nat) (j : Nat) (hj : j < s.nbuf)
    (hinv : CacheInv s) (hc : (readPtr s (Ptr.buf j)).count = 0) :
    InvAtEnabled
      (if (readPtr (writePtr (freeUnlink s (Ptr.buf j)) (Ptr.buf j)
            fun b => { b with count := b.count + 1 }) (Ptr.buf j)).flags
            &&& BUFFER_DIRTY ≠ 0 then
        Outcome.panic KPanic.asyncWrite (writePtr (freeUnlink s (Ptr.buf j)) (Ptr.buf j)
          fun b => { b with count := b.count + 1 })
      else
        ((blklock (hashInsertHead (writePtr (hashUnlink (writePtr (freeUnlink s (Ptr.buf j))
              (Ptr.buf j) fun b => { b with count := b.count + 1 }) (Ptr.buf j)) (Ptr.buf j)
            fun b =>
              { b with dev := dev, num := num, flags := b.flags &&& compl32 BUFFER_VALID })
            (HASH s dev num) (Ptr.buf j)) (Ptr.buf j)).bind
          fun _ s6 => Outcome.ok (Ptr.buf j) s6)) := by
  split
  · exact trivial
  · have hinv2 : CacheInv (writePtr (freeUnlink s (Ptr.buf j)) (Ptr.buf j)
        fun b => { b with count := b.count + 1 }) :=
      CacheInv_acquire_zero_miss s j hj hinv hc
    have hinv3 := CacheInv_hashUnlink
      (writePtr (freeUnlink s (Ptr.buf j)) (Ptr.buf j) fun b => { b with count := b.count + 1 })
      j hj hinv2
    have hinv4 : CacheInv (writePtr (hashUnlink (writePtr (freeUnlink s (Ptr.buf j))
        (Ptr.buf j) fun b => { b with count := b.count + 1 }) (Ptr.buf j)) (Ptr.buf j)
        fun b =>
        { b with dev := dev, num := num, flags := b.flags &&& compl32 BUFFER_VALID }) :=
      CacheInv_writePtr_buf _ j _ (fun b => rfl) (fun b => rfl) (fun b => rfl)
        (fun b => rfl) hinv3
    have hi : HASH s dev num < s.htsize := Nat.mod_lt _ hinv.1
    exact InvAtEnabled_blklock_bind _ _ (CacheInv_hashInsertHead _ _ j hi hj hinv4)

/-- C8 component: `getblk` keeps the invariant at every
interrupt-enabled stop. -/
theorem getblk_preserves (s : BCState) (dev num : Nat) (hinv : CacheInv s) :
    InvAtEnabled (getblk s dev num) := by
  simp only [getblk]
  split
  · exact trivial
  · rename_i hne
    split
    · rename_i p heq
      have hht := hinv.1
      have hhs := hinv.2.2.2
      have hi : HASH s dev num < s.htsize := Nat.mod_lt _ hht
      have hstart : safePtr s ((readPtr s (Ptr.hashHead (HASH s dev num))).hash_next) :=
        (hhs.1 _ hi).1
      have hpsafe : safePtr s p := hashSearch_safe s _ dev num hhs _ _ _ hstart heq
      have hmatch := hashSearch_found s _ dev num _ _ _ heq
      obtain ⟨j, hj, rfl⟩ : ∃ j, j < s.nbuf ∧ p = Ptr.buf j := by
        cases p with
        | buf j => exact ⟨j, hpsafe, rfl⟩
        | hashHead k =>
          exact absurd ⟨(hhs.1 k hpsafe).2.1 ▸ hmatch.1.symm ▸ rfl,
            (hhs.1 k hpsafe).2.2 ▸ hmatch.2.symm ▸ rfl⟩ hne
        | freeHead => exact absurd hpsafe id
        | null => exact absurd hpsafe id
      split
      · exact hinv
      · exact CacheInv_hit_step s j hj hinv
    · split
      · exact hinv
      · rename_i hfne
        obtain ⟨hht, ⟨l, hnd, hfl, hiff⟩, hnn, hhs⟩ := hinv
        cases l with
        | nil =>
          exfalso
          have h' : chainOK s Ptr.freeHead ((readPtr s Ptr.freeHead).free_next)
              ([] : List Nat) := hfl
          rw [chainOK] at h'
          exact hfne h'.1
        | cons i₀ rest =>
          have h' : chainOK s Ptr.freeHead ((readPtr s Ptr.freeHead).free_next)
              (i₀ :: rest) := hfl
          rw [chainOK] at h'
          obtain ⟨hstart, hjn, _, _⟩ := h'
          have hc0 : (readPtr s (Ptr.buf i₀)).count = 0 :=
            (hiff i₀ hjn).mpr (List.mem_cons_self i₀ rest)
          rw [hstart]
          exact CacheInv_miss_step s dev num i₀ hjn
            ⟨hht, ⟨i₀ :: rest, hnd, hfl, hiff⟩, hnn, hhs⟩ hc0

/-- `brelse` never changes the configured pool size, whatever its
outcome. -/
theorem brelse_state_nbuf (s : BCState) (p : Ptr) : (brelse s p).state.nbuf = s.nbuf := by
  simp only [brelse]
  repeat' split
  all_goals rfl

/-- `bdev_writeblk` never changes the configured pool size. -/
theorem bdev_writeblk_state_nbuf (s : BCState) (p : Ptr) :
    (bdev_writeblk s p).state.nbuf = s.nbuf := by
  simp only [bdev_writeblk]
  exact brelse_state_nbuf _ p

/-- `bdev_writeblk` on a pool buffer: the trace append and the
`DIRTY`-clearing write keep the invariant, and the final `brelse` keeps
it at every interrupt-enabled stop. -/
theorem bdev_writeblk_preserves (s : BCState) (j : Nat) (hj : j < s.nbuf)
    (hinv : CacheInv s) : InvAtEnabled (bdev_writeblk s (Ptr.buf j)) := by
  have hinv1 : CacheInv { s with
      events := s.events ++ [Event.devWrite (readPtr s (Ptr.buf j)).dev
        (readPtr s (Ptr.buf j)).num] } :=
    CacheInv_congr s _ rfl rfl rfl rfl (fun _ => ⟨rfl, rfl, rfl, rfl⟩)
      (fun _ => ⟨rfl, rfl, rfl⟩) hinv
  have hinv2 : CacheInv (writePtr { s with
      events := s.events ++ [Event.devWrite (readPtr s (Ptr.buf j)).dev
        (readPtr s (Ptr.buf j)).num] } (Ptr.buf j)
      fun b => { b with flags := b.flags &&& compl32 BUFFER_DIRTY }) :=
    CacheInv_writePtr_other _ (Ptr.buf j) _ (fun b => rfl) (fun b => rfl) (fun b => rfl)
      (fun b => rfl) (fun b => rfl) (fun b => rfl) hinv1
  exact brelse_preserves (writePtr { s with
      events := s.events ++ [Event.devWrite (readPtr s (Ptr.buf j)).dev
        (readPtr s (Ptr.buf j)).num] } (Ptr.buf j)
      fun b => { b with flags := b.flags &&& compl32 BUFFER_DIRTY }) j hj hinv2

/-- The body of one `bsync` iteration after the lock has been taken
(state `s` is the post-lock state): the pool size is unchanged. -/
theorem bsyncBody_state_nbuf (s : BCState) (i : Nat) :
    (if (readPtr s (Ptr.buf i)).flags &&& BUFFER_VALID = 0 then
        Outcome.ok () (blkunlock s (Ptr.buf i))
      else
        bdev_writeblk (if (readPtr s (Ptr.buf i)).count = 0 then
            freeUnlink (writePtr s (Ptr.buf i) fun b => { b with count := b.count + 1 })
              (Ptr.buf i)
          else writePtr s (Ptr.buf i) fun b => { b with count := b.count + 1 })
          (Ptr.buf i)).state.nbuf = s.nbuf := by
  split
  · rfl
  · split
    · exact bdev_writeblk_state_nbuf _ _
    · exact bdev_writeblk_state_nbuf _ _

/-- One `bsync` iteration never changes the configured pool size. -/
theorem bsyncStep_state_nbuf (s : BCState) (i : Nat) :
    (bsyncStep s i).state.nbuf = s.nbuf := by
  simp only [bsyncStep, blklock]
  split
  · rfl
  · exact bsyncBody_state_nbuf (writePtr s (Ptr.buf i)
      fun b => { b with flags := b.flags ||| BUFFER_LOCKED }) i

/-- The body of one `bsync` iteration after the lock has been taken
keeps the invariant at every interrupt-enabled stop. -/
theorem bsyncBody_preserves (s : BCState) (i : Nat) (hi : i < s.nbuf) (hinv : CacheInv s) :
    InvAtEnabled (if (readPtr s (Ptr.buf i)).flags &&& BUFFER_VALID = 0 then
        Outcome.ok () (blkunlock s (Ptr.buf i))
      else
        bdev_writeblk (if (readPtr s (Ptr.buf i)).count = 0 then
            freeUnlink (writePtr s (Ptr.buf i) fun b => { b with count := b.count + 1 })
              (Ptr.buf i)
          else writePtr s (Ptr.buf i) fun b => { b with count := b.count + 1 })
          (Ptr.buf i)) := by
  split
  · exact CacheInv_blkunlock s (Ptr.buf i) hinv
  · by_cases hz : (readPtr s (Ptr.buf i)).count = 0
    · rw [if_pos hz]
      exact bdev_writeblk_preserves
        (freeUnlink (writePtr s (Ptr.buf i) fun b => { b with count := b.count + 1 })
          (Ptr.buf i)) i hi (CacheInv_acquire_zero s i hi hinv hz)
    · rw [if_neg hz]
      exact bdev_writeblk_preserves
        (writePtr s (Ptr.buf i) fun b => { b with count := b.count + 1 }) i hi
        (CacheInv_acquire_pos s i hi hinv hz)

/-- C8 component: one `bsync` iteration keeps the invariant at every
interrupt-enabled stop. -/
theorem bsyncStep_preserves (s : BCState) (i : Nat) (hi : i < s.nbuf)
    (hinv : CacheInv s) : InvAtEnabled (bsyncStep s i) := by
  simp only [bsyncStep, blklock]
  split
  · exact hinv
  · exact bsyncBody_preserves (writePtr s (Ptr.buf i)
      fun b => { b with flags := b.flags ||| BUFFER_LOCKED }) i hi
      (CacheInv_writePtr_other s (Ptr.buf i) _ (fun b => rfl) (fun b => rfl) (fun b => rfl)
        (fun b => rfl) (fun b => rfl) (fun b => rfl) hinv)

/-- The `bsync` loop keeps the invariant at every interrupt-enabled
stop, for any schedule of in-range buffer indices. -/
theorem bsyncAux_preserves (l : List Nat) : ∀ s : BCState, (∀ i ∈ l, i < s.nbuf) →
    CacheInv s → InvAtEnabled (bsyncAux s l) := by
  induction l with
  | nil =>
    intro s _ hinv
    exact hinv
  | cons i rest ih =>
    intro s hl hinv
    show InvAtEnabled ((bsyncStep s i).bind fun _ s1 => bsyncAux s1 rest)
    have hstep := bsyncStep_preserves s i (hl i (List.mem_cons_self i rest)) hinv
    have hnb := bsyncStep_state_nbuf s i
    cases hout : bsyncStep s i with
    | ok v s1 =>
      rw [hout] at hstep hnb
      show InvAtEnabled (bsyncAux s1 rest)
      simp only [Outcome.state] at hnb
      refine ih s1 ?_ hstep
      intro k hk
      have := hl k (List.mem_cons_of_mem i hk)
      omega
    | blocked s1 =>
      rw [hout] at hstep
      exact hstep
    | panic m s1 =>
      exact trivial

/-- C8 component: `bsync` keeps the invariant at every
interrupt-enabled stop. -/
theorem bsync_preserves (s : BCState) (hinv : CacheInv s) : InvAtEnabled (bsync s) :=
  bsyncAux_preserves (List.range s.nbuf) s (fun _ hi => List.mem_range.mp hi) hinv

/-- The `binit` free chain: from index `i` (with `i + k = nbuf`), the
chain of initialized buffers visits `i, i+1, …, nbuf-1` and closes at
the sentinel. -/
theorem binit_chain (nbuf htsize virt blockSize : Nat) (hn : 0 < nbuf) :
    ∀ (k i : Nat), i + k = nbuf →
      chainOK (binitState nbuf htsize virt blockSize)
        (if i = 0 then Ptr.freeHead else Ptr.buf (i - 1))
        (if i = nbuf then Ptr.freeHead else Ptr.buf i)
        (List.range' i k) := by
  intro k
  induction k with
  | zero =>
    intro i hik
    have hieq : i = nbuf := by omega
    rw [List.range'_zero, chainOK]
    constructor
    · rw [if_pos hieq]
    · rw [if_neg (by omega : ¬ i = 0)]
      show Ptr.buf (nbuf - 1) = Ptr.buf (i - 1)
      rw [hieq]
  | succ k ih =>
    intro i hik
    have hilt : i < nbuf := by omega
    rw [if_neg (by omega : ¬ i = nbuf), List.range'_succ, chainOK]
    have hrd : readPtr (binitState nbuf htsize virt blockSize) (Ptr.buf i)
        = binitBuffer nbuf virt blockSize i := by
      show (if i < nbuf then binitBuffer nbuf virt blockSize i else default)
        = binitBuffer nbuf virt blockSize i
      rw [if_pos hilt]
    refine ⟨rfl, hilt, ?_, ?_⟩
    · rw [hrd]
      rfl
    · rw [hrd]
      have hnext := ih (i + 1) (by omega)
      rw [if_neg (by omega : ¬ i + 1 = 0), Nat.add_sub_cancel] at hnext
      exact hnext

/-- C8 component: `binit` establishes the cache invariant, for any
nonempty pool and hash-table configuration. -/
theorem binit_establishes (nbuf htsize virt blockSize : Nat)
    (hn : 0 < nbuf) (hh : 0 < htsize) :
    CacheInv (binitState nbuf htsize virt blockSize) := by
  refine ⟨hh, ⟨List.range nbuf, List.nodup_range nbuf, ?_, ?_⟩, ?_, ?_, ?_⟩
  · show chainOK (binitState nbuf htsize virt blockSize) Ptr.freeHead
      ((readPtr (binitState nbuf htsize virt blockSize) Ptr.freeHead).free_next)
      (List.range nbuf)
    have h := binit_chain nbuf htsize virt blockSize hn nbuf 0 (by omega)
    rw [if_pos rfl, if_neg (by omega : ¬ (0:Nat) = nbuf)] at h
    rw [List.range_eq_range']
    exact h
  · intro i hi
    have hi' : i < nbuf := hi
    have hrd : (readPtr (binitState nbuf htsize virt blockSize) (Ptr.buf i)).count = 0 := by
      show (if i < nbuf then binitBuffer nbuf virt blockSize i else default).count = 0
      rw [if_pos hi']
      rfl
    exact ⟨fun _ => List.mem_range.mpr hi', fun _ => hrd⟩
  · intro i hi
    have hi' : i < nbuf := hi
    have hrd : (readPtr (binitState nbuf htsize virt blockSize) (Ptr.buf i)).count = 0 := by
      show (if i < nbuf then binitBuffer nbuf virt blockSize i else default).count = 0
      rw [if_pos hi']
      rfl
    omega
  · intro k hk
    have hk' : k < htsize := hk
    have hrd : readPtr (binitState nbuf htsize virt blockSize) (Ptr.hashHead k)
        = { dev := 0, num := 0, data := 0, count := 0, flags := 0, chain := [],
            free_next := Ptr.null, free_prev := Ptr.null,
            hash_next := Ptr.hashHead k, hash_prev := Ptr.hashHead k } := by
      show (if k < htsize then
          ({ dev := 0, num := 0, data := 0, count := 0, flags := 0, chain := [],
             free_next := Ptr.null, free_prev := Ptr.null,
             hash_next := Ptr.hashHead k, hash_prev := Ptr.hashHead k } : Buffer)
        else default)
        = { dev := 0, num := 0, data := 0, count := 0, flags := 0, chain := [],
            free_next := Ptr.null, free_prev := Ptr.null,
            hash_next := Ptr.hashHead k, hash_prev := Ptr.hashHead k }
      rw [if_pos hk']
    rw [hrd]
    exact ⟨hk', rfl, rfl⟩
  · intro j hj
    have hj' : j < nbuf := hj
    have hrd : readPtr (binitState nbuf htsize virt blockSize) (Ptr.buf j)
        = binitBuffer nbuf virt blockSize j := by
      show (if j < nbuf then binitBuffer nbuf virt blockSize j else default)
        = binitBuffer nbuf virt blockSize j
      rw [if_pos hj']
    rw [hrd]
    exact hj'

/-- C8: the invariant "for every pool buffer, `count == 0` iff the
buffer is on the free list" — packaged with the well-formedness it
rides on (nonnegative counts, a duplicate-free doubly-linked free list,
a sane hash structure: `CacheInv`) — holds after `binit` (for any
nonempty pool and hash table) and is preserved by `getblk`, `brelse`
and `bsync` at every interrupt-enabled point: at normal returns and at
sleep points; a `kpanic` halts the system inside the
interrupt-disabled critical section, so no interrupt-enabled point
follows it. -/
theorem c8_count_freelist_invariant :
    (∀ nbuf htsize virt blockSize : Nat, 0 < nbuf → 0 < htsize →
      CacheInv (binitState nbuf htsize virt blockSize)) ∧
    (∀ (s : BCState) (dev num : Nat), CacheInv s → InvAtEnabled (getblk s dev num)) ∧
    (∀ (s : BCState) (j : Nat), j < s.nbuf → CacheInv s →
      InvAtEnabled (brelse s (Ptr.buf j))) ∧
    (∀ s : BCState, CacheInv s → InvAtEnabled (bsync s)) :=
  ⟨binit_establishes, getblk_preserves, brelse_preserves, bsync_preserves⟩

/-! ## Witnesses: the claim laws applied at concrete inputs -/

/-- C8 witness: the invariant concretely established by `binit` on the
four-buffer pool and carried through `getblk`, `brelse` and `bsync`. -/
theorem c8_count_freelist_invariant_witness :
    ((0:Nat) < 4 ∧ (0:Nat) < 1 ∧ CacheInv (binitState 4 1 0 1)) ∧
    InvAtEnabled (getblk (binitState 4 1 0 1) 1 10) ∧
    ((0:Nat) < (binitState 4 1 0 1).nbuf ∧
      InvAtEnabled (brelse (binitState 4 1 0 1) (Ptr.buf 0))) ∧
    InvAtEnabled (bsync (binitState 4 1 0 1)) := by
  have h1 : CacheInv (binitState 4 1 0 1) :=
    c8_count_freelist_invariant.1 4 1 0 1 (by decide) (by decide)
  exact ⟨⟨by decide, by decide, h1⟩,
    c8_count_freelist_invariant.2.1 (binitState 4 1 0 1) 1 10 h1,
    ⟨by decide, c8_count_freelist_invariant.2.2.1 (binitState 4 1 0 1) 0 (by decide) h1⟩,
    c8_count_freelist_invariant.2.2.2 (binitState 4 1 0 1) h1⟩

/-- C1 witness: the amended selection law at the two-process table of
the spec's example, `IDLE` at the empty table, and the draw bounds at a
one-process table. -/
theorem c1_yield_selection_amended_witness :
    (yieldChoose [⟨ProcState.ready, 0, 10, 0, 0, 0, 0⟩, ⟨ProcState.ready, 0, 30, 0, 0, 0, 0⟩] 0
      = specLotteryWinner
        [⟨ProcState.ready, 0, 10, 0, 0, 0, 0⟩, ⟨ProcState.ready, 0, 30, 0, 0, 0, 0⟩]
        (next_process 0 (total_tickets
          [⟨ProcState.ready, 0, 10, 0, 0, 0, 0⟩, ⟨ProcState.ready, 0, 30, 0, 0, 0, 0⟩]))) ∧
    yieldChoose ([] : List SchedProc) 0 = none ∧
    (1 ≤ next_process 0 (total_tickets [⟨ProcState.ready, 0, 10, 0, 0, 0, 0⟩]) ∧
      next_process 0 (total_tickets [⟨ProcState.ready, 0, 10, 0, 0, 0, 0⟩])
        ≤ total_tickets [⟨ProcState.ready, 0, 10, 0, 0, 0, 0⟩]) :=
  ⟨c1_yield_selection_amended.1
      [⟨ProcState.ready, 0, 10, 0, 0, 0, 0⟩, ⟨ProcState.ready, 0, 30, 0, 0, 0, 0⟩] 0,
   c1_yield_selection_amended.2.1 [] 0
      (fun p hp => absurd hp (List.not_mem_nil p)) (by decide),
   c1_yield_selection_amended.2.2 [⟨ProcState.ready, 0, 10, 0, 0, 0, 0⟩] 0 (by decide)⟩

/-- C6 witness: the amended law applied at the specification's worked
example (`PROC_QUANTUM = 100`, `counter = 75`, `tickets = 10`), where
every hypothesis — including the float-exactness identity — holds
concretely, and at the `counter = 0` no-compensation case. -/
theorem c6_add_compensation_amended_witness :
    ((0:Int) < (⟨ProcState.running, 75, 10, 0, 0, 0, 0⟩ : SchedProc).counter ∧
      (⟨ProcState.running, 75, 10, 0, 0, 0, 0⟩ : SchedProc).counter < 100 ∧
      (0:Int) ≤ (⟨ProcState.running, 75, 10, 0, 0, 0, 0⟩ : SchedProc).tickets) ∧
    (add_compensation 100 ⟨ProcState.running, 75, 10, 0, 0, 0, 0⟩).compensation =
      ⌊(((⟨ProcState.running, 75, 10, 0, 0, 0, 0⟩ : SchedProc).tickets : ℚ) /
        ((((100:Int) : ℚ) - ((⟨ProcState.running, 75, 10, 0, 0, 0, 0⟩ : SchedProc).counter : ℚ))
          / ((100:Int) : ℚ)))⌋ -
      (⟨ProcState.running, 75, 10, 0, 0, 0, 0⟩ : SchedProc).tickets ∧
    add_compensation 100 ⟨ProcState.running, 0, 10, 0, 0, 0, 0⟩ =
      ⟨ProcState.running, 0, 10, 0, 0, 0, 0⟩ := by
  refine ⟨⟨by decide, by decide, by decide⟩, ?_, ?_⟩
  · exact c6_add_compensation_amended.1 100 ⟨ProcState.running, 75, 10, 0, 0, 0, 0⟩
      (by decide) (by decide) (by decide) (by decide)
  · exact c6_add_compensation_amended.2.1 100 ⟨ProcState.running, 0, 10, 0, 0, 0, 0⟩
      (Or.inl rfl)

/-- C9 witness: the closed-form value of `rand` at `ticks = 0`, a
representable tick. -/
theorem c9_rand_lottery_witness :
    (0:Nat) < 2 ^ 32 ∧ rand 0 = ((0 * 1103515245 + 12345) / 65536) % 32768 :=
  ⟨by decide, c9_rand_lottery.1 0 (by decide)⟩

/-- C2 witness: the `getblk` postcondition at the freshly initialized
four-buffer pool and the request `(1, 10)`, which returns slot
`buffers[0]`. -/
theorem c2_getblk_spec_witness :
    (getblk (binitState 4 1 0 1) 1 10
        = Outcome.ok (Ptr.buf 0) ((getblk (binitState 4 1 0 1) 1 10).state) ∧
      (0:Int) ≤ (readPtr (binitState 4 1 0 1) (Ptr.buf 0)).count) ∧
    ((readPtr ((getblk (binitState 4 1 0 1) 1 10).state) (Ptr.buf 0)).dev = 1 ∧
      (readPtr ((getblk (binitState 4 1 0 1) 1 10).state) (Ptr.buf 0)).num = 10 ∧
      (readPtr ((getblk (binitState 4 1 0 1) 1 10).state) (Ptr.buf 0)).flags
        &&& BUFFER_LOCKED ≠ 0 ∧
      1 ≤ (readPtr ((getblk (binitState 4 1 0 1) 1 10).state) (Ptr.buf 0)).count) ∧
    getblk (binitState 4 1 0 1) 0 0 = Outcome.panic KPanic.getblk00 (binitState 4 1 0 1) :=
  ⟨⟨rfl, by decide⟩,
   c2_getblk_spec.1 (binitState 4 1 0 1) 1 10 (Ptr.buf 0)
      ((getblk (binitState 4 1 0 1) 1 10).state) rfl (by decide),
   c2_getblk_spec.2 (binitState 4 1 0 1)⟩

/-- C3 witness: releasing the locked, once-held buffer `getblk` just
returned on the fresh pool decrements its count to zero. -/
theorem c3_brelse_spec_witness :
    ((readPtr ((bread (binitState 4 1 0 1) 1 10).state) (Ptr.buf 0)).flags
        &&& BUFFER_LOCKED ≠ 0) ∧
    (1 ≤ (readPtr ((bread (binitState 4 1 0 1) 1 10).state) (Ptr.buf 0)).count) ∧
    ∃ s', brelse ((bread (binitState 4 1 0 1) 1 10).state) (Ptr.buf 0) = Outcome.ok () s' ∧
      (readPtr s' (Ptr.buf 0)).count
        = (readPtr ((bread (binitState 4 1 0 1) 1 10).state) (Ptr.buf 0)).count - 1 :=
  ⟨by decide, by decide,
    Exists.imp (fun s' h => ⟨h.1, h.2.1⟩)
      (c3_brelse_spec ((bread (binitState 4 1 0 1) 1 10).state) (Ptr.buf 0)
        (by decide) (by decide))⟩

/-- C4 witness: releasing an unheld buffer of the fresh pool panics
with "freeing buffer twice", its count driven to `-1`. -/
theorem c4_brelse_double_free_witness :
    (readPtr (binitState 4 1 0 1) (Ptr.buf 0)).count = 0 ∧
    (brelse (binitState 4 1 0 1) (Ptr.buf 0)).panicMsg? = some KPanic.freeingTwice ∧
    (readPtr (brelse (binitState 4 1 0 1) (Ptr.buf 0)).state (Ptr.buf 0)).count = -1 :=
  ⟨by decide,
   (c4_brelse_double_free (binitState 4 1 0 1) (Ptr.buf 0) (by decide)).1,
   (c4_brelse_double_free (binitState 4 1 0 1) (Ptr.buf 0) (by decide)).2.2.2⟩

/-- C5 witness: the miss/hit law at the spec's example `(d, n) =
(1, 10)` — one device read on the first `bread`, still one after the
second. -/
theorem c5_bread_hit_path_witness :
    (¬ ((1:Nat) = 0 ∧ (10:Nat) = 0)) ∧
    (bread (binitState 4 1 0 1) 1 10).val? = some (Ptr.buf 0) ∧
    countReads
      (bread (brelse (bread (binitState 4 1 0 1) 1 10).state (Ptr.buf 0)).state 1 10).state
      = 1 :=
  ⟨by decide, (c5_bread_hit_path 1 10 (by decide)).1,
    (c5_bread_hit_path 1 10 (by decide)).2.2.2.2.2⟩

/-- C7 witness: the amended `binit` state law read back at buffer `0`
of the four-buffer pool. -/
theorem c7_binit_amended_witness :
    (0:Nat) < 4 ∧
    readPtr (binitState 4 1 0 1) (Ptr.buf 0) =
      { dev := 0, num := 0, data := 0 + 0 * 1, count := 0,
        flags := compl32 (BUFFER_VALID ||| BUFFER_BUSY ||| BUFFER_LOCKED ||| BUFFER_DIRTY),
        chain := [],
        free_next := if 0 + 1 = 4 then Ptr.freeHead else Ptr.buf (0 + 1),
        free_prev := if 0 = 0 then Ptr.freeHead else Ptr.buf (0 - 1),
        hash_next := Ptr.buf 0, hash_prev := Ptr.buf 0 } :=
  ⟨by decide, (c7_binit_amended 4 1 0 1).1 0 (by decide)⟩

end Nanvix
